import Mathlib

/-!
# Multi-hop uniform neighbour sampling: the two drivers

A shallow embedding of `cpp/src/sampling/uniform_neighbor_sampling_impl.hpp`
(the build in which sampling is available, i.e. the `#else` branch of
`NO_CUGRAPH_OPS`), followed by theorems about the drivers.

Conventions of the embedding.

* A `rmm::device_uvector<T>` is a list of cells; a cell is `none` while it has
  never been written (`resize` leaves fresh cells uninitialised).  `none` says
  that a cell is unwritten, not what it holds: the program reads whatever the
  allocation held there, so statements that compare the results of two runs
  compare written cells only and say of the others that they are unwritten.
* `uint64_t` / `size_t` values are naturals, reduced `% 2 ^ 64` after every
  arithmetic operation of the source; `int32_t hop` is an integer and `++hop`
  past `INT32_MAX` is a failure.
* Reading past the end of a vector, writing past the end of a vector and
  dereferencing an empty `std::optional` have no defined behaviour in the
  source; the embedding stops with a `Failure` there.
* Line 263, `d_labels = std::move(d_labels)`, is a move-assignment of the
  labels to themselves; `rmm` buffers guard against self-assignment, so it
  leaves the labels as they are.
* The primitives that live outside this file (the frontier shuffles, the two
  edge expanders `sample_edges` / `gather_one_hop_edgelist`, and
  `count_and_remove_duplicates`) are parameters, bundled in `plain_ops` and
  `sample_ops`.  Every invocation of a primitive is recorded, with its
  arguments and its return value, in the `calls` log of the loop state.
-/

namespace cugraph

/-! ## Data model -/

/-- Template parameter `vertex_t` (an integral vertex id). -/
abbrev vertex_t := Int
/-- Template parameter `edge_t` (an integral edge id / edge count). -/
abbrev edge_t := Int
/-- Template parameter `weight_t`; weights are payload only, the drivers never
compute with them, so the numeric type is immaterial. -/
abbrev weight_t := Int
/-- Template parameter `edge_type_t`. -/
abbrev edge_type_t := Int

/-- A `rmm::device_uvector<T>`; `none` is a cell that was never written. -/
abbrev device_uvector (α : Type) := List (Option α)

/-- The ways a driver can stop without a result. -/
inductive Failure where
  /-- thrown by `CUGRAPH_EXPECTS` -/
  | invalid_argument
  /-- a `raft::copy` / `scalar_fill` that leaves its source or destination -/
  | out_of_bounds
  /-- the access `operator->` on an empty `std::optional` -/
  | bad_optional_access
  /-- the increment `++hop` on `INT32_MAX` -/
  | integer_overflow
deriving DecidableEq, Repr

/-- The part of `raft::handle_t` the drivers read: `get_comms().get_rank()` and
`get_comms().get_size()`. -/
structure handle_t where
  comm_rank : Nat
  comm_size : Nat
deriving DecidableEq, Repr

/-- The tuple returned by the three-column overloads of `sample_edges` and
`gather_one_hop_edgelist` (used by `uniform_nbr_sample_impl`). -/
structure plain_hop_output where
  src : device_uvector vertex_t
  dst : device_uvector vertex_t
  weights : Option (device_uvector weight_t)
deriving DecidableEq, Repr

/-- The tuple returned by the six-column overloads of `sample_edges` and
`gather_one_hop_edgelist` (used by `uniform_neighbor_sample_impl`). -/
structure hop_output where
  src : device_uvector vertex_t
  dst : device_uvector vertex_t
  edge_id : device_uvector edge_t
  weight : Option (device_uvector weight_t)
  edge_type : Option (device_uvector edge_type_t)
  label : Option (device_uvector Int)
deriving DecidableEq, Repr

/-- The tuple returned by `count_and_remove_duplicates`, which is also the
return value of `uniform_nbr_sample_impl`. -/
structure plain_result where
  src : device_uvector vertex_t
  dst : device_uvector vertex_t
  weight : device_uvector weight_t
  count : device_uvector edge_t
deriving DecidableEq, Repr

/-- One invocation of an external primitive, with its arguments (those that
vary during a run) and the value it returned.  `Out` is the tuple type of the
edge expander overload in use. -/
inductive Call (Out : Type) where
  | shuffle_int_vertices_by_gpu_id
      (d_in : device_uvector vertex_t) (ret : device_uvector vertex_t)
  | shuffle_int_vertices_and_values_by_gpu_id
      (d_in : device_uvector vertex_t) (d_labels : device_uvector Int)
      (ret : device_uvector vertex_t × device_uvector Int)
  | sample_edges
      (rng_seed : Nat) (d_in : device_uvector vertex_t)
      (d_labels : Option (device_uvector Int)) (k : Nat) (with_replacement : Bool)
      (ret : Out)
  | gather_one_hop_edgelist
      (d_in : device_uvector vertex_t) (d_labels : Option (device_uvector Int))
      (ret : Out)
  | count_and_remove_duplicates
      (src : device_uvector vertex_t) (dst : device_uvector vertex_t)
      (weights : device_uvector weight_t) (ret : plain_result)
deriving DecidableEq, Repr

/-- A run that stopped: why, and the primitives invoked up to that point. -/
structure Abort (Out : Type) where
  reason : Failure
  calls : List (Call Out)
deriving DecidableEq, Repr

/-- External primitives used by `uniform_nbr_sample_impl`.  `G` is the graph
view type, `WV` the edge weight view type. -/
structure plain_ops (G WV : Type) where
  vertex_partition_range_lasts : G → List vertex_t
  shuffle_int_vertices_by_gpu_id :
    handle_t → device_uvector vertex_t → List vertex_t → device_uvector vertex_t
  /-- arguments: handle, graph view, weight view, seed of the `RngState`,
  vertex batch, `k`, `with_replacement` -/
  sample_edges :
    handle_t → G → Option WV → Nat → device_uvector vertex_t → Nat → Bool → plain_hop_output
  gather_one_hop_edgelist :
    handle_t → G → Option WV → device_uvector vertex_t → plain_hop_output
  count_and_remove_duplicates :
    handle_t → device_uvector vertex_t → device_uvector vertex_t →
      device_uvector weight_t → plain_result

/-- External primitives used by `uniform_neighbor_sample_impl`.  `G` is the
graph view type, `WV` / `TV` the edge weight / edge type view types. -/
structure sample_ops (G WV TV : Type) where
  vertex_partition_range_lasts : G → List vertex_t
  shuffle_int_vertices_by_gpu_id :
    handle_t → device_uvector vertex_t → List vertex_t → device_uvector vertex_t
  shuffle_int_vertices_and_values_by_gpu_id :
    handle_t → device_uvector vertex_t → device_uvector Int → List vertex_t →
      device_uvector vertex_t × device_uvector Int
  /-- arguments: handle, graph view, weight view, type view, seed of the
  `RngState`, vertex batch, labels, `k`, `with_replacement` -/
  sample_edges :
    handle_t → G → Option WV → Option TV → Nat → device_uvector vertex_t →
      Option (device_uvector Int) → Nat → Bool → hop_output
  gather_one_hop_edgelist :
    handle_t → G → Option WV → Option TV → device_uvector vertex_t →
      Option (device_uvector Int) → hop_output

/-! ## Vector primitives -/

/-- The method `rmm::device_uvector<T>::resize`: keeps the first cells, new
cells are uninitialised.  The `none` of a new cell marks it as unwritten; its
content in the program is unspecified. -/
def resize {α : Type} (v : device_uvector α) (new_size : Nat) : device_uvector α :=
  v.take new_size ++ List.replicate (new_size - v.length) none

/-- The call `raft::copy(dst.begin() + off, src.begin(), len, stream)`. -/
def raft.copy {α : Type} (dst : device_uvector α) (off : Nat) (src : device_uvector α)
    (len : Nat) : Except Failure (device_uvector α) :=
  if len ≤ src.length ∧ off + len ≤ dst.length then
    .ok (dst.take off ++ src.take len ++ dst.drop (off + len))
  else
    .error .out_of_bounds

/-- The call `detail::scalar_fill(handle, dst.data() + off, len, value)`. -/
def detail.scalar_fill {α : Type} (dst : device_uvector α) (off : Nat) (len : Nat)
    (value : α) : Except Failure (device_uvector α) :=
  if off + len ≤ dst.length then
    .ok (dst.take off ++ List.replicate len (some value) ++ dst.drop (off + len))
  else
    .error .out_of_bounds

/-- The access `opt->...` on a `std::optional`. -/
def deref {α : Type} : Option α → Except Failure α
  | some a => .ok a
  | none => .error .bad_optional_access

/-- The statement `seed += d_in.size() * k_level * comm_size` on `uint64_t seed`, with
`k_level > 0` given as a natural. -/
def advance_seed (seed d_in_size k_level comm_size : Nat) : Nat :=
  (seed + ((d_in_size * k_level) % 2 ^ 64 * comm_size) % 2 ^ 64) % 2 ^ 64

/-- The statement `++hop` on `int32_t hop`. -/
def incr_hop (hop : Int) : Except Failure Int :=
  if hop + 1 < 2 ^ 31 then .ok (hop + 1) else .error .integer_overflow

/-- What a driver hands back when it returns normally: the returned tuple and
the primitives it invoked, in order. -/
structure Returned (R Out : Type) where
  value : R
  calls : List (Call Out)
deriving DecidableEq, Repr

namespace detail

/-! ## `uniform_nbr_sample_impl` (lines 41-124) -/

/-- Local variables of `uniform_nbr_sample_impl` that live across hops
(`d_in` is the in-out reference parameter), plus the log of primitive calls. -/
structure nbr_state where
  d_in : device_uvector vertex_t
  seed : Nat
  hop : Int
  comm_size : Nat
  d_result_src : device_uvector vertex_t
  d_result_dst : device_uvector vertex_t
  d_result_weights : device_uvector weight_t
  calls : List (Call plain_hop_output)
deriving DecidableEq, Repr

/-- Lines 58-69: the accumulators start empty, `hop{0}`, `comm_size{1}`, and
under `multi_gpu` the rank is added to the seed and `comm_size` is read. -/
def nbr_init (multi_gpu : Bool) (handle : handle_t) (d_in : device_uvector vertex_t)
    (seed : Nat) : nbr_state :=
  { d_in := d_in
    seed := if multi_gpu then (seed + handle.comm_rank) % 2 ^ 64 else seed
    hop := 0
    comm_size := if multi_gpu then handle.comm_size else 1
    d_result_src := []
    d_result_dst := []
    d_result_weights := []
    calls := [] }

/-- Lines 73-76: the frontier shuffle, only under `multi_gpu`. -/
def nbr_shuffle {G WV : Type} (ops : plain_ops G WV) (multi_gpu : Bool) (handle : handle_t)
    (graph_view : G) (s : nbr_state) : nbr_state :=
  if multi_gpu then
    let r := ops.shuffle_int_vertices_by_gpu_id handle s.d_in
      (ops.vertex_partition_range_lasts graph_view)
    { s with d_in := r, calls := s.calls ++ [Call.shuffle_int_vertices_by_gpu_id s.d_in r] }
  else s

/-- Lines 82-96: the edge expander call; for `k_level > 0` the `RngState` is
built from the current seed and the seed is advanced, otherwise all neighbours
are gathered and the seed is left alone. -/
def nbr_expand {G WV : Type} (ops : plain_ops G WV) (handle : handle_t) (graph_view : G)
    (edge_weight_view : Option WV) (with_replacement : Bool) (s : nbr_state) (k_level : Int) :
    nbr_state × plain_hop_output :=
  if k_level > 0 then
    let out := ops.sample_edges handle graph_view edge_weight_view s.seed s.d_in
      k_level.toNat with_replacement
    ({ s with
        seed := advance_seed s.seed s.d_in.length k_level.toNat s.comm_size
        calls := s.calls ++
          [Call.sample_edges s.seed s.d_in none k_level.toNat with_replacement out] }, out)
  else
    let out := ops.gather_one_hop_edgelist handle graph_view edge_weight_view s.d_in
    ({ s with calls := s.calls ++ [Call.gather_one_hop_edgelist s.d_in none out] }, out)

/-- Lines 98-114: resize the three accumulators to `old_sz + add_sz` and copy
the hop's columns behind the old rows; each copy takes the length of its own
source column, and the weight column is dereferenced unconditionally. -/
def nbr_append (s : nbr_state) (out : plain_hop_output) : Except Failure nbr_state := do
  let old_sz := s.d_result_dst.length
  let add_sz := out.dst.length
  let new_sz := old_sz + add_sz
  let r_src := resize s.d_result_src new_sz
  let r_dst := resize s.d_result_dst new_sz
  let r_weights := resize s.d_result_weights new_sz
  let r_src ← raft.copy r_src old_sz out.src out.src.length
  let r_dst ← raft.copy r_dst old_sz out.dst out.dst.length
  let d_out_weights ← deref out.weights
  let r_weights ← raft.copy r_weights old_sz d_out_weights d_out_weights.length
  pure { s with d_result_src := r_src, d_result_dst := r_dst, d_result_weights := r_weights }

/-- One iteration of the loop of lines 71-119. -/
def nbr_hop {G WV : Type} (ops : plain_ops G WV) (multi_gpu : Bool) (handle : handle_t)
    (graph_view : G) (edge_weight_view : Option WV) (with_replacement : Bool)
    (s : nbr_state) (k_level : Int) : Except (Abort plain_hop_output) nbr_state :=
  let s1 := nbr_shuffle ops multi_gpu handle graph_view s
  let e := nbr_expand ops handle graph_view edge_weight_view with_replacement s1 k_level
  match nbr_append e.1 e.2 with
  | .error f => .error ⟨f, e.1.calls⟩
  | .ok s3 =>
    match incr_hop s3.hop with
    | .error f => .error ⟨f, s3.calls⟩
    | .ok h => .ok { s3 with d_in := e.2.dst, hop := h }

/-- The loop `for (auto&& k_level : h_fan_out)` of lines 71-119. -/
def nbr_loop {G WV : Type} (ops : plain_ops G WV) (multi_gpu : Bool) (handle : handle_t)
    (graph_view : G) (edge_weight_view : Option WV) (with_replacement : Bool) :
    nbr_state → List Int → Except (Abort plain_hop_output) nbr_state
  | s, [] => .ok s
  | s, k_level :: rest =>
    match nbr_hop ops multi_gpu handle graph_view edge_weight_view with_replacement s k_level with
    | .error a => .error a
    | .ok s1 => nbr_loop ops multi_gpu handle graph_view edge_weight_view with_replacement s1 rest

/-- The function `uniform_nbr_sample_impl`: entry check, hop loop, then
`count_and_remove_duplicates` over the accumulated columns. -/
def uniform_nbr_sample_impl {G WV : Type} (ops : plain_ops G WV) (multi_gpu : Bool)
    (handle : handle_t) (graph_view : G) (edge_weight_view : Option WV)
    (d_in : device_uvector vertex_t) (h_fan_out : List Int) (with_replacement : Bool)
    (seed : Nat) : Except (Abort plain_hop_output) (Returned plain_result plain_hop_output) :=
  if h_fan_out.length > 0 then
    match nbr_loop ops multi_gpu handle graph_view edge_weight_view with_replacement
        (nbr_init multi_gpu handle d_in seed) h_fan_out with
    | .error a => .error a
    | .ok s =>
      let r := ops.count_and_remove_duplicates handle s.d_result_src s.d_result_dst
        s.d_result_weights
      .ok { value := r
            calls := s.calls ++ [Call.count_and_remove_duplicates s.d_result_src
              s.d_result_dst s.d_result_weights r] }
  else
    .error ⟨Failure.invalid_argument, []⟩

/-! ## `uniform_neighbor_sample_impl` (lines 139-276) -/

/-- The tuple returned by `uniform_neighbor_sample_impl`. -/
structure sample_result where
  src : device_uvector vertex_t
  dst : device_uvector vertex_t
  edge_id : device_uvector edge_t
  edge_type : Option (device_uvector edge_type_t)
  weight : Option (device_uvector weight_t)
  hop : device_uvector Int
  label : Option (device_uvector Int)
deriving DecidableEq, Repr

/-- Local variables of `uniform_neighbor_sample_impl` that live across hops
(`d_in` and `d_labels` are the in-out reference parameters), plus the log of
primitive calls. -/
structure sample_state where
  d_in : device_uvector vertex_t
  d_labels : Option (device_uvector Int)
  seed : Nat
  hop : Int
  comm_size : Nat
  d_result_src : device_uvector vertex_t
  d_result_dst : device_uvector vertex_t
  d_result_edge_id : device_uvector edge_t
  d_result_weight : Option (device_uvector weight_t)
  d_result_edge_type : Option (device_uvector edge_type_t)
  d_result_hop : device_uvector Int
  d_result_label : Option (device_uvector Int)
  calls : List (Call hop_output)
deriving DecidableEq, Repr

/-- Lines 161-181: empty accumulators, an optional accumulator exists exactly
when the matching input was supplied; `hop{0}`, `comm_size{1}`; under
`multi_gpu` the rank is added to the seed and `comm_size` is read. -/
def sample_init {WV TV : Type} (multi_gpu : Bool) (handle : handle_t)
    (edge_weight_view : Option WV) (edge_type_view : Option TV)
    (d_in : device_uvector vertex_t) (d_labels : Option (device_uvector Int))
    (seed : Nat) : sample_state :=
  { d_in := d_in
    d_labels := d_labels
    seed := if multi_gpu then (seed + handle.comm_rank) % 2 ^ 64 else seed
    hop := 0
    comm_size := if multi_gpu then handle.comm_size else 1
    d_result_src := []
    d_result_dst := []
    d_result_edge_id := []
    d_result_weight := if edge_weight_view.isSome then some [] else none
    d_result_edge_type := if edge_type_view.isSome then some [] else none
    d_result_hop := []
    d_result_label := if d_labels.isSome then some [] else none
    calls := [] }

/-- Lines 185-193: the frontier shuffle, only under `multi_gpu`; the labels
travel with the vertices when there are labels. -/
def sample_shuffle {G WV TV : Type} (ops : sample_ops G WV TV) (multi_gpu : Bool)
    (handle : handle_t) (graph_view : G) (s : sample_state) : sample_state :=
  if multi_gpu then
    match s.d_labels with
    | some labels =>
      let r := ops.shuffle_int_vertices_and_values_by_gpu_id handle s.d_in labels
        (ops.vertex_partition_range_lasts graph_view)
      { s with
          d_in := r.1
          d_labels := some r.2
          calls := s.calls ++ [Call.shuffle_int_vertices_and_values_by_gpu_id s.d_in labels r] }
    | none =>
      let r := ops.shuffle_int_vertices_by_gpu_id handle s.d_in
        (ops.vertex_partition_range_lasts graph_view)
      { s with d_in := r, calls := s.calls ++ [Call.shuffle_int_vertices_by_gpu_id s.d_in r] }
  else s

/-- Lines 202-221: the edge expander call; for `k_level > 0` the `RngState` is
built from the current seed and the seed is advanced, otherwise all neighbours
are gathered and the seed is left alone. -/
def sample_expand {G WV TV : Type} (ops : sample_ops G WV TV) (handle : handle_t)
    (graph_view : G) (edge_weight_view : Option WV) (edge_type_view : Option TV)
    (with_replacement : Bool) (s : sample_state) (k_level : Int) :
    sample_state × hop_output :=
  if k_level > 0 then
    let out := ops.sample_edges handle graph_view edge_weight_view edge_type_view s.seed
      s.d_in s.d_labels k_level.toNat with_replacement
    ({ s with
        seed := advance_seed s.seed s.d_in.length k_level.toNat s.comm_size
        calls := s.calls ++
          [Call.sample_edges s.seed s.d_in s.d_labels k_level.toNat with_replacement out] }, out)
  else
    let out := ops.gather_one_hop_edgelist handle graph_view edge_weight_view edge_type_view
      s.d_in s.d_labels
    ({ s with calls := s.calls ++ [Call.gather_one_hop_edgelist s.d_in s.d_labels out] }, out)

/-- Lines 232-234: `if (acc) acc->resize(new_sz, ...)`. -/
def resize_opt {α : Type} (acc : Option (device_uvector α)) (new_size : Nat) :
    Option (device_uvector α) :=
  acc.map (fun v => resize v new_size)

/-- Lines 245-253: `if (acc) raft::copy(acc->begin() + off, d_out->begin(), len, ...)`;
the hop's column is dereferenced only when the accumulator exists. -/
def copy_opt {α : Type} (acc : Option (device_uvector α)) (off : Nat)
    (d_out : Option (device_uvector α)) (len : Nat) : Except Failure (Option (device_uvector α)) :=
  match acc with
  | none => .ok none
  | some v => do
    let src ← deref d_out
    let v1 ← raft.copy v off src len
    pure (some v1)

/-- Lines 223-260: resize every accumulator to `old_sz + add_sz`, copy `add_sz`
cells of the hop's src, dst and edge id columns behind the old rows, fill the
new span of the hop column with `hop`, and copy `add_sz` cells of the weight
and edge type columns when those accumulators exist.  The label accumulator is
resized only (the copy into it is commented out in the source). -/
def sample_append (s : sample_state) (out : hop_output) : Except Failure sample_state := do
  let old_sz := s.d_result_dst.length
  let add_sz := out.dst.length
  let new_sz := old_sz + add_sz
  let r_src := resize s.d_result_src new_sz
  let r_dst := resize s.d_result_dst new_sz
  let r_edge_id := resize s.d_result_edge_id new_sz
  let r_hop := resize s.d_result_hop new_sz
  let r_weight := resize_opt s.d_result_weight new_sz
  let r_edge_type := resize_opt s.d_result_edge_type new_sz
  let r_label := resize_opt s.d_result_label new_sz
  let r_src ← raft.copy r_src old_sz out.src add_sz
  let r_dst ← raft.copy r_dst old_sz out.dst add_sz
  let r_edge_id ← raft.copy r_edge_id old_sz out.edge_id add_sz
  let r_hop ← scalar_fill r_hop old_sz add_sz s.hop
  let r_weight ← copy_opt r_weight old_sz out.weight add_sz
  let r_edge_type ← copy_opt r_edge_type old_sz out.edge_type add_sz
  pure { s with
    d_result_src := r_src
    d_result_dst := r_dst
    d_result_edge_id := r_edge_id
    d_result_hop := r_hop
    d_result_weight := r_weight
    d_result_edge_type := r_edge_type
    d_result_label := r_label }

/-- One iteration of the loop of lines 183-266.  Line 262 makes the hop's dst
column the next frontier; line 263, `d_labels = std::move(d_labels)`, assigns
the labels to themselves and so leaves them as they are. -/
def sample_hop {G WV TV : Type} (ops : sample_ops G WV TV) (multi_gpu : Bool)
    (handle : handle_t) (graph_view : G) (edge_weight_view : Option WV)
    (edge_type_view : Option TV) (with_replacement : Bool)
    (s : sample_state) (k_level : Int) : Except (Abort hop_output) sample_state :=
  let s1 := sample_shuffle ops multi_gpu handle graph_view s
  let e := sample_expand ops handle graph_view edge_weight_view edge_type_view
    with_replacement s1 k_level
  match sample_append e.1 e.2 with
  | .error f => .error ⟨f, e.1.calls⟩
  | .ok s3 =>
    match incr_hop s3.hop with
    | .error f => .error ⟨f, s3.calls⟩
    | .ok h => .ok { s3 with d_in := e.2.dst, d_labels := s3.d_labels, hop := h }

/-- The loop `for (auto&& k_level : h_fan_out)` of lines 183-266. -/
def sample_loop {G WV TV : Type} (ops : sample_ops G WV TV) (multi_gpu : Bool)
    (handle : handle_t) (graph_view : G) (edge_weight_view : Option WV)
    (edge_type_view : Option TV) (with_replacement : Bool) :
    sample_state → List Int → Except (Abort hop_output) sample_state
  | s, [] => .ok s
  | s, k_level :: rest =>
    match sample_hop ops multi_gpu handle graph_view edge_weight_view edge_type_view
        with_replacement s k_level with
    | .error a => .error a
    | .ok s1 =>
      sample_loop ops multi_gpu handle graph_view edge_weight_view edge_type_view
        with_replacement s1 rest

/-- The function `uniform_neighbor_sample_impl`: entry check, hop loop, then
the seven accumulated columns are returned as they are. -/
def uniform_neighbor_sample_impl {G WV TV : Type} (ops : sample_ops G WV TV)
    (multi_gpu : Bool) (handle : handle_t) (graph_view : G) (edge_weight_view : Option WV)
    (edge_type_view : Option TV) (d_in : device_uvector vertex_t)
    (d_labels : Option (device_uvector Int)) (h_fan_out : List Int)
    (with_replacement : Bool) (seed : Nat) :
    Except (Abort hop_output) (Returned sample_result hop_output) :=
  if h_fan_out.length > 0 then
    match sample_loop ops multi_gpu handle graph_view edge_weight_view edge_type_view
        with_replacement
        (sample_init multi_gpu handle edge_weight_view edge_type_view d_in d_labels seed)
        h_fan_out with
    | .error a => .error a
    | .ok s =>
      .ok { value :=
              { src := s.d_result_src
                dst := s.d_result_dst
                edge_id := s.d_result_edge_id
                edge_type := s.d_result_edge_type
                weight := s.d_result_weight
                hop := s.d_result_hop
                label := s.d_result_label }
            calls := s.calls }
  else
    .error ⟨Failure.invalid_argument, []⟩

end detail

/-! ## The public entry points (lines 280-355) -/

/-- Lines 297-299 and 332-343: a fresh vector of the span's size, filled by
`raft::copy` from the span. -/
def copy_span {α : Type} (span : device_uvector α) : Except Failure (device_uvector α) :=
  raft.copy (List.replicate span.length none) 0 span span.length

/-- The function `uniform_nbr_sample` (PlainSample): copies the starting
vertices and calls `uniform_nbr_sample_impl`. -/
def uniform_nbr_sample {G WV : Type} (ops : plain_ops G WV) (multi_gpu : Bool)
    (handle : handle_t) (graph_view : G) (edge_weight_view : Option WV)
    (starting_vertices : device_uvector vertex_t) (fan_out : List Int)
    (with_replacement : Bool) (seed : Nat) :
    Except (Abort plain_hop_output) (Returned plain_result plain_hop_output) :=
  match copy_span starting_vertices with
  | .error f => .error ⟨f, []⟩
  | .ok d_start_vs =>
    detail.uniform_nbr_sample_impl ops multi_gpu handle graph_view edge_weight_view
      d_start_vs fan_out with_replacement seed

/-- The function `uniform_neighbor_sample` (ExtendedSample): copies the
starting vertices and, when supplied, the starting labels, and calls
`uniform_neighbor_sample_impl`. -/
def uniform_neighbor_sample {G WV TV : Type} (ops : sample_ops G WV TV) (multi_gpu : Bool)
    (handle : handle_t) (graph_view : G) (edge_weight_view : Option WV)
    (edge_type_view : Option TV) (starting_vertices : device_uvector vertex_t)
    (starting_labels : Option (device_uvector Int)) (fan_out : List Int)
    (with_replacement : Bool) (seed : Nat) :
    Except (Abort hop_output) (Returned detail.sample_result hop_output) :=
  match copy_span starting_vertices with
  | .error f => .error ⟨f, []⟩
  | .ok d_start_vs =>
    match starting_labels with
    | none =>
      detail.uniform_neighbor_sample_impl ops multi_gpu handle graph_view edge_weight_view
        edge_type_view d_start_vs none fan_out with_replacement seed
    | some labels =>
      match copy_span labels with
      | .error f => .error ⟨f, []⟩
      | .ok d_start_labels =>
        detail.uniform_neighbor_sample_impl ops multi_gpu handle graph_view edge_weight_view
          edge_type_view d_start_vs (some d_start_labels) fan_out with_replacement seed

/-! ## Predicates used in the statements -/

/-- An optional column, when present, has `n` cells. -/
def column_length_is {α : Type} (col : Option (device_uvector α)) (n : Nat) : Prop :=
  col.map List.length = col.map (fun _ => n)

/-- All accumulators of `uniform_nbr_sample_impl` have the same length. -/
def detail.nbr_state.aligned (s : detail.nbr_state) : Prop :=
  s.d_result_src.length = s.d_result_dst.length ∧
  s.d_result_weights.length = s.d_result_dst.length

/-- All populated accumulators of `uniform_neighbor_sample_impl` have the same
length. -/
def detail.sample_state.aligned (s : detail.sample_state) : Prop :=
  s.d_result_src.length = s.d_result_dst.length ∧
  s.d_result_edge_id.length = s.d_result_dst.length ∧
  s.d_result_hop.length = s.d_result_dst.length ∧
  column_length_is s.d_result_weight s.d_result_dst.length ∧
  column_length_is s.d_result_edge_type s.d_result_dst.length ∧
  column_length_is s.d_result_label s.d_result_dst.length

/-- All populated columns of a returned `uniform_neighbor_sample_impl` tuple
have the same length. -/
def detail.sample_result.aligned (r : detail.sample_result) : Prop :=
  r.src.length = r.dst.length ∧
  r.edge_id.length = r.dst.length ∧
  r.hop.length = r.dst.length ∧
  column_length_is r.weight r.dst.length ∧
  column_length_is r.edge_type r.dst.length ∧
  column_length_is r.label r.dst.length

/-- The columns of an expander result that `uniform_neighbor_sample_impl`
reads have one length: src, dst and edge id, and the weight (edge type) column,
which is present when a weight (edge type) view was supplied. -/
def hop_output.well_formed (out : hop_output) (has_weight has_type : Bool) : Prop :=
  out.src.length = out.dst.length ∧
  out.edge_id.length = out.dst.length ∧
  (has_weight = true → out.weight.map List.length = some out.dst.length) ∧
  (has_type = true → out.edge_type.map List.length = some out.dst.length)

/-! ## Reading the log of primitive calls -/

/-- The tuple an edge expander call returned (`none` for other primitives). -/
def Call.expander_output {Out : Type} : Call Out → Option Out
  | .sample_edges _ _ _ _ _ ret => some ret
  | .gather_one_hop_edgelist _ _ ret => some ret
  | _ => none

/-- The vertex batch handed to an edge expander call. -/
def Call.expander_batch {Out : Type} : Call Out → Option (device_uvector vertex_t)
  | .sample_edges _ d_in _ _ _ _ => some d_in
  | .gather_one_hop_edgelist d_in _ _ => some d_in
  | _ => none

/-- The labels argument handed to an edge expander call. -/
def Call.expander_labels {Out : Type} : Call Out → Option (Option (device_uvector Int))
  | .sample_edges _ _ d_labels _ _ _ => some d_labels
  | .gather_one_hop_edgelist _ d_labels _ => some d_labels
  | _ => none

/-- The seed of the `RngState` handed to a `sample_edges` call. -/
def Call.rng_seed {Out : Type} : Call Out → Option Nat
  | .sample_edges rng_seed _ _ _ _ _ => some rng_seed
  | _ => none

/-- The tuples returned by the edge expander calls of a log, in call order. -/
def expander_outputs {Out : Type} (calls : List (Call Out)) : List Out :=
  calls.filterMap Call.expander_output

/-- The vertex batches handed to the edge expander calls of a log. -/
def expander_batches {Out : Type} (calls : List (Call Out)) : List (device_uvector vertex_t) :=
  calls.filterMap Call.expander_batch

/-- The labels arguments handed to the edge expander calls of a log. -/
def expander_label_args {Out : Type} (calls : List (Call Out)) :
    List (Option (device_uvector Int)) :=
  calls.filterMap Call.expander_labels

/-- The seeds from which the `RngState`s of a log were constructed. -/
def rng_seeds_of {Out : Type} (calls : List (Call Out)) : List Nat :=
  calls.filterMap Call.rng_seed

/-- The primitives a run invoked, whether it returned or stopped. -/
def calls_of {Out S : Type} (get : S → List (Call Out)) : Except (Abort Out) S → List (Call Out)
  | .ok s => get s
  | .error a => a.calls

/-- The hop column written by consecutive hops starting at index `hop`: hop
`hop + i` contributes one cell per row of the `i`-th dst column. -/
def hop_column (hop : Int) : List hop_output → device_uvector Int
  | [] => []
  | o :: os => List.replicate o.dst.length (some hop) ++ hop_column (hop + 1) os

/-- The seeds from which `RngState`s are constructed by a loop that starts with
`seed` and meets, hop after hop, the given (frontier size, fan-out) pairs:
lines 82-84 / 202-204 without the expander. -/
def rng_seeds (seed comm_size : Nat) : List (Nat × Int) → List Nat
  | [] => []
  | (d_in_size, k_level) :: rest =>
    if k_level > 0 then
      seed :: rng_seeds (advance_seed seed d_in_size k_level.toNat comm_size) comm_size rest
    else
      rng_seeds seed comm_size rest

/-- The seed reached after the given (frontier size, fan-out) pairs when the
additions of lines 84 / 204 are carried out in the naturals, without the
reduction `% 2 ^ 64`; it is below `2 ^ 64` exactly when no addition of the run
wraps around. -/
def unreduced_seed (seed comm_size : Nat) : List (Nat × Int) → Nat
  | [] => seed
  | (d_in_size, k_level) :: rest =>
    if k_level > 0 then
      unreduced_seed (seed + d_in_size * k_level.toNat * comm_size) comm_size rest
    else
      unreduced_seed seed comm_size rest

/-! ## A small concrete environment

Used to evaluate the drivers on concrete inputs: every vertex `v` has the
single out-edge `v → v + 1` (edge id `v`, weight `v`, type `v`); sampling `k`
edges with replacement returns that edge `k` times, gathering returns it once.
The shuffles are the identity. -/

/-- Each cell of the batch repeated `k` times. -/
def chain_rows {α : Type} (batch : device_uvector α) (k : Nat) : device_uvector α :=
  batch.flatMap (fun v => List.replicate k v)

/-- The six-column expander result on the chain graph: `k` copies of the edge
`v → v + 1` per batch vertex; the optional columns follow the supplied views,
the label column repeats each vertex's label. -/
def chain_output (has_weight has_type : Bool) (d_in : device_uvector vertex_t)
    (d_labels : Option (device_uvector Int)) (k : Nat) : hop_output :=
  { src := chain_rows d_in k
    dst := (chain_rows d_in k).map (Option.map (· + 1))
    edge_id := chain_rows d_in k
    weight := if has_weight then some (chain_rows d_in k) else none
    edge_type := if has_type then some (chain_rows d_in k) else none
    label := d_labels.map (fun l => chain_rows l k) }

/-- Six-column primitives over the chain graph. -/
def chain_ops : sample_ops Unit Unit Unit where
  vertex_partition_range_lasts _ := []
  shuffle_int_vertices_by_gpu_id _ d _ := d
  shuffle_int_vertices_and_values_by_gpu_id _ d l _ := (d, l)
  sample_edges _ _ wv tv _ d_in d_labels k _ := chain_output wv.isSome tv.isSome d_in d_labels k
  gather_one_hop_edgelist _ _ wv tv d_in _ := chain_output wv.isSome tv.isSome d_in none 1

/-- Three-column primitives over the chain graph; the deduplicator keeps the
first occurrence of every (src, dst, weight) row and counts occurrences. -/
def chain_plain_ops : plain_ops Unit Unit where
  vertex_partition_range_lasts _ := []
  shuffle_int_vertices_by_gpu_id _ d _ := d
  sample_edges _ _ wv _ d_in k _ :=
    let o := chain_output wv.isSome false d_in none k
    { src := o.src, dst := o.dst, weights := o.weight }
  gather_one_hop_edgelist _ _ wv d_in :=
    let o := chain_output wv.isSome false d_in none 1
    { src := o.src, dst := o.dst, weights := o.weight }
  count_and_remove_duplicates _ src dst w :=
    let rows := (src.zip (dst.zip w))
    let keep := rows.eraseDups
    { src := keep.map (·.1)
      dst := keep.map (·.2.1)
      weight := keep.map (·.2.2)
      count := keep.map (fun r => some (rows.count r : Int)) }

/-! ### A concrete run

`uniform_neighbor_sample_impl` on the chain graph, single worker, weights
supplied, start vertex 1 with label 5, fan-out `[2, -1]`, with replacement,
seed 42. -/

/-- What the expander returns at hop 0 of the concrete run. -/
def chain_hop0 : hop_output :=
  { src := [some 1, some 1], dst := [some 2, some 2], edge_id := [some 1, some 1],
    weight := some [some 1, some 1], edge_type := none, label := some [some 5, some 5] }

/-- What the expander returns at hop 1 of the concrete run. -/
def chain_hop1 : hop_output :=
  { src := [some 2, some 2], dst := [some 3, some 3], edge_id := [some 2, some 2],
    weight := some [some 2, some 2], edge_type := none, label := none }

/-- The loop state of the concrete run after hop 0. -/
def chain_state1 : detail.sample_state :=
  { d_in := [some 2, some 2], d_labels := some [some 5], seed := 44, hop := 1, comm_size := 1,
    d_result_src := [some 1, some 1], d_result_dst := [some 2, some 2],
    d_result_edge_id := [some 1, some 1], d_result_weight := some [some 1, some 1],
    d_result_edge_type := none, d_result_hop := [some 0, some 0],
    d_result_label := some [none, none],
    calls := [Call.sample_edges 42 [some 1] (some [some 5]) 2 true chain_hop0] }

/-- What the concrete run returns. -/
def chain_returned : Returned detail.sample_result hop_output :=
  { value :=
      { src := [some 1, some 1, some 2, some 2], dst := [some 2, some 2, some 3, some 3],
        edge_id := [some 1, some 1, some 2, some 2], edge_type := none,
        weight := some [some 1, some 1, some 2, some 2],
        hop := [some 0, some 0, some 1, some 1], label := some [none, none, none, none] }
    calls :=
      [Call.sample_edges 42 [some 1] (some [some 5]) 2 true chain_hop0,
       Call.gather_one_hop_edgelist [some 2, some 2] (some [some 5]) chain_hop1] }

/-- The loop state of `uniform_nbr_sample_impl` on the same input after hop 0. -/
def chain_plain_state1 : detail.nbr_state :=
  { d_in := [some 2, some 2], seed := 44, hop := 1, comm_size := 1,
    d_result_src := [some 1, some 1], d_result_dst := [some 2, some 2],
    d_result_weights := [some 1, some 1],
    calls := [Call.sample_edges 42 [some 1] none 2 true
      { src := [some 1, some 1], dst := [some 2, some 2], weights := some [some 1, some 1] }] }

/-! ## Modes and per-hop seeds -/

/-- The branch taken at line 82 / 202 for one fan-out entry: `some (k, flag)` is
a `sample_edges` call for `k` edges with the replacement flag `flag`, `none` is
a `gather_one_hop_edgelist` call. -/
def fan_out_mode (with_replacement : Bool) (k_level : Int) : Option (Nat × Bool) :=
  if k_level > 0 then some (k_level.toNat, with_replacement) else none

/-- The mode of an edge expander call of the log (`none` for other
primitives). -/
def Call.mode {Out : Type} : Call Out → Option (Option (Nat × Bool))
  | .sample_edges _ _ _ k with_replacement _ => some (some (k, with_replacement))
  | .gather_one_hop_edgelist _ _ _ => some none
  | _ => none

/-- The modes of the edge expander calls of a log, in call order. -/
def expander_modes {Out : Type} (calls : List (Call Out)) : List (Option (Nat × Bool)) :=
  calls.filterMap Call.mode

/-- The seed of the `RngState` built for an edge expander call: `some seed` for
a `sample_edges` call, `none` for a `gather_one_hop_edgelist` call, which
builds no `RngState`. -/
def Call.hop_rng {Out : Type} : Call Out → Option (Option Nat)
  | .sample_edges rng_seed _ _ _ _ _ => some (some rng_seed)
  | .gather_one_hop_edgelist _ _ _ => some none
  | _ => none

/-- Per edge expander call of a log, the seed of the `RngState` built for it. -/
def hop_rng_seeds {Out : Type} (calls : List (Call Out)) : List (Option Nat) :=
  calls.filterMap Call.hop_rng

/-- Hop by hop, the seed of the `RngState` built by a loop that starts with
`seed` and meets the given (frontier size, fan-out) pairs: lines 82-84 /
202-204 without the expander; `none` where no `RngState` is built. -/
def hop_seeds (seed comm_size : Nat) : List (Nat × Int) → List (Option Nat)
  | [] => []
  | (d_in_size, k_level) :: rest =>
    if k_level > 0 then
      some seed :: hop_seeds (advance_seed seed d_in_size k_level.toNat comm_size) comm_size rest
    else
      none :: hop_seeds seed comm_size rest

/-- The sum of `frontier size * fan-out` over the hops with a positive
fan-out. -/
def sampled_work : List (Nat × Int) → Nat
  | [] => 0
  | (d_in_size, k_level) :: rest =>
    (if k_level > 0 then d_in_size * k_level.toNat else 0) + sampled_work rest

/-! ## Primitives that reproduce a log -/

/-- The six-column primitives `ops`, asked again with the arguments of the
logged call `c`, give the logged return value. -/
def sample_ops.answers {G WV TV : Type} (ops : sample_ops G WV TV) (handle : handle_t)
    (graph_view : G) (edge_weight_view : Option WV) (edge_type_view : Option TV)
    (c : Call hop_output) : Prop :=
  match c with
  | .shuffle_int_vertices_by_gpu_id d_in ret =>
    ops.shuffle_int_vertices_by_gpu_id handle d_in
      (ops.vertex_partition_range_lasts graph_view) = ret
  | .shuffle_int_vertices_and_values_by_gpu_id d_in d_labels ret =>
    ops.shuffle_int_vertices_and_values_by_gpu_id handle d_in d_labels
      (ops.vertex_partition_range_lasts graph_view) = ret
  | .sample_edges rng_seed d_in d_labels k with_replacement ret =>
    ops.sample_edges handle graph_view edge_weight_view edge_type_view rng_seed d_in d_labels k
      with_replacement = ret
  | .gather_one_hop_edgelist d_in d_labels ret =>
    ops.gather_one_hop_edgelist handle graph_view edge_weight_view edge_type_view d_in
      d_labels = ret
  | .count_and_remove_duplicates _ _ _ _ => True

/-- The three-column primitives `ops`, asked again with the arguments of the
logged call `c`, give the logged return value. -/
def plain_ops.answers {G WV : Type} (ops : plain_ops G WV) (handle : handle_t)
    (graph_view : G) (edge_weight_view : Option WV) (c : Call plain_hop_output) : Prop :=
  match c with
  | .shuffle_int_vertices_by_gpu_id d_in ret =>
    ops.shuffle_int_vertices_by_gpu_id handle d_in
      (ops.vertex_partition_range_lasts graph_view) = ret
  | .shuffle_int_vertices_and_values_by_gpu_id _ _ _ => True
  | .sample_edges rng_seed d_in _ k with_replacement ret =>
    ops.sample_edges handle graph_view edge_weight_view rng_seed d_in k with_replacement = ret
  | .gather_one_hop_edgelist d_in _ ret =>
    ops.gather_one_hop_edgelist handle graph_view edge_weight_view d_in = ret
  | .count_and_remove_duplicates src dst weights ret =>
    ops.count_and_remove_duplicates handle src dst weights = ret

/-- A second set of six-column primitives over the chain graph: like
`chain_ops` on batches of at most two vertices, but `sample_edges` returns
nothing on longer batches. -/
def chain_ops_short : sample_ops Unit Unit Unit where
  vertex_partition_range_lasts _ := []
  shuffle_int_vertices_by_gpu_id _ d _ := d
  shuffle_int_vertices_and_values_by_gpu_id _ d l _ := (d, l)
  sample_edges _ _ wv tv _ d_in d_labels k _ :=
    if d_in.length ≤ 2 then chain_output wv.isSome tv.isSome d_in d_labels k
    else { src := [], dst := [], edge_id := [], weight := none, edge_type := none,
           label := none }
  gather_one_hop_edgelist _ _ wv tv d_in _ := chain_output wv.isSome tv.isSome d_in none 1

/-! ## Rows of the three-column tables -/

/-- The (src, dst, weight) rows of three parallel columns. -/
def plain_rows (src dst : device_uvector vertex_t) (weights : device_uvector weight_t) :
    List (Option vertex_t × Option vertex_t × Option weight_t) :=
  src.zip (dst.zip weights)

/-- The three columns of an expander result that `uniform_nbr_sample_impl`
reads are there and have one length. -/
def plain_hop_output.well_formed (out : plain_hop_output) : Prop :=
  out.src.length = out.dst.length ∧
  out.weights.map List.length = some out.dst.length

/-- The three-column expander result has src and dst of one length and a
weight column, of that length, exactly when a weight view was supplied. -/
def plain_hop_output.follows_view (out : plain_hop_output) (has_weight : Bool) : Prop :=
  out.src.length = out.dst.length ∧
  out.weights.map List.length = (if has_weight then some out.dst.length else none)

/-- The (src, dst, weight) rows of a three-column expander result. -/
def plain_hop_output.rows (out : plain_hop_output) :
    List (Option vertex_t × Option vertex_t × Option weight_t) :=
  plain_rows out.src out.dst (out.weights.getD [])

/-! ## Comparing the two drivers -/

/-- The loop states of `uniform_nbr_sample_impl` and
`uniform_neighbor_sample_impl` carry the same frontier, seed, hop index and
worker count, and the same src, dst and weight accumulators. -/
def detail.states_agree (sp : detail.nbr_state) (se : detail.sample_state) : Prop :=
  sp.d_in = se.d_in ∧ sp.seed = se.seed ∧ sp.hop = se.hop ∧ sp.comm_size = se.comm_size ∧
  sp.d_result_src = se.d_result_src ∧ sp.d_result_dst = se.d_result_dst ∧
  se.d_result_weight = some sp.d_result_weights

/-- The frontier shuffles of the two drivers place the vertices alike: same
partition bounds, same vertex shuffle, and the shuffle that carries labels
moves the vertices as the plain one does. -/
def shuffles_agree {G WV TV : Type} (pops : plain_ops G WV) (ops : sample_ops G WV TV)
    (handle : handle_t) (graph_view : G) : Prop :=
  pops.vertex_partition_range_lasts graph_view = ops.vertex_partition_range_lasts graph_view ∧
  (∀ d lasts, pops.shuffle_int_vertices_by_gpu_id handle d lasts =
    ops.shuffle_int_vertices_by_gpu_id handle d lasts) ∧
  (∀ d l lasts, (ops.shuffle_int_vertices_and_values_by_gpu_id handle d l lasts).1 =
    ops.shuffle_int_vertices_by_gpu_id handle d lasts)

/-- A three-column expander result and a six-column one have the same src, dst
and weight columns. -/
def same_triple (p : plain_hop_output) (o : hop_output) : Prop :=
  p.src = o.src ∧ p.dst = o.dst ∧ p.weights = o.weight

/-- The edge expanders of the two drivers return the same (src, dst, weight)
for the same seed, batch, `k` and flag, whatever labels the six-column one is
given. -/
def expanders_agree {G WV TV : Type} (pops : plain_ops G WV) (ops : sample_ops G WV TV)
    (handle : handle_t) (graph_view : G) (edge_weight_view : Option WV)
    (edge_type_view : Option TV) : Prop :=
  (∀ sd d l k w,
    same_triple (pops.sample_edges handle graph_view edge_weight_view sd d k w)
      (ops.sample_edges handle graph_view edge_weight_view edge_type_view sd d l k w)) ∧
  (∀ d l,
    same_triple (pops.gather_one_hop_edgelist handle graph_view edge_weight_view d)
      (ops.gather_one_hop_edgelist handle graph_view edge_weight_view edge_type_view d l))

/-- Every result of the six-column expander has columns of one length, the
weight (edge type) column being present when the view was supplied. -/
def expander_well_formed {G WV TV : Type} (ops : sample_ops G WV TV)
    (handle : handle_t) (graph_view : G) (edge_weight_view : Option WV)
    (edge_type_view : Option TV) : Prop :=
  (∀ sd d l k w,
    (ops.sample_edges handle graph_view edge_weight_view edge_type_view sd d l k
      w).well_formed edge_weight_view.isSome edge_type_view.isSome) ∧
  (∀ d l,
    (ops.gather_one_hop_edgelist handle graph_view edge_weight_view edge_type_view d
      l).well_formed edge_weight_view.isSome edge_type_view.isSome)

/-- Six-column primitives over the chain graph whose expander returns a weight
column whether or not a weight view was supplied. -/
def chain_weighted_ops : sample_ops Unit Unit Unit where
  vertex_partition_range_lasts _ := []
  shuffle_int_vertices_by_gpu_id _ d _ := d
  shuffle_int_vertices_and_values_by_gpu_id _ d l _ := (d, l)
  sample_edges _ _ _ tv _ d_in d_labels k _ := chain_output true tv.isSome d_in d_labels k
  gather_one_hop_edgelist _ _ _ tv d_in _ := chain_output true tv.isSome d_in none 1

/-- Three-column primitives over the chain graph whose expander returns a
weight column whether or not a weight view was supplied; the deduplicator is
that of `chain_plain_ops`. -/
def chain_weighted_plain_ops : plain_ops Unit Unit where
  vertex_partition_range_lasts _ := []
  shuffle_int_vertices_by_gpu_id _ d _ := d
  sample_edges _ _ _ _ d_in k _ :=
    let o := chain_output true false d_in none k
    { src := o.src, dst := o.dst, weights := o.weight }
  gather_one_hop_edgelist _ _ _ d_in :=
    let o := chain_output true false d_in none 1
    { src := o.src, dst := o.dst, weights := o.weight }
  count_and_remove_duplicates := chain_plain_ops.count_and_remove_duplicates

/-! ## The worked examples

The edge expanders and the deduplicator are not part of the source file; the
worked examples are checked against their contracts, stated over the (src, dst)
rows a call returns. -/

/-- Modelled from the spec: the graph of the worked examples, edges 1 → 2,
1 → 3 and 2 → 4, as (src, dst) rows; the graph storage is not in the source
file. -/
def example_edges : List (Option vertex_t × Option vertex_t) :=
  [(some 1, some 2), (some 1, some 3), (some 2, some 4)]

/-- How often `a` occurs in `l`. -/
def occurrences {α : Type} [DecidableEq α] (a : α) (l : List α) : Nat :=
  l.countP (fun x => decide (x = a))

/-- The number of edges of `edges` that leave `v`. -/
def out_degree (edges : List (Option vertex_t × Option vertex_t)) (v : Option vertex_t) : Nat :=
  edges.countP (fun e => e.1 = v)

/-- Modelled from the spec: the contract of the Sampled mode of the edge
expander without replacement (`sample_edges`, not in the source file).  The
rows are edges of the graph that leave batch vertices; a batch vertex of
out-degree `d` gets `min d k` rows per occurrence in the batch; and no edge is
taken more often than its vertex occurs in the batch. -/
def sampled_contract (edges : List (Option vertex_t × Option vertex_t))
    (batch : device_uvector vertex_t) (k : Nat) (src dst : device_uvector vertex_t) : Prop :=
  src.length = dst.length ∧
  (∀ r ∈ src.zip dst, r ∈ edges ∧ r.1 ∈ batch) ∧
  (∀ v ∈ batch, occurrences v src = occurrences v batch * min (out_degree edges v) k) ∧
  (∀ r ∈ src.zip dst,
    occurrences r (src.zip dst) ≤ occurrences r.1 batch * occurrences r edges)

/-- Modelled from the spec: the contract of the Full mode of the edge expander
(`gather_one_hop_edgelist`, not in the source file).  The rows are edges of the
graph that leave batch vertices, and every edge appears once per occurrence of
its source in the batch. -/
def full_contract (edges : List (Option vertex_t × Option vertex_t))
    (batch : device_uvector vertex_t) (src dst : device_uvector vertex_t) : Prop :=
  src.length = dst.length ∧
  (∀ r ∈ src.zip dst, r ∈ edges ∧ r.1 ∈ batch) ∧
  (∀ e ∈ edges, occurrences e (src.zip dst) = occurrences e.1 batch * occurrences e edges)

/-- A logged call of `uniform_neighbor_sample_impl` meets the contracts: an
expander result has columns of one length; a `sample_edges` call without
replacement meets `sampled_contract`, a `gather_one_hop_edgelist` call meets
`full_contract`. -/
def Call.meets_contract (edges : List (Option vertex_t × Option vertex_t))
    (has_weight has_type : Bool) : Call hop_output → Prop
  | .sample_edges _ d_in _ k with_replacement out =>
    out.well_formed has_weight has_type ∧
    (with_replacement = false → sampled_contract edges d_in k out.src out.dst)
  | .gather_one_hop_edgelist d_in _ out =>
    out.well_formed has_weight has_type ∧ full_contract edges d_in out.src out.dst
  | _ => True

/-- The targets of the edges of the example graph that leave `v`. -/
def example_targets (v : Option vertex_t) : List (Option vertex_t) :=
  (example_edges.filter (fun e => e.1 = v)).map Prod.snd

/-- A sampler over the example graph: per batch vertex, the first `k` targets
of its edge list rotated by the seed. -/
def example_rows (seed : Nat) (batch : device_uvector vertex_t) (k : Nat) :
    List (Option vertex_t × Option vertex_t) :=
  batch.flatMap (fun v => (((example_targets v).rotate seed).take k).map (fun t => (v, t)))

/-- The six-column table of a list of rows of the example graph; edge ids and
weights repeat the dst column, every edge has type 0. -/
def example_output (has_weight has_type : Bool)
    (rows : List (Option vertex_t × Option vertex_t)) : hop_output :=
  { src := rows.map Prod.fst
    dst := rows.map Prod.snd
    edge_id := rows.map Prod.snd
    weight := if has_weight then some (rows.map Prod.snd) else none
    edge_type := if has_type then some (rows.map (fun _ => some 0)) else none
    label := none }

/-- Six-column primitives over the example graph. -/
def example_ops : sample_ops Unit Unit Unit where
  vertex_partition_range_lasts _ := []
  shuffle_int_vertices_by_gpu_id _ d _ := d
  shuffle_int_vertices_and_values_by_gpu_id _ d l _ := (d, l)
  sample_edges _ _ wv tv seed d_in _ k _ :=
    example_output wv.isSome tv.isSome (example_rows seed d_in k)
  gather_one_hop_edgelist _ _ wv tv d_in _ :=
    example_output wv.isSome tv.isSome (example_rows 0 d_in example_edges.length)

end cugraph

/-! # Theorems -/

namespace cugraph

/-! ## Vector primitives -/

theorem resize_length {α : Type} (v : device_uvector α) (n : Nat) : (resize v n).length = n := by
  simp only [resize, List.length_append, List.length_take, List.length_replicate]
  omega

theorem raft_copy_length {α : Type} {dst src r : device_uvector α} {off len : Nat}
    (h : raft.copy dst off src len = .ok r) : r.length = dst.length := by
  unfold raft.copy at h
  split at h
  · rename_i hb
    cases h
    simp only [List.length_append, List.length_take, List.length_drop]
    omega
  · cases h

theorem raft_copy_reason {α : Type} {dst src : device_uvector α} {off len : Nat} {f : Failure}
    (h : raft.copy dst off src len = .error f) : f = Failure.out_of_bounds := by
  unfold raft.copy at h
  split at h
  · cases h
  · cases h; rfl

theorem scalar_fill_length {α : Type} {dst r : device_uvector α} {off len : Nat} {x : α}
    (h : detail.scalar_fill dst off len x = .ok r) : r.length = dst.length := by
  unfold detail.scalar_fill at h
  split at h
  · cases h
    simp only [List.length_append, List.length_take, List.length_drop, List.length_replicate]
    omega
  · cases h

theorem scalar_fill_reason {α : Type} {dst : device_uvector α} {off len : Nat} {x : α}
    {f : Failure} (h : detail.scalar_fill dst off len x = .error f) :
    f = Failure.out_of_bounds := by
  unfold detail.scalar_fill at h
  split at h
  · cases h
  · cases h; rfl

theorem deref_reason {α : Type} {o : Option α} {f : Failure} (h : deref o = .error f) :
    f = Failure.bad_optional_access := by
  cases o with
  | none => cases h; rfl
  | some a => cases h

theorem incr_hop_reason {hop : Int} {f : Failure} (h : incr_hop hop = .error f) :
    f = Failure.integer_overflow := by
  unfold incr_hop at h
  split at h
  · cases h
  · cases h; rfl

theorem copy_span_ok {α : Type} (span : device_uvector α) : copy_span span = .ok span := by
  simp [copy_span, raft.copy]

theorem copy_opt_reason {α : Type} {acc d_out : Option (device_uvector α)} {off len : Nat}
    {f : Failure} (h : detail.copy_opt acc off d_out len = .error f) :
    f ≠ Failure.invalid_argument := by
  unfold detail.copy_opt at h
  cases acc with
  | none => cases h
  | some v =>
    simp only [bind, Except.bind] at h
    split at h
    · rename_i e he
      cases h
      rw [deref_reason he]; decide
    · split at h
      · rename_i e he
        cases h
        rw [raft_copy_reason he]; decide
      · cases h

end cugraph

namespace cugraph

theorem copy_into_resized {α : Type} (v src : device_uvector α) (old add m : Nat)
    (hv : v.length = old) :
    raft.copy (resize v (old + add)) old src m =
      if m ≤ src.length ∧ m ≤ add then
        .ok (v ++ src.take m ++ List.replicate (add - m) none)
      else .error Failure.out_of_bounds := by
  subst hv
  have hr : resize v (v.length + add) = v ++ List.replicate add none := by
    simp [resize, List.take_of_length_le]
  rw [hr]
  unfold raft.copy
  by_cases h : m ≤ src.length ∧ m ≤ add
  · have h2 : m ≤ src.length ∧ v.length + m ≤ (v ++ List.replicate add (none : Option α)).length := by
      simp; omega
    rw [if_pos h, if_pos h2]
    congr 1
    simp [List.take_append_eq_append_take, List.drop_append_eq_append_drop,
      List.take_of_length_le, List.drop_of_length_le]
  · have h2 : ¬ (m ≤ src.length ∧ v.length + m ≤ (v ++ List.replicate add (none : Option α)).length) := by
      simp; simp at h; omega
    rw [if_neg h, if_neg h2]

theorem scalar_fill_resized {α : Type} (v : device_uvector α) (old add : Nat) (x : α)
    (hv : v.length = old) :
    detail.scalar_fill (resize v (old + add)) old add x =
      .ok (v ++ List.replicate add (some x)) := by
  subst hv
  have hr : resize v (v.length + add) = v ++ List.replicate add none := by
    simp [resize, List.take_of_length_le]
  rw [hr]
  unfold detail.scalar_fill
  rw [if_pos (by simp)]
  congr 1
  simp [List.take_append_eq_append_take, List.drop_append_eq_append_drop,
      List.take_of_length_le, List.drop_of_length_le]

end cugraph

namespace cugraph
open detail

theorem column_length_is_none {α : Type} (n : Nat) :
    column_length_is (none : Option (device_uvector α)) n := rfl

theorem column_length_is_some {α : Type} (v : device_uvector α) (n : Nat) :
    column_length_is (some v) n ↔ v.length = n := by
  simp [column_length_is]

theorem copy_opt_resized {α : Type} (acc d_out : Option (device_uvector α)) (old add : Nat)
    (ha : column_length_is acc old) {r : Option (device_uvector α)}
    (h : copy_opt (resize_opt acc (old + add)) old d_out add = .ok r) :
    r = acc.map (fun v => v ++ (d_out.getD []).take add) := by
  cases acc with
  | none =>
    simp only [resize_opt, Option.map_none', copy_opt] at h
    cases h; rfl
  | some v =>
    rw [column_length_is_some] at ha
    simp only [resize_opt, Option.map_some', copy_opt, bind, Except.bind] at h
    cases d_out with
    | none => simp [deref] at h
    | some w =>
      simp only [deref] at h
      rw [copy_into_resized v w old add add ha] at h
      by_cases hc : add ≤ w.length
      · simp [hc, pure, Except.pure] at h
        simp [← h]
      · simp [hc] at h

theorem sample_append_ok {s s1 : sample_state} {out : hop_output} (ha : s.aligned)
    (h : sample_append s out = .ok s1) :
    s1 = { s with
      d_result_src := s.d_result_src ++ out.src.take out.dst.length
      d_result_dst := s.d_result_dst ++ out.dst
      d_result_edge_id := s.d_result_edge_id ++ out.edge_id.take out.dst.length
      d_result_hop := s.d_result_hop ++ List.replicate out.dst.length (some s.hop)
      d_result_weight :=
        s.d_result_weight.map (fun v => v ++ (out.weight.getD []).take out.dst.length)
      d_result_edge_type :=
        s.d_result_edge_type.map (fun v => v ++ (out.edge_type.getD []).take out.dst.length)
      d_result_label :=
        s.d_result_label.map (fun v => v ++ List.replicate out.dst.length none) } := by
  obtain ⟨h1, h2, h3, h4, h5, h6⟩ := ha
  unfold sample_append at h
  simp only [bind, Except.bind, pure, Except.pure] at h
  rw [copy_into_resized _ _ _ _ _ h1, copy_into_resized _ _ _ _ _ rfl,
    copy_into_resized _ _ _ _ _ h2, scalar_fill_resized _ _ _ _ h3] at h
  split at h
  · cases h
  rename_i r_src hsrc
  split at h
  · cases h
  rename_i r_dst hdst
  split at h
  · cases h
  rename_i r_eid heid
  simp only at h
  split at h
  · cases h
  rename_i r_w hw
  split at h
  · cases h
  rename_i r_t ht
  cases h
  have := copy_opt_resized _ _ _ _ h4 hw
  have := copy_opt_resized _ _ _ _ h5 ht
  subst r_w r_t
  split at hsrc
  · split at hdst
    · split at heid
      · cases hsrc; cases hdst; cases heid
        simp only [List.take_of_length_le (le_refl _), List.append_nil, Nat.sub_self,
          List.replicate_zero, resize_opt]
        congr 1
        cases hl : s.d_result_label with
        | none => rfl
        | some v =>
          rw [hl, column_length_is_some] at h6
          simp [resize, ← h6, List.take_of_length_le]
      · cases heid
    · cases hdst
  · cases hsrc

end cugraph

namespace cugraph
open detail

theorem resize_opt_length {α : Type} (acc : Option (device_uvector α)) (n : Nat) :
    column_length_is (resize_opt acc n) n := by
  cases acc with
  | none => rfl
  | some v => simp [resize_opt, column_length_is, resize_length]

theorem copy_opt_length {α : Type} {acc d_out r : Option (device_uvector α)} {off len n : Nat}
    (ha : column_length_is acc n) (h : copy_opt acc off d_out len = .ok r) :
    column_length_is r n := by
  cases acc with
  | none =>
    simp only [copy_opt] at h
    cases h; rfl
  | some v =>
    simp only [copy_opt, bind, Except.bind, pure, Except.pure] at h
    split at h
    · cases h
    · split at h
      · cases h
      · rename_i hc
        cases h
        rw [column_length_is_some] at ha ⊢
        rw [raft_copy_length hc, ha]

theorem sample_append_aligned {s s1 : sample_state} {out : hop_output}
    (h : sample_append s out = .ok s1) : s1.aligned := by
  unfold sample_append at h
  simp only [bind, Except.bind, pure, Except.pure] at h
  split at h
  · cases h
  rename_i r_src hsrc
  split at h
  · cases h
  rename_i r_dst hdst
  split at h
  · cases h
  rename_i r_eid heid
  split at h
  · cases h
  rename_i r_hop hhop
  split at h
  · cases h
  rename_i r_w hw
  split at h
  · cases h
  rename_i r_t ht
  cases h
  have e1 := raft_copy_length hsrc
  have e2 := raft_copy_length hdst
  have e3 := raft_copy_length heid
  have e4 := scalar_fill_length hhop
  rw [resize_length] at e1 e2 e3 e4
  refine ⟨?_, ?_, ?_, ?_, ?_, ?_⟩
  · simp only [e1, e2]
  · simp only [e3, e2]
  · simp only [e4, e2]
  · simp only [e2]; exact copy_opt_length (resize_opt_length _ _) hw
  · simp only [e2]; exact copy_opt_length (resize_opt_length _ _) ht
  · simp only [e2]; exact resize_opt_length _ _

theorem sample_append_reason {s : sample_state} {out : hop_output} {f : Failure}
    (h : sample_append s out = .error f) : f ≠ Failure.invalid_argument := by
  unfold sample_append at h
  simp only [bind, Except.bind, pure, Except.pure] at h
  split at h
  · rename_i e he; cases h; rw [raft_copy_reason he]; decide
  split at h
  · rename_i e he; cases h; rw [raft_copy_reason he]; decide
  split at h
  · rename_i e he; cases h; rw [raft_copy_reason he]; decide
  split at h
  · rename_i e he; cases h; rw [scalar_fill_reason he]; decide
  split at h
  · rename_i e he; cases h; exact copy_opt_reason he
  split at h
  · rename_i e he; cases h; exact copy_opt_reason he
  cases h

theorem nbr_append_aligned {s s1 : nbr_state} {out : plain_hop_output}
    (h : nbr_append s out = .ok s1) : s1.aligned := by
  unfold nbr_append at h
  simp only [bind, Except.bind, pure, Except.pure] at h
  split at h
  · cases h
  rename_i r_src hsrc
  split at h
  · cases h
  rename_i r_dst hdst
  split at h
  · cases h
  rename_i w hw
  split at h
  · cases h
  rename_i r_w hrw
  cases h
  have e1 := raft_copy_length hsrc
  have e2 := raft_copy_length hdst
  have e3 := raft_copy_length hrw
  rw [resize_length] at e1 e2 e3
  exact ⟨by simp only [e1, e2], by simp only [e3, e2]⟩

theorem nbr_append_reason {s : nbr_state} {out : plain_hop_output} {f : Failure}
    (h : nbr_append s out = .error f) : f ≠ Failure.invalid_argument := by
  unfold nbr_append at h
  simp only [bind, Except.bind, pure, Except.pure] at h
  split at h
  · rename_i e he; cases h; rw [raft_copy_reason he]; decide
  split at h
  · rename_i e he; cases h; rw [raft_copy_reason he]; decide
  split at h
  · rename_i e he; cases h; rw [deref_reason he]; decide
  split at h
  · rename_i e he; cases h; rw [raft_copy_reason he]; decide
  cases h

end cugraph

namespace cugraph
open detail

/-! ## No validation error inside the loop -/

theorem sample_hop_reason {G WV TV : Type} {ops : sample_ops G WV TV} {multi_gpu : Bool}
    {handle : handle_t} {graph_view : G} {wv : Option WV} {tv : Option TV} {wr : Bool}
    {s : sample_state} {k : Int} {a : Abort hop_output}
    (h : sample_hop ops multi_gpu handle graph_view wv tv wr s k = .error a) :
    a.reason ≠ Failure.invalid_argument := by
  unfold sample_hop at h
  simp only at h
  split at h
  · rename_i f hf
    cases h
    exact sample_append_reason hf
  · split at h
    · rename_i f hf
      cases h
      rw [incr_hop_reason hf]; intro hc; cases hc
    · cases h

theorem sample_loop_reason {G WV TV : Type} {ops : sample_ops G WV TV} {multi_gpu : Bool}
    {handle : handle_t} {graph_view : G} {wv : Option WV} {tv : Option TV} {wr : Bool}
    (ks : List Int) (s : sample_state) {a : Abort hop_output}
    (h : sample_loop ops multi_gpu handle graph_view wv tv wr s ks = .error a) :
    a.reason ≠ Failure.invalid_argument := by
  induction ks generalizing s with
  | nil => cases h
  | cons k ks ih =>
    simp only [sample_loop] at h
    split at h
    · rename_i b hb
      cases h
      exact sample_hop_reason hb
    · exact ih _ h

theorem nbr_hop_reason {G WV : Type} {ops : plain_ops G WV} {multi_gpu : Bool}
    {handle : handle_t} {graph_view : G} {wv : Option WV} {wr : Bool}
    {s : nbr_state} {k : Int} {a : Abort plain_hop_output}
    (h : nbr_hop ops multi_gpu handle graph_view wv wr s k = .error a) :
    a.reason ≠ Failure.invalid_argument := by
  unfold nbr_hop at h
  simp only at h
  split at h
  · rename_i f hf
    cases h
    exact nbr_append_reason hf
  · split at h
    · rename_i f hf
      cases h
      rw [incr_hop_reason hf]; intro hc; cases hc
    · cases h

theorem nbr_loop_reason {G WV : Type} {ops : plain_ops G WV} {multi_gpu : Bool}
    {handle : handle_t} {graph_view : G} {wv : Option WV} {wr : Bool}
    (ks : List Int) (s : nbr_state) {a : Abort plain_hop_output}
    (h : nbr_loop ops multi_gpu handle graph_view wv wr s ks = .error a) :
    a.reason ≠ Failure.invalid_argument := by
  induction ks generalizing s with
  | nil => cases h
  | cons k ks ih =>
    simp only [nbr_loop] at h
    split at h
    · rename_i b hb
      cases h
      exact nbr_hop_reason hb
    · exact ih _ h

theorem nbr_impl_reason {G WV : Type} {ops : plain_ops G WV} {multi_gpu : Bool}
    {handle : handle_t} {graph_view : G} {wv : Option WV} {wr : Bool}
    {d_in : device_uvector vertex_t} {ks : List Int} {seed : Nat} {a : Abort plain_hop_output}
    (hk : ks ≠ [])
    (h : uniform_nbr_sample_impl ops multi_gpu handle graph_view wv d_in ks wr seed = .error a) :
    a.reason ≠ Failure.invalid_argument := by
  unfold uniform_nbr_sample_impl at h
  rw [if_pos (List.length_pos.mpr hk)] at h
  split at h
  · rename_i b hb
    cases h
    exact nbr_loop_reason _ _ hb
  · cases h

theorem sample_impl_reason {G WV TV : Type} {ops : sample_ops G WV TV} {multi_gpu : Bool}
    {handle : handle_t} {graph_view : G} {wv : Option WV} {tv : Option TV} {wr : Bool}
    {d_in : device_uvector vertex_t} {d_labels : Option (device_uvector Int)}
    {ks : List Int} {seed : Nat} {a : Abort hop_output} (hk : ks ≠ [])
    (h : uniform_neighbor_sample_impl ops multi_gpu handle graph_view wv tv d_in d_labels ks wr
      seed = .error a) :
    a.reason ≠ Failure.invalid_argument := by
  unfold uniform_neighbor_sample_impl at h
  rw [if_pos (List.length_pos.mpr hk)] at h
  split at h
  · rename_i b hb
    cases h
    exact sample_loop_reason _ _ hb
  · cases h

theorem uniform_nbr_sample_eq {G WV : Type} (ops : plain_ops G WV) (multi_gpu : Bool)
    (handle : handle_t) (graph_view : G) (wv : Option WV)
    (sv : device_uvector vertex_t) (ks : List Int) (wr : Bool) (seed : Nat) :
    uniform_nbr_sample ops multi_gpu handle graph_view wv sv ks wr seed =
      uniform_nbr_sample_impl ops multi_gpu handle graph_view wv sv ks wr seed := by
  simp only [uniform_nbr_sample, copy_span_ok]

theorem uniform_neighbor_sample_eq {G WV TV : Type} (ops : sample_ops G WV TV)
    (multi_gpu : Bool) (handle : handle_t) (graph_view : G) (wv : Option WV) (tv : Option TV)
    (sv : device_uvector vertex_t) (labels : Option (device_uvector Int)) (ks : List Int)
    (wr : Bool) (seed : Nat) :
    uniform_neighbor_sample ops multi_gpu handle graph_view wv tv sv labels ks wr seed =
      uniform_neighbor_sample_impl ops multi_gpu handle graph_view wv tv sv labels ks wr
        seed := by
  cases labels with
  | none => simp only [uniform_neighbor_sample, copy_span_ok]
  | some l => simp only [uniform_neighbor_sample, copy_span_ok]

/-! ## C1 -/

/-- C1: with an empty fan-out both drivers, and both public entry points, stop
with the validation error and an empty log of primitive calls (no shuffle, no
edge expander, no deduplicator, no result columns); with a non-empty fan-out a
run that stops never does so with the validation error. -/
theorem C1_empty_fan_out_is_rejected {G WV TV : Type} (pops : plain_ops G WV)
    (ops : sample_ops G WV TV) (multi_gpu : Bool) (handle : handle_t) (graph_view : G)
    (wv : Option WV) (tv : Option TV) (d_in : device_uvector vertex_t)
    (d_labels : Option (device_uvector Int)) (wr : Bool) (seed : Nat) :
    uniform_nbr_sample_impl pops multi_gpu handle graph_view wv d_in [] wr seed
        = .error ⟨Failure.invalid_argument, []⟩ ∧
    uniform_neighbor_sample_impl ops multi_gpu handle graph_view wv tv d_in d_labels [] wr seed
        = .error ⟨Failure.invalid_argument, []⟩ ∧
    uniform_nbr_sample pops multi_gpu handle graph_view wv d_in [] wr seed
        = .error ⟨Failure.invalid_argument, []⟩ ∧
    uniform_neighbor_sample ops multi_gpu handle graph_view wv tv d_in d_labels [] wr seed
        = .error ⟨Failure.invalid_argument, []⟩ ∧
    ∀ fan_out : List Int, fan_out ≠ [] →
      (∀ a, uniform_nbr_sample_impl pops multi_gpu handle graph_view wv d_in fan_out wr seed
          = .error a → a.reason ≠ Failure.invalid_argument) ∧
      (∀ a, uniform_neighbor_sample_impl ops multi_gpu handle graph_view wv tv d_in d_labels
          fan_out wr seed = .error a → a.reason ≠ Failure.invalid_argument) ∧
      (∀ a, uniform_nbr_sample pops multi_gpu handle graph_view wv d_in fan_out wr seed
          = .error a → a.reason ≠ Failure.invalid_argument) ∧
      (∀ a, uniform_neighbor_sample ops multi_gpu handle graph_view wv tv d_in d_labels
          fan_out wr seed = .error a → a.reason ≠ Failure.invalid_argument) := by
  refine ⟨rfl, rfl, ?_, ?_, ?_⟩
  · rw [uniform_nbr_sample_eq]; rfl
  · rw [uniform_neighbor_sample_eq]; rfl
  · intro fan_out hk
    refine ⟨fun a h => nbr_impl_reason hk h, fun a h => sample_impl_reason hk h, ?_, ?_⟩
    · intro a h
      rw [uniform_nbr_sample_eq] at h
      exact nbr_impl_reason hk h
    · intro a h
      rw [uniform_neighbor_sample_eq] at h
      exact sample_impl_reason hk h

/-- C1 at a concrete input: on the chain graph, start vertex 1 with weights
supplied, the empty schedule is rejected; the plain driver, without a weight
view, stops on `[2, 1]` for another reason than validation. -/
theorem C1_empty_fan_out_is_rejected_witness :
    uniform_neighbor_sample chain_ops false ⟨0, 1⟩ () (some ()) none [some 1] none [] true 42
        = .error ⟨Failure.invalid_argument, []⟩ ∧
    ([2, 1] : List Int) ≠ [] ∧
    (∀ a, uniform_nbr_sample chain_plain_ops false ⟨0, 1⟩ () none [some 1] [2, 1] true 42
        = .error a → a.reason ≠ Failure.invalid_argument) :=
  ⟨(C1_empty_fan_out_is_rejected chain_plain_ops chain_ops false ⟨0, 1⟩ () (some ()) none
      [some 1] none true 42).2.2.2.1,
   by decide,
   ((C1_empty_fan_out_is_rejected chain_plain_ops chain_ops false ⟨0, 1⟩ () none none
      [some 1] none true 42).2.2.2.2 [2, 1] (by decide)).2.2.1⟩

end cugraph

namespace cugraph
open detail

/-! ## One hop of `uniform_neighbor_sample_impl` -/

theorem sample_shuffle_spec {G WV TV : Type} (ops : sample_ops G WV TV) (multi_gpu : Bool)
    (handle : handle_t) (graph_view : G) (s : sample_state) :
    ∃ d l sh, sample_shuffle ops multi_gpu handle graph_view s =
        { s with d_in := d, d_labels := l, calls := s.calls ++ sh } ∧
      expander_outputs sh = [] ∧ expander_batches sh = [] ∧ rng_seeds_of sh = [] ∧
      expander_label_args sh = [] ∧
      (multi_gpu = false → d = s.d_in ∧ l = s.d_labels ∧ sh = []) := by
  unfold sample_shuffle
  cases multi_gpu with
  | false => exact ⟨s.d_in, s.d_labels, [], by simp, rfl, rfl, rfl, rfl, fun _ => ⟨rfl, rfl, rfl⟩⟩
  | true =>
    cases hl : s.d_labels with
    | none =>
      refine ⟨ops.shuffle_int_vertices_by_gpu_id handle s.d_in
          (ops.vertex_partition_range_lasts graph_view), none,
        [Call.shuffle_int_vertices_by_gpu_id s.d_in
          (ops.shuffle_int_vertices_by_gpu_id handle s.d_in
            (ops.vertex_partition_range_lasts graph_view))], ?_, rfl, rfl, rfl, rfl,
        fun h => by cases h⟩
      simp only [if_true, hl]
    | some l =>
      refine ⟨(ops.shuffle_int_vertices_and_values_by_gpu_id handle s.d_in l
          (ops.vertex_partition_range_lasts graph_view)).1,
        some (ops.shuffle_int_vertices_and_values_by_gpu_id handle s.d_in l
          (ops.vertex_partition_range_lasts graph_view)).2,
        [Call.shuffle_int_vertices_and_values_by_gpu_id s.d_in l
          (ops.shuffle_int_vertices_and_values_by_gpu_id handle s.d_in l
            (ops.vertex_partition_range_lasts graph_view))], ?_, rfl, rfl, rfl, rfl,
        fun h => by cases h⟩
      simp only [if_true]

theorem sample_expand_spec {G WV TV : Type} (ops : sample_ops G WV TV)
    (handle : handle_t) (graph_view : G) (wv : Option WV) (tv : Option TV) (wr : Bool)
    (s : sample_state) (k : Int) :
    ∃ ev, (sample_expand ops handle graph_view wv tv wr s k).1 =
        { s with
          seed := if k > 0 then advance_seed s.seed s.d_in.length k.toNat s.comm_size else s.seed
          calls := s.calls ++ [ev] } ∧
      ev.expander_output = some (sample_expand ops handle graph_view wv tv wr s k).2 ∧
      ev.expander_batch = some s.d_in ∧
      ev.expander_labels = some s.d_labels ∧
      ev.rng_seed = if k > 0 then some s.seed else none := by
  unfold sample_expand
  by_cases hk : k > 0
  · simp only [hk, if_true]
    exact ⟨_, rfl, rfl, rfl, rfl, rfl⟩
  · simp only [hk, if_false]
    exact ⟨_, rfl, rfl, rfl, rfl, rfl⟩

theorem sample_append_frame {s s1 : sample_state} {out : hop_output}
    (h : sample_append s out = .ok s1) :
    s1.d_in = s.d_in ∧ s1.d_labels = s.d_labels ∧ s1.seed = s.seed ∧ s1.hop = s.hop ∧
      s1.comm_size = s.comm_size ∧ s1.calls = s.calls := by
  unfold sample_append at h
  simp only [bind, Except.bind, pure, Except.pure] at h
  repeat' split at h
  all_goals cases h
  all_goals exact ⟨rfl, rfl, rfl, rfl, rfl, rfl⟩

theorem incr_hop_ok {hop h1 : Int} (h : incr_hop hop = .ok h1) : h1 = hop + 1 ∧ hop + 1 < 2 ^ 31 := by
  unfold incr_hop at h
  split at h
  · cases h; exact ⟨rfl, by assumption⟩
  · cases h

end cugraph

namespace cugraph
open detail

theorem sample_hop_spec {G WV TV : Type} (ops : sample_ops G WV TV) (multi_gpu : Bool)
    (handle : handle_t) (graph_view : G) (wv : Option WV) (tv : Option TV) (wr : Bool)
    (s : sample_state) (k : Int) :
    ∃ (d : device_uvector vertex_t) (l : Option (device_uvector Int))
      (sh : List (Call hop_output)) (ev : Call hop_output) (out : hop_output),
      expander_outputs sh = [] ∧ expander_batches sh = [] ∧ rng_seeds_of sh = [] ∧
      expander_label_args sh = [] ∧
      (multi_gpu = false → d = s.d_in ∧ l = s.d_labels ∧ sh = []) ∧
      d = (sample_shuffle ops multi_gpu handle graph_view s).d_in ∧
      out = (sample_expand ops handle graph_view wv tv wr
        (sample_shuffle ops multi_gpu handle graph_view s) k).2 ∧
      ev.expander_output = some out ∧ ev.expander_batch = some d ∧
      ev.expander_labels = some l ∧
      ev.rng_seed = (if k > 0 then some s.seed else none) ∧
      calls_of sample_state.calls (sample_hop ops multi_gpu handle graph_view wv tv wr s k)
        = s.calls ++ sh ++ [ev] ∧
      ∀ s1, sample_hop ops multi_gpu handle graph_view wv tv wr s k = .ok s1 →
        s1.d_in = out.dst ∧ s1.d_labels = l ∧
        s1.seed = (if k > 0 then advance_seed s.seed d.length k.toNat s.comm_size else s.seed) ∧
        s1.comm_size = s.comm_size ∧ s1.hop = s.hop + 1 ∧ s.hop + 1 < 2 ^ 31 ∧ s1.aligned ∧
        (s.aligned →
          s1.d_result_src = s.d_result_src ++ out.src.take out.dst.length ∧
          s1.d_result_dst = s.d_result_dst ++ out.dst ∧
          s1.d_result_edge_id = s.d_result_edge_id ++ out.edge_id.take out.dst.length ∧
          s1.d_result_hop = s.d_result_hop ++ List.replicate out.dst.length (some s.hop) ∧
          s1.d_result_weight =
            s.d_result_weight.map (fun v => v ++ (out.weight.getD []).take out.dst.length) ∧
          s1.d_result_edge_type =
            s.d_result_edge_type.map
              (fun v => v ++ (out.edge_type.getD []).take out.dst.length) ∧
          s1.d_result_label =
            s.d_result_label.map (fun v => v ++ List.replicate out.dst.length none)) := by
  obtain ⟨d, l, sh, hsh, h1, h2, h3, h4, h5⟩ :=
    sample_shuffle_spec ops multi_gpu handle graph_view s
  obtain ⟨ev, hev, g1, g2, g3, g4⟩ :=
    sample_expand_spec ops handle graph_view wv tv wr
      (sample_shuffle ops multi_gpu handle graph_view s) k
  refine ⟨d, l, sh, ev,
    (sample_expand ops handle graph_view wv tv wr
      (sample_shuffle ops multi_gpu handle graph_view s) k).2,
    h1, h2, h3, h4, h5, by rw [hsh], rfl, g1, by rw [g2, hsh], by rw [g3, hsh],
    by rw [g4, hsh], ?_, ?_⟩
  · have c1 : (sample_expand ops handle graph_view wv tv wr
        (sample_shuffle ops multi_gpu handle graph_view s) k).1.calls = s.calls ++ sh ++ [ev] := by
      rw [hev, hsh]
    unfold sample_hop
    simp only
    cases hap : sample_append _ _ with
    | error f => exact c1
    | ok s3 =>
      obtain ⟨-, -, -, -, -, f6⟩ := sample_append_frame hap
      cases hin : incr_hop s3.hop with
      | error f => simp only [hin, calls_of]; rw [f6]; exact c1
      | ok h => simp only [hin, calls_of]; rw [f6]; exact c1
  · intro s1 hs1
    unfold sample_hop at hs1
    simp only at hs1
    cases hap : sample_append _ _ with
    | error f => rw [hap] at hs1; cases hs1
    | ok s3 =>
      rw [hap] at hs1
      simp only at hs1
      obtain ⟨f1, f2, f3, f4, f5, f6⟩ := sample_append_frame hap
      have hal := sample_append_aligned hap
      cases hin : incr_hop s3.hop with
      | error f => rw [hin] at hs1; cases hs1
      | ok h =>
        rw [hin] at hs1
        simp only at hs1
        obtain ⟨i1, i2⟩ := incr_hop_ok hin
        cases hs1
        rw [hev] at f2 f3 f4 f5
        rw [hsh] at f2 f3 f4 f5
        simp only at f2 f3 f4 f5
        refine ⟨rfl, f2, f3, f5, by simp only [i1, f4], by rw [← f4]; exact i2, hal, ?_⟩
        intro hs
        have hs' : (sample_expand ops handle graph_view wv tv wr
            (sample_shuffle ops multi_gpu handle graph_view s) k).1.aligned := by
          rw [hev, hsh]; exact hs
        have := sample_append_ok hs' hap
        rw [this, hev, hsh]
        exact ⟨rfl, rfl, rfl, rfl, rfl, rfl, rfl⟩

end cugraph

namespace cugraph
open detail

theorem expander_outputs_append {Out : Type} (a b : List (Call Out)) :
    expander_outputs (a ++ b) = expander_outputs a ++ expander_outputs b := by
  simp [expander_outputs, List.filterMap_append]

theorem expander_batches_append {Out : Type} (a b : List (Call Out)) :
    expander_batches (a ++ b) = expander_batches a ++ expander_batches b := by
  simp [expander_batches, List.filterMap_append]

theorem rng_seeds_of_append {Out : Type} (a b : List (Call Out)) :
    rng_seeds_of (a ++ b) = rng_seeds_of a ++ rng_seeds_of b := by
  simp [rng_seeds_of, List.filterMap_append]

theorem expander_label_args_append {Out : Type} (a b : List (Call Out)) :
    expander_label_args (a ++ b) = expander_label_args a ++ expander_label_args b := by
  simp [expander_label_args, List.filterMap_append]

theorem expander_outputs_single {Out : Type} {ev : Call Out} {o : Out}
    (h : ev.expander_output = some o) : expander_outputs [ev] = [o] := by
  simp [expander_outputs, List.filterMap, h]

theorem expander_batches_single {Out : Type} {ev : Call Out} {d : device_uvector vertex_t}
    (h : ev.expander_batch = some d) : expander_batches [ev] = [d] := by
  simp [expander_batches, List.filterMap, h]

theorem expander_label_args_single {Out : Type} {ev : Call Out}
    {l : Option (device_uvector Int)}
    (h : ev.expander_labels = some l) : expander_label_args [ev] = [l] := by
  simp [expander_label_args, List.filterMap, h]

theorem rng_seeds_of_single {Out : Type} {ev : Call Out} {k : Int} {seed : Nat}
    (h : ev.rng_seed = if k > 0 then some seed else none) :
    rng_seeds_of [ev] = if k > 0 then [seed] else [] := by
  by_cases hk : k > 0
  · simp only [hk, if_true] at h ⊢
    simp [rng_seeds_of, List.filterMap, h]
  · simp only [hk, if_false] at h ⊢
    simp [rng_seeds_of, List.filterMap, h]

/-- The log of a loop run, whether it returns or stops: one expander call per
executed hop; the seeds follow `rng_seeds` on the post-shuffle frontier sizes;
without shuffles every batch after the first is the dst column of the hop
before, and the labels argument never changes. -/
theorem sample_loop_log {G WV TV : Type} (ops : sample_ops G WV TV) (multi_gpu : Bool)
    (handle : handle_t) (graph_view : G) (wv : Option WV) (tv : Option TV) (wr : Bool)
    (ks : List Int) (s : sample_state) :
    ∃ t, calls_of sample_state.calls
          (sample_loop ops multi_gpu handle graph_view wv tv wr s ks) = s.calls ++ t ∧
      (expander_outputs t).length = (expander_batches t).length ∧
      (expander_batches t).length ≤ ks.length ∧
      rng_seeds_of t =
        rng_seeds s.seed s.comm_size (((expander_batches t).map List.length).zip ks) ∧
      (multi_gpu = false →
        expander_batches t <+: s.d_in :: (expander_outputs t).map (fun o => o.dst)) ∧
      (multi_gpu = false → ∀ l ∈ expander_label_args t, l = s.d_labels) := by
  induction ks generalizing s with
  | nil =>
    exact ⟨[], by simp [sample_loop, calls_of], rfl, by simp [expander_batches], rfl,
      fun _ => by simp [expander_batches], fun _ l hl => by simp [expander_label_args] at hl⟩
  | cons k ks ih =>
    obtain ⟨d, l, sh, ev, out, h1, h2, h3, h4, h5, -, -, g1, g2, g3, g4, hc, hok⟩ :=
      sample_hop_spec ops multi_gpu handle graph_view wv tv wr s k
    have o1 : expander_outputs (sh ++ [ev]) = [out] := by
      rw [expander_outputs_append, h1, expander_outputs_single g1]; rfl
    have o2 : expander_batches (sh ++ [ev]) = [d] := by
      rw [expander_batches_append, h2, expander_batches_single g2]; rfl
    have o3 : rng_seeds_of (sh ++ [ev]) = if k > 0 then [s.seed] else [] := by
      rw [rng_seeds_of_append, h3, rng_seeds_of_single g4]; rfl
    have o4 : expander_label_args (sh ++ [ev]) = [l] := by
      rw [expander_label_args_append, h4, expander_label_args_single g3]; rfl
    cases hh : sample_hop ops multi_gpu handle graph_view wv tv wr s k with
    | error a =>
      rw [hh] at hc
      refine ⟨sh ++ [ev], ?_, ?_, ?_, ?_, ?_, ?_⟩
      · simp only [sample_loop, hh]
        rw [← List.append_assoc]; exact hc
      · rw [o1, o2]; rfl
      · rw [o2]; simp
      · rw [o2, o3]
        by_cases hk : k > 0 <;> simp [rng_seeds, hk]
      · intro hm
        rw [o1, o2, (h5 hm).1]
        simp
      · intro hm l' hl'
        rw [o4] at hl'
        simp only [List.mem_singleton] at hl'
        rw [hl', (h5 hm).2.1]
    | ok s1 =>
      rw [hh] at hc
      obtain ⟨e1, e2, e3, e4, -, -, -, -⟩ := hok s1 hh
      obtain ⟨t, c1, c2, c3, c4, c5, c6⟩ := ih s1
      refine ⟨sh ++ [ev] ++ t, ?_, ?_, ?_, ?_, ?_, ?_⟩
      · simp only [sample_loop, hh]
        rw [c1]
        simp only [calls_of] at hc
        rw [hc]
        simp only [List.append_assoc]
      · rw [expander_outputs_append, expander_batches_append, o1, o2]
        simp [c2]
      · rw [expander_batches_append, o2]
        simp only [List.singleton_append, List.length_cons]
        omega
      · rw [rng_seeds_of_append, expander_batches_append, o2, o3, c4, e3, e4]
        by_cases hk : k > 0 <;> simp [rng_seeds, hk, List.zip]
      · intro hm
        rw [expander_outputs_append, expander_batches_append, o1, o2, (h5 hm).1]
        simp only [List.singleton_append, List.map_cons]
        rw [List.prefix_cons_inj, ← e1]
        exact c5 hm
      · intro hm l' hl'
        rw [expander_label_args_append, o4] at hl'
        simp only [List.singleton_append, List.mem_cons] at hl'
        rcases hl' with rfl | hl'
        · exact (h5 hm).2.1
        · rw [c6 hm l' hl', e2, (h5 hm).2.1]

end cugraph

namespace cugraph
open detail

/-- The accumulators after a loop run that returns, in terms of the tuples the
expander returned during that run. -/
theorem sample_loop_columns {G WV TV : Type} (ops : sample_ops G WV TV) (multi_gpu : Bool)
    (handle : handle_t) (graph_view : G) (wv : Option WV) (tv : Option TV) (wr : Bool)
    (ks : List Int) (s s1 : sample_state) (hs : s.aligned)
    (h : sample_loop ops multi_gpu handle graph_view wv tv wr s ks = .ok s1) :
    ∃ t, s1.calls = s.calls ++ t ∧
      (expander_outputs t).length = ks.length ∧
      s1.aligned ∧
      s1.hop = s.hop + ks.length ∧
      s1.d_result_dst = s.d_result_dst ++ ((expander_outputs t).map (fun o => o.dst)).flatten ∧
      s1.d_result_src = s.d_result_src ++
        ((expander_outputs t).map (fun o => o.src.take o.dst.length)).flatten ∧
      s1.d_result_edge_id = s.d_result_edge_id ++
        ((expander_outputs t).map (fun o => o.edge_id.take o.dst.length)).flatten ∧
      s1.d_result_hop = s.d_result_hop ++ hop_column s.hop (expander_outputs t) ∧
      s1.d_result_weight = s.d_result_weight.map (fun v => v ++
        ((expander_outputs t).map (fun o => (o.weight.getD []).take o.dst.length)).flatten) ∧
      s1.d_result_edge_type = s.d_result_edge_type.map (fun v => v ++
        ((expander_outputs t).map (fun o => (o.edge_type.getD []).take o.dst.length)).flatten) ∧
      s1.d_result_label = s.d_result_label.map (fun v => v ++
        ((expander_outputs t).map (fun o => List.replicate o.dst.length none)).flatten) := by
  induction ks generalizing s with
  | nil =>
    simp only [sample_loop] at h
    cases h
    exact ⟨[], by simp, rfl, hs, by simp, by simp [expander_outputs],
      by simp [expander_outputs], by simp [expander_outputs],
      by simp [expander_outputs, hop_column], by simp [expander_outputs],
      by simp [expander_outputs], by simp [expander_outputs]⟩
  | cons k ks ih =>
    obtain ⟨d, l, sh, ev, out, h1, -, -, -, -, -, -, g1, -, -, -, hc, hok⟩ :=
      sample_hop_spec ops multi_gpu handle graph_view wv tv wr s k
    have o1 : expander_outputs (sh ++ [ev]) = [out] := by
      rw [expander_outputs_append, h1, expander_outputs_single g1]; rfl
    simp only [sample_loop] at h
    cases hh : sample_hop ops multi_gpu handle graph_view wv tv wr s k with
    | error a => rw [hh] at h; cases h
    | ok s2 =>
      rw [hh] at h hc
      simp only at h
      simp only [calls_of] at hc
      obtain ⟨-, -, -, -, e5, e6, e7, e8⟩ := hok s2 hh
      obtain ⟨p1, p2, p3, p4, p5, p6, p7⟩ := e8 hs
      obtain ⟨t, c1, c2, c3, c4, c5, c6, c7, c8, c9, c10, c11⟩ := ih s2 e7 h
      refine ⟨sh ++ [ev] ++ t, ?_, ?_, c3, ?_, ?_, ?_, ?_, ?_, ?_, ?_, ?_⟩
      · rw [c1, hc]; simp only [List.append_assoc]
      · rw [expander_outputs_append, o1]; simp [c2]
      · rw [c4, e5]; simp only [List.length_cons]; push_cast; ring
      · rw [c5, p2, expander_outputs_append, o1]; simp
      · rw [c6, p1, expander_outputs_append, o1]; simp
      · rw [c7, p3, expander_outputs_append, o1]; simp
      · rw [c8, p4, expander_outputs_append, o1, e5]; simp [hop_column]
      · rw [c9, p5, expander_outputs_append, o1]
        cases s.d_result_weight <;> simp
      · rw [c10, p6, expander_outputs_append, o1]
        cases s.d_result_edge_type <;> simp
      · rw [c11, p7, expander_outputs_append, o1]
        cases s.d_result_label <;> simp

end cugraph

namespace cugraph
open detail

/-! ## One hop of `uniform_nbr_sample_impl` -/

theorem nbr_shuffle_spec {G WV : Type} (ops : plain_ops G WV) (multi_gpu : Bool)
    (handle : handle_t) (graph_view : G) (s : nbr_state) :
    ∃ d sh, nbr_shuffle ops multi_gpu handle graph_view s =
        { s with d_in := d, calls := s.calls ++ sh } ∧
      expander_outputs sh = [] ∧ expander_batches sh = [] ∧ rng_seeds_of sh = [] ∧
      (multi_gpu = false → d = s.d_in ∧ sh = []) := by
  unfold nbr_shuffle
  cases multi_gpu with
  | false => exact ⟨s.d_in, [], by simp, rfl, rfl, rfl, fun _ => ⟨rfl, rfl⟩⟩
  | true =>
    refine ⟨ops.shuffle_int_vertices_by_gpu_id handle s.d_in
        (ops.vertex_partition_range_lasts graph_view),
      [Call.shuffle_int_vertices_by_gpu_id s.d_in
        (ops.shuffle_int_vertices_by_gpu_id handle s.d_in
          (ops.vertex_partition_range_lasts graph_view))], ?_, rfl, rfl, rfl,
      fun h => by cases h⟩
    simp only [if_true]

theorem nbr_expand_spec {G WV : Type} (ops : plain_ops G WV)
    (handle : handle_t) (graph_view : G) (wv : Option WV) (wr : Bool)
    (s : nbr_state) (k : Int) :
    ∃ ev, (nbr_expand ops handle graph_view wv wr s k).1 =
        { s with
          seed := if k > 0 then advance_seed s.seed s.d_in.length k.toNat s.comm_size else s.seed
          calls := s.calls ++ [ev] } ∧
      ev.expander_output = some (nbr_expand ops handle graph_view wv wr s k).2 ∧
      ev.expander_batch = some s.d_in ∧
      ev.rng_seed = if k > 0 then some s.seed else none := by
  unfold nbr_expand
  by_cases hk : k > 0
  · simp only [hk, if_true]
    exact ⟨_, rfl, rfl, rfl, rfl⟩
  · simp only [hk, if_false]
    exact ⟨_, rfl, rfl, rfl, rfl⟩

theorem nbr_append_frame {s s1 : nbr_state} {out : plain_hop_output}
    (h : nbr_append s out = .ok s1) :
    s1.d_in = s.d_in ∧ s1.seed = s.seed ∧ s1.hop = s.hop ∧
      s1.comm_size = s.comm_size ∧ s1.calls = s.calls := by
  unfold nbr_append at h
  simp only [bind, Except.bind, pure, Except.pure] at h
  repeat' split at h
  all_goals cases h
  all_goals exact ⟨rfl, rfl, rfl, rfl, rfl⟩

theorem nbr_append_ok {s s1 : nbr_state} {out : plain_hop_output} (ha : s.aligned)
    (h : nbr_append s out = .ok s1) :
    ∃ w, out.weights = some w ∧ out.src.length ≤ out.dst.length ∧
      w.length ≤ out.dst.length ∧
      s1.d_result_src = s.d_result_src ++ out.src ++
        List.replicate (out.dst.length - out.src.length) none ∧
      s1.d_result_dst = s.d_result_dst ++ out.dst ∧
      s1.d_result_weights = s.d_result_weights ++ w ++
        List.replicate (out.dst.length - w.length) none := by
  obtain ⟨h1, h2⟩ := ha
  unfold nbr_append at h
  simp only [bind, Except.bind, pure, Except.pure] at h
  rw [copy_into_resized _ _ _ _ _ h1, copy_into_resized _ _ _ _ _ rfl] at h
  cases hw : out.weights with
  | none =>
    rw [hw] at h
    simp only [deref] at h
    repeat' split at h
    all_goals cases h
  | some w =>
    rw [hw] at h
    simp only [deref] at h
    rw [copy_into_resized _ _ _ _ _ h2] at h
    by_cases c1 : out.src.length ≤ out.dst.length
    · by_cases c2 : w.length ≤ out.dst.length
      · simp only [c1, c2, le_refl, and_self, if_true, List.take_length, Nat.sub_self,
          List.replicate_zero, List.append_nil] at h
        cases h
        exact ⟨w, rfl, c1, c2, rfl, rfl, rfl⟩
      · simp [c1, c2] at h
    · simp [c1] at h

theorem nbr_hop_spec {G WV : Type} (ops : plain_ops G WV) (multi_gpu : Bool)
    (handle : handle_t) (graph_view : G) (wv : Option WV) (wr : Bool)
    (s : nbr_state) (k : Int) :
    ∃ (d : device_uvector vertex_t) (sh : List (Call plain_hop_output))
      (ev : Call plain_hop_output) (out : plain_hop_output),
      expander_outputs sh = [] ∧ expander_batches sh = [] ∧ rng_seeds_of sh = [] ∧
      (multi_gpu = false → d = s.d_in ∧ sh = []) ∧
      d = (nbr_shuffle ops multi_gpu handle graph_view s).d_in ∧
      out = (nbr_expand ops handle graph_view wv wr
        (nbr_shuffle ops multi_gpu handle graph_view s) k).2 ∧
      ev.expander_output = some out ∧ ev.expander_batch = some d ∧
      ev.rng_seed = (if k > 0 then some s.seed else none) ∧
      calls_of nbr_state.calls (nbr_hop ops multi_gpu handle graph_view wv wr s k)
        = s.calls ++ sh ++ [ev] ∧
      ∀ s1, nbr_hop ops multi_gpu handle graph_view wv wr s k = .ok s1 →
        s1.d_in = out.dst ∧
        s1.seed = (if k > 0 then advance_seed s.seed d.length k.toNat s.comm_size else s.seed) ∧
        s1.comm_size = s.comm_size ∧ s1.hop = s.hop + 1 ∧ s.hop + 1 < 2 ^ 31 ∧ s1.aligned ∧
        (s.aligned →
          ∃ w, out.weights = some w ∧ out.src.length ≤ out.dst.length ∧
            w.length ≤ out.dst.length ∧
            s1.d_result_src = s.d_result_src ++ out.src ++
              List.replicate (out.dst.length - out.src.length) none ∧
            s1.d_result_dst = s.d_result_dst ++ out.dst ∧
            s1.d_result_weights = s.d_result_weights ++ w ++
              List.replicate (out.dst.length - w.length) none) := by
  obtain ⟨d, sh, hsh, h1, h2, h3, h5⟩ := nbr_shuffle_spec ops multi_gpu handle graph_view s
  obtain ⟨ev, hev, g1, g2, g4⟩ :=
    nbr_expand_spec ops handle graph_view wv wr (nbr_shuffle ops multi_gpu handle graph_view s) k
  refine ⟨d, sh, ev,
    (nbr_expand ops handle graph_view wv wr (nbr_shuffle ops multi_gpu handle graph_view s) k).2,
    h1, h2, h3, h5, by rw [hsh], rfl, g1, by rw [g2, hsh], by rw [g4, hsh], ?_, ?_⟩
  · have c1 : (nbr_expand ops handle graph_view wv wr
        (nbr_shuffle ops multi_gpu handle graph_view s) k).1.calls = s.calls ++ sh ++ [ev] := by
      rw [hev, hsh]
    unfold nbr_hop
    simp only
    cases hap : nbr_append _ _ with
    | error f => exact c1
    | ok s3 =>
      obtain ⟨-, -, -, -, f6⟩ := nbr_append_frame hap
      cases hin : incr_hop s3.hop with
      | error f => simp only [hin, calls_of]; rw [f6]; exact c1
      | ok h => simp only [hin, calls_of]; rw [f6]; exact c1
  · intro s1 hs1
    unfold nbr_hop at hs1
    simp only at hs1
    cases hap : nbr_append _ _ with
    | error f => rw [hap] at hs1; cases hs1
    | ok s3 =>
      rw [hap] at hs1
      simp only at hs1
      obtain ⟨f1, f3, f4, f5, f6⟩ := nbr_append_frame hap
      have hal := nbr_append_aligned hap
      cases hin : incr_hop s3.hop with
      | error f => rw [hin] at hs1; cases hs1
      | ok h =>
        rw [hin] at hs1
        simp only at hs1
        obtain ⟨i1, i2⟩ := incr_hop_ok hin
        cases hs1
        rw [hev] at f3 f4 f5
        rw [hsh] at f3 f4 f5
        simp only at f3 f4 f5
        refine ⟨rfl, f3, f5, by simp only [i1, f4], by rw [← f4]; exact i2, hal, ?_⟩
        intro hs
        have hs' : (nbr_expand ops handle graph_view wv wr
            (nbr_shuffle ops multi_gpu handle graph_view s) k).1.aligned := by
          rw [hev, hsh]; exact hs
        obtain ⟨w, q1, q2, q3, q4, q5, q6⟩ := nbr_append_ok hs' hap
        refine ⟨w, q1, q2, q3, ?_, ?_, ?_⟩
        · rw [q4, hev, hsh]
        · rw [q5, hev, hsh]
        · rw [q6, hev, hsh]

/-- The log of a loop run of `uniform_nbr_sample_impl`, whether it returns or
stops. -/
theorem nbr_loop_log {G WV : Type} (ops : plain_ops G WV) (multi_gpu : Bool)
    (handle : handle_t) (graph_view : G) (wv : Option WV) (wr : Bool)
    (ks : List Int) (s : nbr_state) :
    ∃ t, calls_of nbr_state.calls
          (nbr_loop ops multi_gpu handle graph_view wv wr s ks) = s.calls ++ t ∧
      (expander_outputs t).length = (expander_batches t).length ∧
      (expander_batches t).length ≤ ks.length ∧
      rng_seeds_of t =
        rng_seeds s.seed s.comm_size (((expander_batches t).map List.length).zip ks) ∧
      (multi_gpu = false →
        expander_batches t <+: s.d_in :: (expander_outputs t).map (fun o => o.dst)) := by
  induction ks generalizing s with
  | nil =>
    exact ⟨[], by simp [nbr_loop, calls_of], rfl, by simp [expander_batches], rfl,
      fun _ => by simp [expander_batches]⟩
  | cons k ks ih =>
    obtain ⟨d, sh, ev, out, h1, h2, h3, h5, -, -, g1, g2, g4, hc, hok⟩ :=
      nbr_hop_spec ops multi_gpu handle graph_view wv wr s k
    have o1 : expander_outputs (sh ++ [ev]) = [out] := by
      rw [expander_outputs_append, h1, expander_outputs_single g1]; rfl
    have o2 : expander_batches (sh ++ [ev]) = [d] := by
      rw [expander_batches_append, h2, expander_batches_single g2]; rfl
    have o3 : rng_seeds_of (sh ++ [ev]) = if k > 0 then [s.seed] else [] := by
      rw [rng_seeds_of_append, h3, rng_seeds_of_single g4]; rfl
    cases hh : nbr_hop ops multi_gpu handle graph_view wv wr s k with
    | error a =>
      rw [hh] at hc
      refine ⟨sh ++ [ev], ?_, ?_, ?_, ?_, ?_⟩
      · simp only [nbr_loop, hh]
        rw [← List.append_assoc]; exact hc
      · rw [o1, o2]; rfl
      · rw [o2]; simp
      · rw [o2, o3]
        by_cases hk : k > 0 <;> simp [rng_seeds, hk]
      · intro hm
        rw [o1, o2, (h5 hm).1]
        simp
    | ok s1 =>
      rw [hh] at hc
      obtain ⟨e1, e3, e4, -, -, -, -⟩ := hok s1 hh
      obtain ⟨t, c1, c2, c3, c4, c5⟩ := ih s1
      refine ⟨sh ++ [ev] ++ t, ?_, ?_, ?_, ?_, ?_⟩
      · simp only [nbr_loop, hh]
        rw [c1]
        simp only [calls_of] at hc
        rw [hc]
        simp only [List.append_assoc]
      · rw [expander_outputs_append, expander_batches_append, o1, o2]
        simp [c2]
      · rw [expander_batches_append, o2]
        simp only [List.singleton_append, List.length_cons]
        omega
      · rw [rng_seeds_of_append, expander_batches_append, o2, o3, c4, e3, e4]
        by_cases hk : k > 0 <;> simp [rng_seeds, hk, List.zip]
      · intro hm
        rw [expander_outputs_append, expander_batches_append, o1, o2, (h5 hm).1]
        simp only [List.singleton_append, List.map_cons]
        rw [List.prefix_cons_inj, ← e1]
        exact c5 hm

end cugraph

namespace cugraph
open detail

/-! ## From the loop to the drivers -/

theorem sample_init_aligned {WV TV : Type} (multi_gpu : Bool) (handle : handle_t)
    (wv : Option WV) (tv : Option TV) (d_in : device_uvector vertex_t)
    (d_labels : Option (device_uvector Int)) (seed : Nat) :
    (sample_init multi_gpu handle wv tv d_in d_labels seed).aligned := by
  refine ⟨rfl, rfl, rfl, ?_, ?_, ?_⟩
  · cases wv <;> simp [sample_init, column_length_is]
  · cases tv <;> simp [sample_init, column_length_is]
  · cases d_labels <;> simp [sample_init, column_length_is]

theorem nbr_init_aligned (multi_gpu : Bool) (handle : handle_t)
    (d_in : device_uvector vertex_t) (seed : Nat) :
    (nbr_init multi_gpu handle d_in seed).aligned :=
  ⟨rfl, rfl⟩

theorem sample_impl_calls {G WV TV : Type} (ops : sample_ops G WV TV) (multi_gpu : Bool)
    (handle : handle_t) (graph_view : G) (wv : Option WV) (tv : Option TV) (wr : Bool)
    (d_in : device_uvector vertex_t) (d_labels : Option (device_uvector Int))
    (ks : List Int) (seed : Nat) (hk : ks ≠ []) :
    calls_of Returned.calls
        (uniform_neighbor_sample_impl ops multi_gpu handle graph_view wv tv d_in d_labels ks wr
          seed) =
      calls_of sample_state.calls
        (sample_loop ops multi_gpu handle graph_view wv tv wr
          (sample_init multi_gpu handle wv tv d_in d_labels seed) ks) := by
  unfold uniform_neighbor_sample_impl
  rw [if_pos (List.length_pos.mpr hk)]
  cases sample_loop ops multi_gpu handle graph_view wv tv wr
      (sample_init multi_gpu handle wv tv d_in d_labels seed) ks with
  | error a => rfl
  | ok s => rfl

theorem nbr_impl_calls {G WV : Type} (ops : plain_ops G WV) (multi_gpu : Bool)
    (handle : handle_t) (graph_view : G) (wv : Option WV) (wr : Bool)
    (d_in : device_uvector vertex_t) (ks : List Int) (seed : Nat) (hk : ks ≠ []) :
    ∃ tl, calls_of Returned.calls
        (uniform_nbr_sample_impl ops multi_gpu handle graph_view wv d_in ks wr seed) =
      calls_of nbr_state.calls
        (nbr_loop ops multi_gpu handle graph_view wv wr
          (nbr_init multi_gpu handle d_in seed) ks) ++ tl ∧
      expander_outputs tl = [] ∧ expander_batches tl = [] ∧ rng_seeds_of tl = [] := by
  unfold uniform_nbr_sample_impl
  rw [if_pos (List.length_pos.mpr hk)]
  cases nbr_loop ops multi_gpu handle graph_view wv wr
      (nbr_init multi_gpu handle d_in seed) ks with
  | error a => exact ⟨[], by simp [calls_of], rfl, rfl, rfl⟩
  | ok s => exact ⟨[_], rfl, rfl, rfl, rfl⟩

/-- The first hop of a loop always reaches its expander call. -/
theorem sample_loop_first_call {G WV TV : Type} (ops : sample_ops G WV TV) (multi_gpu : Bool)
    (handle : handle_t) (graph_view : G) (wv : Option WV) (tv : Option TV) (wr : Bool)
    (k : Int) (ks : List Int) (s : sample_state) :
    ∃ sh ev rest d l,
      calls_of sample_state.calls
        (sample_loop ops multi_gpu handle graph_view wv tv wr s (k :: ks))
        = s.calls ++ sh ++ ev :: rest ∧
      expander_outputs sh = [] ∧ expander_batches sh = [] ∧
      ev.expander_batch = some d ∧ ev.expander_labels = some l ∧
      (multi_gpu = false → sh = [] ∧ d = s.d_in ∧ l = s.d_labels) := by
  obtain ⟨d, l, sh, ev, out, h1, h2, -, -, h5, -, -, -, g2, g3, -, hc, -⟩ :=
    sample_hop_spec ops multi_gpu handle graph_view wv tv wr s k
  cases hh : sample_hop ops multi_gpu handle graph_view wv tv wr s k with
  | error a =>
    rw [hh] at hc
    refine ⟨sh, ev, [], d, l, ?_, h1, h2, g2, g3, fun hm => ⟨(h5 hm).2.2, (h5 hm).1, (h5 hm).2.1⟩⟩
    simp only [sample_loop, hh]
    exact hc
  | ok s1 =>
    rw [hh] at hc
    simp only [calls_of] at hc
    obtain ⟨t, c1, -⟩ := sample_loop_log ops multi_gpu handle graph_view wv tv wr ks s1
    refine ⟨sh, ev, t, d, l, ?_, h1, h2, g2, g3, fun hm => ⟨(h5 hm).2.2, (h5 hm).1, (h5 hm).2.1⟩⟩
    simp only [sample_loop, hh]
    rw [c1, hc]
    simp

theorem nbr_loop_first_call {G WV : Type} (ops : plain_ops G WV) (multi_gpu : Bool)
    (handle : handle_t) (graph_view : G) (wv : Option WV) (wr : Bool)
    (k : Int) (ks : List Int) (s : nbr_state) :
    ∃ sh ev rest d,
      calls_of nbr_state.calls (nbr_loop ops multi_gpu handle graph_view wv wr s (k :: ks))
        = s.calls ++ sh ++ ev :: rest ∧
      expander_outputs sh = [] ∧ expander_batches sh = [] ∧
      ev.expander_batch = some d ∧
      (multi_gpu = false → sh = [] ∧ d = s.d_in) := by
  obtain ⟨d, sh, ev, out, h1, h2, -, h5, -, -, -, g2, -, hc, -⟩ :=
    nbr_hop_spec ops multi_gpu handle graph_view wv wr s k
  cases hh : nbr_hop ops multi_gpu handle graph_view wv wr s k with
  | error a =>
    rw [hh] at hc
    refine ⟨sh, ev, [], d, ?_, h1, h2, g2, fun hm => ⟨(h5 hm).2, (h5 hm).1⟩⟩
    simp only [nbr_loop, hh]
    exact hc
  | ok s1 =>
    rw [hh] at hc
    simp only [calls_of] at hc
    obtain ⟨t, c1, -⟩ := nbr_loop_log ops multi_gpu handle graph_view wv wr ks s1
    refine ⟨sh, ev, t, d, ?_, h1, h2, g2, fun hm => ⟨(h5 hm).2, (h5 hm).1⟩⟩
    simp only [nbr_loop, hh]
    rw [c1, hc]
    simp

/-! ## C2 -/

/-- C2 fails on the code: on the chain graph, one starting vertex with two
starting labels and fan-out `[1]` is not rejected; the expander is invoked with
the mismatched labels and a result is returned. -/
theorem C2_counterexample :
    ([some 5, some 6] : device_uvector Int).length ≠ ([some 1] : device_uvector vertex_t).length ∧
    uniform_neighbor_sample chain_ops false ⟨0, 1⟩ () none none [some 1]
        (some [some 5, some 6]) [1] true 42 =
      .ok { value :=
              { src := [some 1], dst := [some 2], edge_id := [some 1], edge_type := none,
                weight := none, hop := [some 0], label := some [none] }
            calls :=
              [Call.sample_edges 42 [some 1] (some [some 5, some 6]) 1 true
                { src := [some 1], dst := [some 2], edge_id := [some 1], weight := none,
                  edge_type := none, label := some [some 5, some 6] }] } :=
  ⟨by decide, rfl⟩

/-- C2, amended: `uniform_neighbor_sample` does not validate the length of the
starting labels.  With labels supplied (of any length) and a non-empty fan-out,
a run never stops with the validation error, hop 0 reaches its expander call
(after shuffle calls only), and in single-worker mode that call is the first
primitive invoked and receives the starting vertices and the labels as given. -/
theorem C2_labels_length_is_not_validated {G WV TV : Type} (ops : sample_ops G WV TV)
    (multi_gpu : Bool) (handle : handle_t) (graph_view : G) (wv : Option WV) (tv : Option TV)
    (starting_vertices : device_uvector vertex_t) (starting_labels : device_uvector Int)
    (fan_out : List Int) (wr : Bool) (seed : Nat) (hk : fan_out ≠ []) :
    (∀ a, uniform_neighbor_sample ops multi_gpu handle graph_view wv tv starting_vertices
        (some starting_labels) fan_out wr seed = .error a →
        a.reason ≠ Failure.invalid_argument) ∧
    ∃ sh ev rest d l,
      calls_of Returned.calls
        (uniform_neighbor_sample ops multi_gpu handle graph_view wv tv starting_vertices
          (some starting_labels) fan_out wr seed) = sh ++ ev :: rest ∧
      expander_outputs sh = [] ∧
      ev.expander_batch = some d ∧ ev.expander_labels = some l ∧
      (multi_gpu = false → sh = [] ∧ d = starting_vertices ∧ l = some starting_labels) := by
  rw [uniform_neighbor_sample_eq]
  refine ⟨fun a h => sample_impl_reason hk h, ?_⟩
  rw [sample_impl_calls _ _ _ _ _ _ _ _ _ _ _ hk]
  cases fan_out with
  | nil => exact absurd rfl hk
  | cons k ks =>
    obtain ⟨sh, ev, rest, d, l, h1, h2, -, h4, h5, h6⟩ :=
      sample_loop_first_call ops multi_gpu handle graph_view wv tv wr k ks
        (sample_init multi_gpu handle wv tv starting_vertices (some starting_labels) seed)
    refine ⟨sh, ev, rest, d, l, ?_, h2, h4, h5, h6⟩
    rw [h1]
    simp [sample_init]

/-- C2 (amended) at a concrete input: one vertex, two labels, fan-out `[1]`. -/
theorem C2_labels_length_is_not_validated_witness :
    ([1] : List Int) ≠ [] ∧
    ∃ sh ev rest d l,
      calls_of Returned.calls
        (uniform_neighbor_sample chain_ops false ⟨0, 1⟩ () none none [some 1]
          (some [some 5, some 6]) [1] true 42) = sh ++ ev :: rest ∧
      expander_outputs sh = [] ∧
      ev.expander_batch = some d ∧ ev.expander_labels = some l ∧
      (false = false → sh = [] ∧ d = [some 1] ∧ l = some [some 5, some 6]) :=
  ⟨by decide,
   (C2_labels_length_is_not_validated chain_ops false ⟨0, 1⟩ () (none : Option Unit)
      (none : Option Unit) [some 1] [some 5, some 6] [1] true 42 (by decide)).2⟩

end cugraph

namespace cugraph
open detail

/-! ## C3 -/

theorem sample_loop_append {G WV TV : Type} (ops : sample_ops G WV TV) (multi_gpu : Bool)
    (handle : handle_t) (graph_view : G) (wv : Option WV) (tv : Option TV) (wr : Bool)
    (a b : List Int) (s : sample_state) :
    sample_loop ops multi_gpu handle graph_view wv tv wr s (a ++ b) =
      match sample_loop ops multi_gpu handle graph_view wv tv wr s a with
      | .error e => .error e
      | .ok s1 => sample_loop ops multi_gpu handle graph_view wv tv wr s1 b := by
  induction a generalizing s with
  | nil => rfl
  | cons k ks ih =>
    simp only [List.cons_append, sample_loop]
    cases sample_hop ops multi_gpu handle graph_view wv tv wr s k with
    | error e => rfl
    | ok s1 => exact ih s1

theorem nbr_loop_append {G WV : Type} (ops : plain_ops G WV) (multi_gpu : Bool)
    (handle : handle_t) (graph_view : G) (wv : Option WV) (wr : Bool)
    (a b : List Int) (s : nbr_state) :
    nbr_loop ops multi_gpu handle graph_view wv wr s (a ++ b) =
      match nbr_loop ops multi_gpu handle graph_view wv wr s a with
      | .error e => .error e
      | .ok s1 => nbr_loop ops multi_gpu handle graph_view wv wr s1 b := by
  induction a generalizing s with
  | nil => rfl
  | cons k ks ih =>
    simp only [List.cons_append, nbr_loop]
    cases nbr_hop ops multi_gpu handle graph_view wv wr s k with
    | error e => rfl
    | ok s1 => exact ih s1

theorem sample_loop_aligned {G WV TV : Type} (ops : sample_ops G WV TV) (multi_gpu : Bool)
    (handle : handle_t) (graph_view : G) (wv : Option WV) (tv : Option TV) (wr : Bool)
    (ks : List Int) (s s1 : sample_state) (hs : s.aligned)
    (h : sample_loop ops multi_gpu handle graph_view wv tv wr s ks = .ok s1) : s1.aligned := by
  induction ks generalizing s with
  | nil => simp only [sample_loop] at h; cases h; exact hs
  | cons k ks ih =>
    obtain ⟨d, l, sh, ev, out, -, -, -, -, -, -, -, -, -, -, -, -, hok⟩ :=
      sample_hop_spec ops multi_gpu handle graph_view wv tv wr s k
    simp only [sample_loop] at h
    cases hh : sample_hop ops multi_gpu handle graph_view wv tv wr s k with
    | error a => rw [hh] at h; cases h
    | ok s2 =>
      rw [hh] at h
      exact ih s2 (hok s2 hh).2.2.2.2.2.2.1 h

theorem nbr_loop_aligned {G WV : Type} (ops : plain_ops G WV) (multi_gpu : Bool)
    (handle : handle_t) (graph_view : G) (wv : Option WV) (wr : Bool)
    (ks : List Int) (s s1 : nbr_state) (hs : s.aligned)
    (h : nbr_loop ops multi_gpu handle graph_view wv wr s ks = .ok s1) : s1.aligned := by
  induction ks generalizing s with
  | nil => simp only [nbr_loop] at h; cases h; exact hs
  | cons k ks ih =>
    obtain ⟨d, sh, ev, out, -, -, -, -, -, -, -, -, -, -, hok⟩ :=
      nbr_hop_spec ops multi_gpu handle graph_view wv wr s k
    simp only [nbr_loop] at h
    cases hh : nbr_hop ops multi_gpu handle graph_view wv wr s k with
    | error a => rw [hh] at h; cases h
    | ok s2 =>
      rw [hh] at h
      exact ih s2 (hok s2 hh).2.2.2.2.2.1 h

theorem sample_impl_ok {G WV TV : Type} {ops : sample_ops G WV TV} {multi_gpu : Bool}
    {handle : handle_t} {graph_view : G} {wv : Option WV} {tv : Option TV} {wr : Bool}
    {d_in : device_uvector vertex_t} {d_labels : Option (device_uvector Int)}
    {ks : List Int} {seed : Nat} {r : Returned sample_result hop_output}
    (h : uniform_neighbor_sample_impl ops multi_gpu handle graph_view wv tv d_in d_labels ks wr
      seed = .ok r) :
    ks ≠ [] ∧ ∃ s, sample_loop ops multi_gpu handle graph_view wv tv wr
        (sample_init multi_gpu handle wv tv d_in d_labels seed) ks = .ok s ∧
      r.calls = s.calls ∧
      r.value = { src := s.d_result_src, dst := s.d_result_dst, edge_id := s.d_result_edge_id,
                  edge_type := s.d_result_edge_type, weight := s.d_result_weight,
                  hop := s.d_result_hop, label := s.d_result_label } := by
  unfold uniform_neighbor_sample_impl at h
  split at h
  · rename_i hlen
    split at h
    · cases h
    · rename_i s hs
      cases h
      exact ⟨List.length_pos.mp hlen, s, hs, rfl, rfl⟩
  · cases h

theorem nbr_impl_ok {G WV : Type} {ops : plain_ops G WV} {multi_gpu : Bool}
    {handle : handle_t} {graph_view : G} {wv : Option WV} {wr : Bool}
    {d_in : device_uvector vertex_t} {ks : List Int} {seed : Nat}
    {r : Returned plain_result plain_hop_output}
    (h : uniform_nbr_sample_impl ops multi_gpu handle graph_view wv d_in ks wr seed = .ok r) :
    ks ≠ [] ∧ ∃ s, nbr_loop ops multi_gpu handle graph_view wv wr
        (nbr_init multi_gpu handle d_in seed) ks = .ok s ∧
      r.value = ops.count_and_remove_duplicates handle s.d_result_src s.d_result_dst
        s.d_result_weights ∧
      r.calls = s.calls ++ [Call.count_and_remove_duplicates s.d_result_src s.d_result_dst
        s.d_result_weights r.value] := by
  unfold uniform_nbr_sample_impl at h
  split at h
  · rename_i hlen
    split at h
    · cases h
    · rename_i s hs
      cases h
      exact ⟨List.length_pos.mp hlen, s, hs, rfl, rfl⟩
  · cases h

/-- C3: whatever the expander returns, every loop state reached after a hop
has all its populated accumulators of one length (src, dst, edge id, hop and
each present optional column in `uniform_neighbor_sample_impl`; src, dst and
weights in `uniform_nbr_sample_impl`), and so have the tuple returned by
`uniform_neighbor_sample_impl` and the three accumulators that
`uniform_nbr_sample_impl` hands to `count_and_remove_duplicates`.  The state
after `i` hops is the loop run over the first `i` entries of the fan-out. -/
theorem C3_result_columns_have_equal_length {G WV TV : Type} (ops : sample_ops G WV TV)
    (pops : plain_ops G WV) (multi_gpu : Bool) (handle : handle_t) (graph_view : G)
    (wv : Option WV) (tv : Option TV) (d_in : device_uvector vertex_t)
    (d_labels : Option (device_uvector Int)) (fan_out : List Int) (wr : Bool) (seed : Nat) :
    (∀ i s, sample_loop ops multi_gpu handle graph_view wv tv wr
        (sample_init multi_gpu handle wv tv d_in d_labels seed) (fan_out.take i) = .ok s →
        s.aligned) ∧
    (∀ r, uniform_neighbor_sample_impl ops multi_gpu handle graph_view wv tv d_in d_labels
        fan_out wr seed = .ok r → r.value.aligned) ∧
    (∀ i s, nbr_loop pops multi_gpu handle graph_view wv wr
        (nbr_init multi_gpu handle d_in seed) (fan_out.take i) = .ok s → s.aligned) ∧
    (∀ r, uniform_nbr_sample_impl pops multi_gpu handle graph_view wv d_in fan_out wr seed
        = .ok r →
      ∃ src dst weights, r.calls.getLast? =
          some (Call.count_and_remove_duplicates src dst weights r.value) ∧
        src.length = dst.length ∧ weights.length = dst.length) := by
  refine ⟨?_, ?_, ?_, ?_⟩
  · intro i s h
    exact sample_loop_aligned _ _ _ _ _ _ _ _ _ _ (sample_init_aligned _ _ _ _ _ _ _) h
  · intro r h
    obtain ⟨-, s, hs, -, hv⟩ := sample_impl_ok h
    have := sample_loop_aligned _ _ _ _ _ _ _ _ _ _ (sample_init_aligned _ _ _ _ _ _ _) hs
    rw [hv]
    exact this
  · intro i s h
    exact nbr_loop_aligned _ _ _ _ _ _ _ _ _ (nbr_init_aligned _ _ _ _) h
  · intro r h
    obtain ⟨-, s, hs, -, hc⟩ := nbr_impl_ok h
    have ha := nbr_loop_aligned _ _ _ _ _ _ _ _ _ (nbr_init_aligned _ _ _ _) hs
    exact ⟨s.d_result_src, s.d_result_dst, s.d_result_weights, by rw [hc]; simp, ha.1, ha.2⟩

/-- C3 at the concrete run: after hop 0 of both drivers and at return. -/
theorem C3_result_columns_have_equal_length_witness :
    (sample_loop chain_ops false ⟨0, 1⟩ () (some ()) (none : Option Unit) true
        (sample_init false ⟨0, 1⟩ (some ()) (none : Option Unit) [some 1] (some [some 5]) 42)
        (([2, -1] : List Int).take 1) = .ok chain_state1 ∧ chain_state1.aligned) ∧
    (uniform_neighbor_sample_impl chain_ops false ⟨0, 1⟩ () (some ()) (none : Option Unit)
        [some 1] (some [some 5]) [2, -1] true 42 = .ok chain_returned ∧
      chain_returned.value.aligned) ∧
    (nbr_loop chain_plain_ops false ⟨0, 1⟩ () (some ()) true
        (nbr_init false ⟨0, 1⟩ [some 1] 42) (([2, -1] : List Int).take 1)
        = .ok chain_plain_state1 ∧ chain_plain_state1.aligned) :=
  ⟨⟨rfl, (C3_result_columns_have_equal_length chain_ops chain_plain_ops false ⟨0, 1⟩ ()
      (some ()) (none : Option Unit) [some 1] (some [some 5]) [2, -1] true 42).1 1 _ (by rfl)⟩,
   ⟨rfl, (C3_result_columns_have_equal_length chain_ops chain_plain_ops false ⟨0, 1⟩ ()
      (some ()) (none : Option Unit) [some 1] (some [some 5]) [2, -1] true 42).2.1 _ (by rfl)⟩,
   ⟨rfl, (C3_result_columns_have_equal_length chain_ops chain_plain_ops false ⟨0, 1⟩ ()
      (some ()) (none : Option Unit) [some 1] (some [some 5]) [2, -1] true 42).2.2.1 1 _ (by rfl)⟩⟩

end cugraph

namespace cugraph
open detail

/-! ## C4 -/

theorem hop_column_values (hop : Int) (outs : List hop_output) :
    ∃ hs : List Int, hop_column hop outs = hs.map some ∧ hs.Pairwise (· ≤ ·) ∧
      ∀ v ∈ hs, hop ≤ v ∧ v < hop + outs.length := by
  induction outs generalizing hop with
  | nil => exact ⟨[], rfl, List.Pairwise.nil, fun v hv => by cases hv⟩
  | cons o os ih =>
    obtain ⟨hs, e, p, b⟩ := ih (hop + 1)
    refine ⟨List.replicate o.dst.length hop ++ hs, ?_, ?_, ?_⟩
    · simp only [hop_column, e, List.map_append, List.map_replicate]
    · rw [List.pairwise_append]
      refine ⟨?_, p, ?_⟩
      · rw [List.pairwise_replicate]
        exact Or.inr (le_refl _)
      · intro a ha c hc
        rw [List.eq_of_mem_replicate ha]
        have := (b c hc).1
        omega
    · intro v hv
      simp only [List.length_cons, Nat.cast_add, Nat.cast_one]
      rcases List.mem_append.mp hv with hv | hv
      · rw [List.eq_of_mem_replicate hv]
        constructor <;> omega
      · have := b v hv
        constructor <;> omega

theorem hop_column_count_below (hop v : Int) (outs : List hop_output) (hv : v < hop) :
    (hop_column hop outs).count (some v) = 0 := by
  obtain ⟨hs, e, -, b⟩ := hop_column_values hop outs
  rw [e, List.count_eq_zero]
  intro hm
  obtain ⟨w, hw, hw2⟩ := List.mem_map.mp hm
  cases hw2
  have := (b v hw).1
  omega

theorem hop_column_count (hop : Int) (outs : List hop_output) (i : Nat) (o : hop_output)
    (hi : outs[i]? = some o) :
    (hop_column hop outs).count (some (hop + i)) = o.dst.length := by
  induction outs generalizing hop i with
  | nil => simp at hi
  | cons o1 os ih =>
    cases i with
    | zero =>
      simp only [List.getElem?_cons_zero, Option.some.injEq] at hi
      subst hi
      simp only [hop_column, List.count_append, Nat.cast_zero, add_zero, List.count_replicate_self]
      rw [hop_column_count_below _ _ _ (by omega)]
      rfl
    | succ j =>
      simp only [List.getElem?_cons_succ] at hi
      have := ih (hop + 1) j hi
      simp only [hop_column, List.count_append]
      have hne : (some hop : Option Int) ≠ some (hop + ((j + 1 : Nat) : Int)) := by
        intro hc
        simp only [Option.some.injEq] at hc
        omega
      rw [List.count_replicate, if_neg (by simpa using hne), Nat.zero_add]
      have he : hop + ((j + 1 : Nat) : Int) = hop + 1 + (j : Int) := by push_cast; ring
      rw [he]
      exact this

/-- C4: when `uniform_neighbor_sample_impl` returns, the expander was called
once per fan-out entry and the hop column is, hop after hop, one cell holding
the loop index `i` per edge the expander returned at hop `i`; so the column is
non-decreasing, every value lies in `[0, H)`, and the number of rows with hop
value `i` is the number of edges returned at hop `i`. -/
theorem C4_hop_column_is_loop_index {G WV TV : Type} (ops : sample_ops G WV TV)
    (multi_gpu : Bool) (handle : handle_t) (graph_view : G) (wv : Option WV) (tv : Option TV)
    (d_in : device_uvector vertex_t) (d_labels : Option (device_uvector Int))
    (fan_out : List Int) (wr : Bool) (seed : Nat)
    (r : Returned sample_result hop_output)
    (h : uniform_neighbor_sample_impl ops multi_gpu handle graph_view wv tv d_in d_labels
      fan_out wr seed = .ok r) :
    (expander_outputs r.calls).length = fan_out.length ∧
    r.value.hop = hop_column 0 (expander_outputs r.calls) ∧
    (∃ hs : List Int, r.value.hop = hs.map some ∧ hs.Pairwise (· ≤ ·) ∧
      ∀ v ∈ hs, 0 ≤ v ∧ v < fan_out.length) ∧
    (∀ (i : Nat) (o : hop_output), (expander_outputs r.calls)[i]? = some o →
      r.value.hop.count (some (i : Int)) = o.dst.length) := by
  obtain ⟨-, s, hs, hc, hv⟩ := sample_impl_ok h
  obtain ⟨t, c1, c2, -, -, -, -, -, c8, -⟩ :=
    sample_loop_columns _ _ _ _ _ _ _ _ _ _ (sample_init_aligned _ _ _ _ _ _ _) hs
  have ht : r.calls = t := by rw [hc, c1]; simp [sample_init]
  have hh : r.value.hop = hop_column 0 (expander_outputs t) := by
    rw [hv]; simp only; rw [c8]; simp [sample_init]
  rw [ht]
  refine ⟨c2, hh, ?_, ?_⟩
  · obtain ⟨hs', e, p, b⟩ := hop_column_values 0 (expander_outputs t)
    refine ⟨hs', by rw [hh, e], p, fun v hv' => ?_⟩
    have := b v hv'
    rw [c2] at this
    constructor <;> omega
  · intro i o hi
    rw [hh]
    have := hop_column_count 0 (expander_outputs t) i o hi
    simpa using this

/-- C4 at the concrete run (fan-out `[2, -1]`, two edges per hop). -/
theorem C4_hop_column_is_loop_index_witness :
    uniform_neighbor_sample_impl chain_ops false ⟨0, 1⟩ () (some ()) (none : Option Unit)
        [some 1] (some [some 5]) [2, -1] true 42 = .ok chain_returned ∧
    (expander_outputs chain_returned.calls).length = ([2, -1] : List Int).length ∧
    chain_returned.value.hop = hop_column 0 (expander_outputs chain_returned.calls) ∧
    (∃ hs : List Int, chain_returned.value.hop = hs.map some ∧ hs.Pairwise (· ≤ ·) ∧
      ∀ v ∈ hs, 0 ≤ v ∧ v < ([2, -1] : List Int).length) ∧
    (∀ (i : Nat) (o : hop_output), (expander_outputs chain_returned.calls)[i]? = some o →
      chain_returned.value.hop.count (some (i : Int)) = o.dst.length) :=
  ⟨by rfl, C4_hop_column_is_loop_index chain_ops false ⟨0, 1⟩ () (some ()) (none : Option Unit)
    [some 1] (some [some 5]) [2, -1] true 42 chain_returned (by rfl)⟩

end cugraph

namespace cugraph
open detail

/-! ## C5 -/

theorem copy_opt_progress {α : Type} (acc d_out : Option (device_uvector α)) (old add : Nat)
    (ha : column_length_is acc old)
    (hd : acc.isSome = true → d_out.map List.length = some add) :
    ∃ r, copy_opt (resize_opt acc (old + add)) old d_out add = .ok r := by
  cases acc with
  | none => exact ⟨none, rfl⟩
  | some v =>
    rw [column_length_is_some] at ha
    have hd' := hd rfl
    cases d_out with
    | none => simp at hd'
    | some w =>
      simp only [Option.map_some', Option.some.injEq] at hd'
      simp only [resize_opt, Option.map_some', copy_opt, bind, Except.bind, deref]
      rw [copy_into_resized v w old add add ha]
      simp [hd', pure, Except.pure]

theorem sample_append_progress {s : sample_state} {out : hop_output} (ha : s.aligned)
    (hw : out.well_formed s.d_result_weight.isSome s.d_result_edge_type.isSome) :
    ∃ s1, sample_append s out = .ok s1 := by
  obtain ⟨h1, h2, h3, h4, h5, h6⟩ := ha
  obtain ⟨w1, w2, w3, w4⟩ := hw
  obtain ⟨rw', hrw⟩ := copy_opt_progress _ _ _ _ h4 w3
  obtain ⟨rt', hrt⟩ := copy_opt_progress _ _ _ _ h5 w4
  unfold sample_append
  simp only [bind, Except.bind, pure, Except.pure]
  rw [copy_into_resized _ _ _ _ _ h1, copy_into_resized _ _ _ _ _ rfl,
    copy_into_resized _ _ _ _ _ h2, scalar_fill_resized _ _ _ _ h3]
  simp only [w1, w2, le_refl, and_self, if_true, hrw, hrt]
  exact ⟨_, rfl⟩

theorem sample_hop_progress {G WV TV : Type} (ops : sample_ops G WV TV) (multi_gpu : Bool)
    (handle : handle_t) (graph_view : G) (wv : Option WV) (tv : Option TV) (wr : Bool)
    (s : sample_state) (k : Int) (ha : s.aligned) (hh : s.hop + 1 < 2 ^ 31)
    (hw : (sample_expand ops handle graph_view wv tv wr
        (sample_shuffle ops multi_gpu handle graph_view s) k).2.well_formed
          s.d_result_weight.isSome s.d_result_edge_type.isSome) :
    ∃ s1, sample_hop ops multi_gpu handle graph_view wv tv wr s k = .ok s1 := by
  obtain ⟨d, l, sh, hsh, -⟩ := sample_shuffle_spec ops multi_gpu handle graph_view s
  obtain ⟨ev, hev, -⟩ := sample_expand_spec ops handle graph_view wv tv wr
      (sample_shuffle ops multi_gpu handle graph_view s) k
  have a1 : (sample_expand ops handle graph_view wv tv wr
      (sample_shuffle ops multi_gpu handle graph_view s) k).1.aligned := by
    rw [hev, hsh]; exact ha
  have a2 : (sample_expand ops handle graph_view wv tv wr
      (sample_shuffle ops multi_gpu handle graph_view s) k).1.d_result_weight
        = s.d_result_weight := by rw [hev, hsh]
  have a3 : (sample_expand ops handle graph_view wv tv wr
      (sample_shuffle ops multi_gpu handle graph_view s) k).1.d_result_edge_type
        = s.d_result_edge_type := by rw [hev, hsh]
  have a4 : (sample_expand ops handle graph_view wv tv wr
      (sample_shuffle ops multi_gpu handle graph_view s) k).1.hop = s.hop := by rw [hev, hsh]
  rw [← a2, ← a3] at hw
  obtain ⟨s3, hs3⟩ := sample_append_progress a1 hw
  obtain ⟨-, -, -, f4, -, -⟩ := sample_append_frame hs3
  unfold sample_hop
  simp only [hs3]
  have : incr_hop s3.hop = .ok (s3.hop + 1) := by
    unfold incr_hop
    rw [if_pos (by rw [f4, a4]; exact hh)]
  rw [this]
  exact ⟨_, rfl⟩

theorem sample_loop_progress {G WV TV : Type} (ops : sample_ops G WV TV) (multi_gpu : Bool)
    (handle : handle_t) (graph_view : G) (wv : Option WV) (tv : Option TV) (wr : Bool)
    (ks : List Int) (s : sample_state) (ha : s.aligned) (hh : s.hop + ks.length < 2 ^ 31)
    (hw : ∀ o ∈ expander_outputs (calls_of sample_state.calls
        (sample_loop ops multi_gpu handle graph_view wv tv wr s ks)),
      o.well_formed s.d_result_weight.isSome s.d_result_edge_type.isSome) :
    ∃ s1, sample_loop ops multi_gpu handle graph_view wv tv wr s ks = .ok s1 := by
  induction ks generalizing s with
  | nil => exact ⟨s, rfl⟩
  | cons k ks ih =>
    obtain ⟨d, l, sh, ev, out, -, -, -, -, -, -, ho, g1, -, -, -, hc, hok⟩ :=
      sample_hop_spec ops multi_gpu handle graph_view wv tv wr s k
    simp only [List.length_cons, Nat.cast_add, Nat.cast_one] at hh
    have hmem : out ∈ expander_outputs (calls_of sample_state.calls
        (sample_loop ops multi_gpu handle graph_view wv tv wr s (k :: ks))) := by
      have o1 : out ∈ expander_outputs (s.calls ++ sh ++ [ev]) := by
        rw [expander_outputs_append, expander_outputs_single g1]
        simp
      simp only [sample_loop]
      cases hhop : sample_hop ops multi_gpu handle graph_view wv tv wr s k with
      | error a => rw [hhop] at hc; simp only; rw [hc]; exact o1
      | ok s2 =>
        rw [hhop] at hc
        simp only [calls_of] at hc
        obtain ⟨t, c1, -⟩ := sample_loop_log ops multi_gpu handle graph_view wv tv wr ks s2
        simp only
        rw [c1, hc, expander_outputs_append]
        exact List.mem_append_left _ o1
    have hwf := hw out hmem
    rw [ho] at hwf
    obtain ⟨s2, hs2⟩ := sample_hop_progress ops multi_gpu handle graph_view wv tv wr s k ha
      (by omega) hwf
    obtain ⟨-, -, -, -, e5, -, e7, e8⟩ := hok s2 hs2
    obtain ⟨-, -, -, -, p5, p6, -⟩ := e8 ha
    have q1 : s2.d_result_weight.isSome = s.d_result_weight.isSome := by
      rw [p5]; cases s.d_result_weight <;> rfl
    have q2 : s2.d_result_edge_type.isSome = s.d_result_edge_type.isSome := by
      rw [p6]; cases s.d_result_edge_type <;> rfl
    have hw2 : ∀ o ∈ expander_outputs (calls_of sample_state.calls
        (sample_loop ops multi_gpu handle graph_view wv tv wr s2 ks)),
        o.well_formed s2.d_result_weight.isSome s2.d_result_edge_type.isSome := by
      intro o ho2
      rw [q1, q2]
      apply hw
      simp only [sample_loop, hs2]
      exact ho2
    obtain ⟨s3, hs3⟩ := ih s2 e7 (by rw [e5]; omega) hw2
    exact ⟨s3, by simp only [sample_loop, hs2]; exact hs3⟩

end cugraph

namespace cugraph
open detail

theorem zip_flatten_map {α β γ : Type} (f : α → List β) (g : α → List γ) (l : List α)
    (h : ∀ a ∈ l, (f a).length = (g a).length) :
    (l.map f).flatten.zip (l.map g).flatten = (l.map (fun a => (f a).zip (g a))).flatten := by
  induction l with
  | nil => rfl
  | cons a as ih =>
    simp only [List.map_cons, List.flatten_cons]
    rw [List.zip_append (h a (List.mem_cons_self _ _)),
      ih (fun b hb => h b (List.mem_cons_of_mem _ hb))]

theorem well_formed_take_src {o : hop_output} {hw ht : Bool} (h : o.well_formed hw ht) :
    o.src.take o.dst.length = o.src ∧ o.edge_id.take o.dst.length = o.edge_id :=
  ⟨List.take_of_length_le (le_of_eq h.1), List.take_of_length_le (le_of_eq h.2.1)⟩

theorem well_formed_weight {o : hop_output} {ht : Bool} (h : o.well_formed true ht) :
    o.weight = some (o.weight.getD []) ∧
      (o.weight.getD []).take o.dst.length = o.weight.getD [] := by
  have := h.2.2.1 rfl
  cases hw : o.weight with
  | none => rw [hw] at this; simp at this
  | some w =>
    rw [hw] at this
    simp only [Option.map_some', Option.some.injEq] at this
    exact ⟨rfl, List.take_of_length_le (le_of_eq this)⟩

theorem well_formed_edge_type {o : hop_output} {hw : Bool} (h : o.well_formed hw true) :
    o.edge_type = some (o.edge_type.getD []) ∧
      (o.edge_type.getD []).take o.dst.length = o.edge_type.getD [] := by
  have := h.2.2.2 rfl
  cases hw : o.edge_type with
  | none => rw [hw] at this; simp at this
  | some w =>
    rw [hw] at this
    simp only [Option.map_some', Option.some.injEq] at this
    exact ⟨rfl, List.take_of_length_le (le_of_eq this)⟩

theorem sample_loop_take_succ {G WV TV : Type} (ops : sample_ops G WV TV) (multi_gpu : Bool)
    (handle : handle_t) (graph_view : G) (wv : Option WV) (tv : Option TV) (wr : Bool)
    (ks : List Int) (s si sj : sample_state) (i : Nat)
    (hi : sample_loop ops multi_gpu handle graph_view wv tv wr s (ks.take i) = .ok si)
    (hj : sample_loop ops multi_gpu handle graph_view wv tv wr s (ks.take (i + 1)) = .ok sj) :
    sample_loop ops multi_gpu handle graph_view wv tv wr si ((ks.drop i).take 1) = .ok sj := by
  rw [List.take_add, sample_loop_append, hi] at hj
  exact hj

/-- The accumulators only grow from one hop to the next. -/
theorem sample_loop_grows {G WV TV : Type} (ops : sample_ops G WV TV) (multi_gpu : Bool)
    (handle : handle_t) (graph_view : G) (wv : Option WV) (tv : Option TV) (wr : Bool)
    (ks : List Int) (si sj : sample_state) (ha : si.aligned)
    (h : sample_loop ops multi_gpu handle graph_view wv tv wr si ks = .ok sj) :
    si.d_result_src <+: sj.d_result_src ∧ si.d_result_dst <+: sj.d_result_dst ∧
    si.d_result_edge_id <+: sj.d_result_edge_id ∧ si.d_result_hop <+: sj.d_result_hop ∧
    (∀ v, si.d_result_weight = some v → ∃ v1, sj.d_result_weight = some v1 ∧ v <+: v1) ∧
    (∀ v, si.d_result_edge_type = some v →
      ∃ v1, sj.d_result_edge_type = some v1 ∧ v <+: v1) := by
  obtain ⟨t, -, -, -, -, c5, c6, c7, c8, c9, c10, -⟩ :=
    sample_loop_columns _ _ _ _ _ _ _ _ _ _ ha h
  refine ⟨⟨_, c6.symm⟩, ⟨_, c5.symm⟩, ⟨_, c7.symm⟩, ⟨_, c8.symm⟩, ?_, ?_⟩
  · intro v hv
    rw [c9, hv]
    exact ⟨_, rfl, List.prefix_append _ _⟩
  · intro v hv
    rw [c10, hv]
    exact ⟨_, rfl, List.prefix_append _ _⟩

end cugraph

namespace cugraph
open detail

/-- C5: suppose every tuple the expander returns during a run of
`uniform_neighbor_sample_impl` has columns of one length (with the weight /
edge type column present when the matching view was supplied).  Then whenever
the run returns, the expander was called once per hop and the returned src, dst
and edge id columns, and the weight and edge type columns when present, are the
concatenation in hop order of the columns the expander returned; in particular
the (src, dst) rows are the concatenation of the hops' rows, duplicates
included.  The run does return when the fan-out is non-empty and has fewer than
`2 ^ 31` entries.  Between the states after `i` and `i + 1` hops every
accumulator only grows at its end. -/
theorem C5_result_is_concatenation_of_hop_outputs {G WV TV : Type}
    (ops : sample_ops G WV TV) (multi_gpu : Bool) (handle : handle_t) (graph_view : G)
    (wv : Option WV) (tv : Option TV) (d_in : device_uvector vertex_t)
    (d_labels : Option (device_uvector Int)) (fan_out : List Int) (wr : Bool) (seed : Nat)
    (hwf : ∀ o ∈ expander_outputs (calls_of Returned.calls
        (uniform_neighbor_sample_impl ops multi_gpu handle graph_view wv tv d_in d_labels
          fan_out wr seed)), o.well_formed wv.isSome tv.isSome) :
    (∀ r, uniform_neighbor_sample_impl ops multi_gpu handle graph_view wv tv d_in d_labels
        fan_out wr seed = .ok r →
      (expander_outputs r.calls).length = fan_out.length ∧
      r.value.src = ((expander_outputs r.calls).map (fun o => o.src)).flatten ∧
      r.value.dst = ((expander_outputs r.calls).map (fun o => o.dst)).flatten ∧
      r.value.edge_id = ((expander_outputs r.calls).map (fun o => o.edge_id)).flatten ∧
      r.value.src.zip r.value.dst =
        ((expander_outputs r.calls).map (fun o => o.src.zip o.dst)).flatten ∧
      r.value.weight.isSome = wv.isSome ∧
      r.value.edge_type.isSome = tv.isSome ∧
      (∀ w, r.value.weight = some w →
        ∃ ws : List (device_uvector weight_t),
          (expander_outputs r.calls).map (fun o => o.weight) = ws.map some ∧
          w = ws.flatten) ∧
      (∀ w, r.value.edge_type = some w →
        ∃ ws : List (device_uvector edge_type_t),
          (expander_outputs r.calls).map (fun o => o.edge_type) = ws.map some ∧
          w = ws.flatten)) ∧
    (fan_out ≠ [] → fan_out.length < 2 ^ 31 →
      ∃ r, uniform_neighbor_sample_impl ops multi_gpu handle graph_view wv tv d_in d_labels
        fan_out wr seed = .ok r) ∧
    (∀ i si sj,
      sample_loop ops multi_gpu handle graph_view wv tv wr
        (sample_init multi_gpu handle wv tv d_in d_labels seed) (fan_out.take i) = .ok si →
      sample_loop ops multi_gpu handle graph_view wv tv wr
        (sample_init multi_gpu handle wv tv d_in d_labels seed) (fan_out.take (i + 1)) = .ok sj →
      si.d_result_src <+: sj.d_result_src ∧ si.d_result_dst <+: sj.d_result_dst ∧
      si.d_result_edge_id <+: sj.d_result_edge_id ∧ si.d_result_hop <+: sj.d_result_hop ∧
      (∀ v, si.d_result_weight = some v → ∃ v1, sj.d_result_weight = some v1 ∧ v <+: v1) ∧
      (∀ v, si.d_result_edge_type = some v →
        ∃ v1, sj.d_result_edge_type = some v1 ∧ v <+: v1)) := by
  have hinit := sample_init_aligned multi_gpu handle wv tv d_in d_labels seed
  have hw0 : (sample_init multi_gpu handle wv tv d_in d_labels seed).d_result_weight.isSome
      = wv.isSome := by cases wv <;> rfl
  have ht0 : (sample_init multi_gpu handle wv tv d_in d_labels seed).d_result_edge_type.isSome
      = tv.isSome := by cases tv <;> rfl
  refine ⟨?_, ?_, ?_⟩
  · intro r hr
    rw [hr] at hwf
    simp only [calls_of] at hwf
    obtain ⟨-, s, hs, hc, hv⟩ := sample_impl_ok hr
    obtain ⟨t, c1, c2, -, -, c5, c6, c7, -, c9, c10, -⟩ :=
      sample_loop_columns _ _ _ _ _ _ _ _ _ _ hinit hs
    have ht : r.calls = t := by rw [hc, c1]; simp [sample_init]
    rw [ht] at hwf ⊢
    have hsrc : (expander_outputs t).map (fun o => o.src.take o.dst.length)
        = (expander_outputs t).map (fun o => o.src) :=
      List.map_congr_left (fun o ho => (well_formed_take_src (hwf o ho)).1)
    have heid : (expander_outputs t).map (fun o => o.edge_id.take o.dst.length)
        = (expander_outputs t).map (fun o => o.edge_id) :=
      List.map_congr_left (fun o ho => (well_formed_take_src (hwf o ho)).2)
    rw [hsrc] at c6
    rw [heid] at c7
    simp only [sample_init, List.nil_append] at c5 c6 c7
    rw [hv]
    refine ⟨c2, c6, c5, c7, ?_, ?_, ?_, ?_, ?_⟩
    · simp only
      rw [c6, c5]
      exact zip_flatten_map _ _ _ (fun o ho => (hwf o ho).1)
    · simp only; rw [c9, ← hw0]
      cases (sample_init multi_gpu handle wv tv d_in d_labels seed).d_result_weight <;> rfl
    · simp only; rw [c10, ← ht0]
      cases (sample_init multi_gpu handle wv tv d_in d_labels seed).d_result_edge_type <;> rfl
    · intro w hw
      simp only at hw
      rw [c9] at hw
      cases hwv : wv with
      | none => rw [hwv] at hw; simp [sample_init] at hw
      | some x =>
        rw [hwv] at hw hwf
        simp only [sample_init, Option.isSome_some, if_true, Option.map_some', List.nil_append,
          Option.some.injEq] at hw
        refine ⟨(expander_outputs t).map (fun o => o.weight.getD []), ?_, ?_⟩
        · rw [List.map_map]
          exact List.map_congr_left (fun o ho => (well_formed_weight (hwf o ho)).1)
        · rw [← hw]
          congr 1
          exact List.map_congr_left (fun o ho => (well_formed_weight (hwf o ho)).2)
    · intro w hw
      simp only at hw
      rw [c10] at hw
      cases htv : tv with
      | none => rw [htv] at hw; simp [sample_init] at hw
      | some x =>
        rw [htv] at hw hwf
        simp only [sample_init, Option.isSome_some, if_true, Option.map_some', List.nil_append,
          Option.some.injEq] at hw
        refine ⟨(expander_outputs t).map (fun o => o.edge_type.getD []), ?_, ?_⟩
        · rw [List.map_map]
          exact List.map_congr_left (fun o ho => (well_formed_edge_type (hwf o ho)).1)
        · rw [← hw]
          congr 1
          exact List.map_congr_left (fun o ho => (well_formed_edge_type (hwf o ho)).2)
  · intro hk hH
    rw [sample_impl_calls _ _ _ _ _ _ _ _ _ _ _ hk] at hwf
    obtain ⟨s, hs⟩ := sample_loop_progress ops multi_gpu handle graph_view wv tv wr fan_out
      (sample_init multi_gpu handle wv tv d_in d_labels seed) hinit
      (by simp only [sample_init]; omega) (by rw [hw0, ht0]; exact hwf)
    refine ⟨⟨{ src := s.d_result_src, dst := s.d_result_dst, edge_id := s.d_result_edge_id,
               edge_type := s.d_result_edge_type, weight := s.d_result_weight,
               hop := s.d_result_hop, label := s.d_result_label }, s.calls⟩, ?_⟩
    unfold uniform_neighbor_sample_impl
    rw [if_pos (List.length_pos.mpr hk), hs]
  · intro i si sj hi hj
    have ha := sample_loop_aligned _ _ _ _ _ _ _ _ _ _ hinit hi
    exact sample_loop_grows _ _ _ _ _ _ _ _ _ _ ha
      (sample_loop_take_succ _ _ _ _ _ _ _ _ _ _ _ _ hi hj)

end cugraph

namespace cugraph
open detail

theorem chain_run_outputs_well_formed :
    ∀ o ∈ expander_outputs (calls_of Returned.calls
        (uniform_neighbor_sample_impl chain_ops false ⟨0, 1⟩ () (some ()) (none : Option Unit)
          [some 1] (some [some 5]) [2, -1] true 42)),
      o.well_formed (some ()).isSome (none : Option Unit).isSome := by
  intro o ho
  have e : expander_outputs (calls_of Returned.calls
        (uniform_neighbor_sample_impl chain_ops false ⟨0, 1⟩ () (some ()) (none : Option Unit)
          [some 1] (some [some 5]) [2, -1] true 42)) = [chain_hop0, chain_hop1] := by rfl
  rw [e] at ho
  simp only [List.mem_cons, List.mem_singleton, List.not_mem_nil, or_false] at ho
  rcases ho with rfl | rfl
  · exact ⟨rfl, rfl, fun _ => rfl, fun h => by cases h⟩
  · exact ⟨rfl, rfl, fun _ => rfl, fun h => by cases h⟩

/-- C5 at the concrete run: both hop outputs are well formed, the run returns
`chain_returned`, whose columns are the two hops' columns one after the
other. -/
theorem C5_result_is_concatenation_of_hop_outputs_witness :
    (∀ o ∈ expander_outputs (calls_of Returned.calls
        (uniform_neighbor_sample_impl chain_ops false ⟨0, 1⟩ () (some ()) (none : Option Unit)
          [some 1] (some [some 5]) [2, -1] true 42)),
      o.well_formed (some ()).isSome (none : Option Unit).isSome) ∧
    uniform_neighbor_sample_impl chain_ops false ⟨0, 1⟩ () (some ()) (none : Option Unit)
        [some 1] (some [some 5]) [2, -1] true 42 = .ok chain_returned ∧
    chain_returned.value.src
      = ((expander_outputs chain_returned.calls).map (fun o => o.src)).flatten ∧
    chain_returned.value.dst
      = ((expander_outputs chain_returned.calls).map (fun o => o.dst)).flatten ∧
    chain_returned.value.edge_id
      = ((expander_outputs chain_returned.calls).map (fun o => o.edge_id)).flatten :=
  ⟨chain_run_outputs_well_formed, by rfl,
   ((C5_result_is_concatenation_of_hop_outputs chain_ops false ⟨0, 1⟩ () (some ())
      (none : Option Unit) [some 1] (some [some 5]) [2, -1] true 42
      chain_run_outputs_well_formed).1 chain_returned (by rfl)).2.1,
   ((C5_result_is_concatenation_of_hop_outputs chain_ops false ⟨0, 1⟩ () (some ())
      (none : Option Unit) [some 1] (some [some 5]) [2, -1] true 42
      chain_run_outputs_well_formed).1 chain_returned (by rfl)).2.2.1,
   ((C5_result_is_concatenation_of_hop_outputs chain_ops false ⟨0, 1⟩ () (some ())
      (none : Option Unit) [some 1] (some [some 5]) [2, -1] true 42
      chain_run_outputs_well_formed).1 chain_returned (by rfl)).2.2.2.1⟩

end cugraph

namespace cugraph
open detail

/-! ## The accumulators of `uniform_nbr_sample_impl` -/

/-- The accumulators of `uniform_nbr_sample_impl` after a loop run that
returns, in terms of the tuples the expander returned during that run: every
tuple had a weight column, no column was longer than the dst column, and a
shorter src or weight column leaves unwritten cells behind it. -/
theorem nbr_loop_columns {G WV : Type} (ops : plain_ops G WV) (multi_gpu : Bool)
    (handle : handle_t) (graph_view : G) (wv : Option WV) (wr : Bool)
    (ks : List Int) (s s1 : nbr_state) (hs : s.aligned)
    (h : nbr_loop ops multi_gpu handle graph_view wv wr s ks = .ok s1) :
    ∃ t, s1.calls = s.calls ++ t ∧
      (expander_outputs t).length = ks.length ∧
      s1.aligned ∧
      s1.hop = s.hop + ks.length ∧
      (∀ o ∈ expander_outputs t, o.weights.isSome = true ∧ o.src.length ≤ o.dst.length ∧
        (o.weights.getD []).length ≤ o.dst.length) ∧
      s1.d_result_dst = s.d_result_dst ++ ((expander_outputs t).map (fun o => o.dst)).flatten ∧
      s1.d_result_src = s.d_result_src ++
        ((expander_outputs t).map (fun o =>
          o.src ++ List.replicate (o.dst.length - o.src.length) none)).flatten ∧
      s1.d_result_weights = s.d_result_weights ++
        ((expander_outputs t).map (fun o =>
          o.weights.getD [] ++
            List.replicate (o.dst.length - (o.weights.getD []).length) none)).flatten := by
  induction ks generalizing s with
  | nil =>
    simp only [nbr_loop] at h
    cases h
    exact ⟨[], by simp, rfl, hs, by simp, by simp [expander_outputs],
      by simp [expander_outputs], by simp [expander_outputs], by simp [expander_outputs]⟩
  | cons k ks ih =>
    obtain ⟨d, sh, ev, out, h1, -, -, -, -, -, g1, -, -, hc, hok⟩ :=
      nbr_hop_spec ops multi_gpu handle graph_view wv wr s k
    have o1 : expander_outputs (sh ++ [ev]) = [out] := by
      rw [expander_outputs_append, h1, expander_outputs_single g1]; rfl
    simp only [nbr_loop] at h
    cases hh : nbr_hop ops multi_gpu handle graph_view wv wr s k with
    | error a => rw [hh] at h; cases h
    | ok s2 =>
      rw [hh] at h hc
      simp only at h
      simp only [calls_of] at hc
      obtain ⟨-, -, -, e5, -, e7, e8⟩ := hok s2 hh
      obtain ⟨w, p0, p1, p2, p3, p4, p5⟩ := e8 hs
      obtain ⟨t, c1, c2, c3, c4, c5, c6, c7, c8⟩ := ih s2 e7 h
      refine ⟨sh ++ [ev] ++ t, ?_, ?_, c3, ?_, ?_, ?_, ?_, ?_⟩
      · rw [c1, hc]; simp only [List.append_assoc]
      · rw [expander_outputs_append, o1]; simp [c2]
      · rw [c4, e5]; simp only [List.length_cons]; push_cast; ring
      · intro o ho
        rw [expander_outputs_append, o1] at ho
        simp only [List.singleton_append, List.mem_cons] at ho
        rcases ho with rfl | ho
        · rw [p0]; exact ⟨rfl, p1, p2⟩
        · exact c5 o ho
      · rw [c6, p4, expander_outputs_append, o1]; simp
      · rw [c7, p3, expander_outputs_append, o1]; simp
      · rw [c8, p5, expander_outputs_append, o1]; simp [p0]

end cugraph

namespace cugraph
open detail

/-! ## C6 -/

theorem flatten_replicate_none {α : Type} (outs : List hop_output) :
    (outs.map (fun o => List.replicate o.dst.length (none : Option α))).flatten =
      List.replicate (outs.map (fun o => o.dst)).flatten.length none := by
  induction outs with
  | nil => rfl
  | cons o os ih =>
    simp only [List.map_cons, List.flatten_cons, List.length_append, ih, List.replicate_add]

/-- C6 fails on the code: the label accumulator is resized every hop but never
written (lines 254-260 are commented out).  Whenever
`uniform_neighbor_sample_impl` returns, the label column, present exactly when
labels were supplied, has one unwritten cell per returned row, whatever label
columns the expander returned. -/
theorem C6_label_column_is_never_written {G WV TV : Type} (ops : sample_ops G WV TV)
    (multi_gpu : Bool) (handle : handle_t) (graph_view : G) (wv : Option WV) (tv : Option TV)
    (d_in : device_uvector vertex_t) (d_labels : Option (device_uvector Int))
    (fan_out : List Int) (wr : Bool) (seed : Nat)
    (r : Returned sample_result hop_output)
    (h : uniform_neighbor_sample_impl ops multi_gpu handle graph_view wv tv d_in d_labels
      fan_out wr seed = .ok r) :
    r.value.label = d_labels.map (fun _ => List.replicate r.value.dst.length none) := by
  obtain ⟨-, s, hs, -, hv⟩ := sample_impl_ok h
  obtain ⟨t, -, -, -, -, c5, -, -, -, -, -, c11⟩ :=
    sample_loop_columns _ _ _ _ _ _ _ _ _ _ (sample_init_aligned _ _ _ _ _ _ _) hs
  rw [hv]
  simp only
  rw [c11, c5, flatten_replicate_none]
  cases d_labels <;> simp [sample_init]

/-- C6 at a failing input: one start vertex with label 5, fan-out `[2]`; the
expander returns the label column `[5, 5]` for hop 0, the returned label column
is two unwritten cells. -/
theorem C6_label_column_is_never_written_witness :
    uniform_neighbor_sample_impl chain_ops false ⟨0, 1⟩ () (none : Option Unit)
        (none : Option Unit) [some 1] (some [some 5]) [2] true 42 =
      .ok { value :=
              { src := [some 1, some 1], dst := [some 2, some 2], edge_id := [some 1, some 1],
                edge_type := none, weight := none, hop := [some 0, some 0],
                label := some [none, none] }
            calls :=
              [Call.sample_edges 42 [some 1] (some [some 5]) 2 true
                { src := [some 1, some 1], dst := [some 2, some 2],
                  edge_id := [some 1, some 1], weight := none, edge_type := none,
                  label := some [some 5, some 5] }] } ∧
    (some [none, none] : Option (device_uvector Int)) =
      (some [some 5] : Option (device_uvector Int)).map
        (fun _ => List.replicate ([some 2, some 2] : device_uvector vertex_t).length none) :=
  ⟨by rfl,
   C6_label_column_is_never_written chain_ops false ⟨0, 1⟩ () (none : Option Unit)
     (none : Option Unit) [some 1] (some [some 5]) [2] true 42 _ (by rfl)⟩

/-! ## C7 -/

/-- C7 fails on the code: line 263 assigns `d_labels` to itself, so the labels
are not replaced by the hop's label column.  One start vertex with label 5 and
fan-out `[2, 1]`: at hop 1 the expander receives a frontier of two vertices
together with the single starting label. -/
theorem C7_labels_do_not_follow_the_frontier :
    expander_batches (calls_of Returned.calls
      (uniform_neighbor_sample chain_ops false ⟨0, 1⟩ () (none : Option Unit)
        (none : Option Unit) [some 1] (some [some 5]) [2, 1] true 42))
      = [[some 1], [some 2, some 2]] ∧
    expander_label_args (calls_of Returned.calls
      (uniform_neighbor_sample chain_ops false ⟨0, 1⟩ () (none : Option Unit)
        (none : Option Unit) [some 1] (some [some 5]) [2, 1] true 42))
      = [some [some 5], some [some 5]] ∧
    (expander_outputs (calls_of Returned.calls
      (uniform_neighbor_sample chain_ops false ⟨0, 1⟩ () (none : Option Unit)
        (none : Option Unit) [some 1] (some [some 5]) [2, 1] true 42))).map (fun o => o.label)
      = [some [some 5, some 5], some [some 5]] :=
  ⟨by rfl, by rfl, by rfl⟩

/-! ## C8 -/

theorem prefix_cons_head {α : Type} {a ys : List α} {x : α} (h : a <+: x :: ys)
    (hne : a ≠ []) : a.head? = some x := by
  obtain ⟨t, ht⟩ := h
  cases a with
  | nil => exact absurd rfl hne
  | cons b bs =>
    simp only [List.cons_append, List.cons.injEq] at ht
    simp [ht.1]

theorem prefix_cons_index {α : Type} {a ys : List α} {x b : α} {i : Nat}
    (h : a <+: x :: ys) (hb : a[i + 1]? = some b) : ys[i]? = some b := by
  obtain ⟨t, ht⟩ := h
  have hlt : i + 1 < a.length := by
    by_contra hc
    rw [List.getElem?_eq_none (by omega)] at hb
    cases hb
  have : (a ++ t)[i + 1]? = some b := by
    rw [List.getElem?_append_left hlt]; exact hb
  rw [ht] at this
  simpa using this

/-- C8: in single-worker mode, for both entry points and every non-empty
fan-out, the first expander call receives the starting vertices as they are,
and the expander call of hop `i + 1` receives exactly the dst column the
expander returned at hop `i`; a run that returns made one expander call per
fan-out entry. -/
theorem C8_single_worker_frontier_is_previous_dst {G WV TV : Type}
    (ops : sample_ops G WV TV) (pops : plain_ops G WV) (handle : handle_t) (graph_view : G)
    (wv : Option WV) (tv : Option TV) (starting_vertices : device_uvector vertex_t)
    (starting_labels : Option (device_uvector Int)) (fan_out : List Int) (wr : Bool)
    (seed : Nat) (hk : fan_out ≠ []) :
    ((expander_batches (calls_of Returned.calls
        (uniform_neighbor_sample ops false handle graph_view wv tv starting_vertices
          starting_labels fan_out wr seed))).head? = some starting_vertices ∧
      (∀ i b, (expander_batches (calls_of Returned.calls
          (uniform_neighbor_sample ops false handle graph_view wv tv starting_vertices
            starting_labels fan_out wr seed)))[i + 1]? = some b →
        ∃ o, (expander_outputs (calls_of Returned.calls
          (uniform_neighbor_sample ops false handle graph_view wv tv starting_vertices
            starting_labels fan_out wr seed)))[i]? = some o ∧ b = o.dst) ∧
      (∀ r, uniform_neighbor_sample ops false handle graph_view wv tv starting_vertices
          starting_labels fan_out wr seed = .ok r →
        (expander_batches r.calls).length = fan_out.length)) ∧
    ((expander_batches (calls_of Returned.calls
        (uniform_nbr_sample pops false handle graph_view wv starting_vertices fan_out wr
          seed))).head? = some starting_vertices ∧
      (∀ i b, (expander_batches (calls_of Returned.calls
          (uniform_nbr_sample pops false handle graph_view wv starting_vertices fan_out wr
            seed)))[i + 1]? = some b →
        ∃ o, (expander_outputs (calls_of Returned.calls
          (uniform_nbr_sample pops false handle graph_view wv starting_vertices fan_out wr
            seed)))[i]? = some o ∧ b = o.dst) ∧
      (∀ r, uniform_nbr_sample pops false handle graph_view wv starting_vertices fan_out wr
          seed = .ok r →
        (expander_batches r.calls).length = fan_out.length)) := by
  constructor
  · rw [uniform_neighbor_sample_eq, sample_impl_calls _ _ _ _ _ _ _ _ _ _ _ hk]
    obtain ⟨t, c1, c2, -, -, c5, -⟩ :=
      sample_loop_log ops false handle graph_view wv tv wr fan_out
        (sample_init false handle wv tv starting_vertices starting_labels seed)
    have hpre := c5 rfl
    rw [c1]
    simp only [sample_init, List.nil_append] at hpre ⊢
    refine ⟨?_, ?_, ?_⟩
    · apply prefix_cons_head hpre
      cases fan_out with
      | nil => exact absurd rfl hk
      | cons k ks =>
        obtain ⟨sh, ev, rest, d, l, f1, -, -, f4, -, f6⟩ :=
          sample_loop_first_call ops false handle graph_view wv tv wr k ks
            (sample_init false handle wv tv starting_vertices starting_labels seed)
        rw [c1] at f1
        simp only [sample_init, List.nil_append] at f1
        rw [f1, (f6 rfl).1]
        simp [expander_batches, List.filterMap_cons, f4]
    · intro i b hb
      have := prefix_cons_index hpre hb
      rw [List.getElem?_map] at this
      cases ho : (expander_outputs t)[i]? with
      | none => rw [ho] at this; cases this
      | some o =>
        rw [ho] at this
        simp only [Option.map_some', Option.some.injEq] at this
        exact ⟨o, rfl, this.symm⟩
    · intro r hr
      obtain ⟨-, s, hs, hc, -⟩ := sample_impl_ok hr
      obtain ⟨t2, d1, d2, -⟩ :=
        sample_loop_columns _ _ _ _ _ _ _ _ _ _ (sample_init_aligned _ _ _ _ _ _ _) hs
      rw [hs] at c1
      simp only [calls_of] at c1
      have : t2 = t := by
        rw [c1] at d1
        simpa [sample_init] using d1.symm
      rw [hc, c1]
      simp only [sample_init, List.nil_append]
      rw [← c2, ← this, d2]
  · rw [uniform_nbr_sample_eq]
    obtain ⟨tl, q1, q2, q3, -⟩ :=
      nbr_impl_calls pops false handle graph_view wv wr starting_vertices fan_out seed hk
    obtain ⟨t, c1, c2, -, -, c5⟩ :=
      nbr_loop_log pops false handle graph_view wv wr fan_out
        (nbr_init false handle starting_vertices seed)
    have hpre := c5 rfl
    have eb : expander_batches (calls_of Returned.calls
        (uniform_nbr_sample_impl pops false handle graph_view wv starting_vertices fan_out wr
          seed)) = expander_batches t := by
      rw [q1, c1, expander_batches_append, q3]
      simp [nbr_init]
    have eo : expander_outputs (calls_of Returned.calls
        (uniform_nbr_sample_impl pops false handle graph_view wv starting_vertices fan_out wr
          seed)) = expander_outputs t := by
      rw [q1, c1, expander_outputs_append, q2]
      simp [nbr_init]
    rw [eb, eo]
    simp only [nbr_init] at hpre
    refine ⟨?_, ?_, ?_⟩
    · apply prefix_cons_head hpre
      cases fan_out with
      | nil => exact absurd rfl hk
      | cons k ks =>
        obtain ⟨sh, ev, rest, d, f1, -, -, f4, f6⟩ :=
          nbr_loop_first_call pops false handle graph_view wv wr k ks
            (nbr_init false handle starting_vertices seed)
        rw [c1] at f1
        simp only [nbr_init, List.nil_append] at f1
        rw [f1, (f6 rfl).1]
        simp [expander_batches, List.filterMap_cons, f4]
    · intro i b hb
      have := prefix_cons_index hpre hb
      rw [List.getElem?_map] at this
      cases ho : (expander_outputs t)[i]? with
      | none => rw [ho] at this; cases this
      | some o =>
        rw [ho] at this
        simp only [Option.map_some', Option.some.injEq] at this
        exact ⟨o, rfl, this.symm⟩
    · intro r hr
      have eb2 := eb
      rw [hr] at eb2
      simp only [calls_of] at eb2
      obtain ⟨-, s, hs, -, -⟩ := nbr_impl_ok hr
      obtain ⟨t2, d1, d2, -⟩ :=
        nbr_loop_columns _ _ _ _ _ _ _ _ _ (nbr_init_aligned _ _ _ _) hs
      rw [hs] at c1
      simp only [calls_of] at c1
      have : t2 = t := by
        rw [c1] at d1
        simpa [nbr_init] using d1.symm
      rw [eb2, ← c2, ← this, d2]

end cugraph

namespace cugraph
open detail

/-- C8 at the concrete input (start vertex 1, fan-out `[2, -1]`). -/
theorem C8_single_worker_frontier_is_previous_dst_witness :
    ([2, -1] : List Int) ≠ [] ∧
    (expander_batches (calls_of Returned.calls
        (uniform_neighbor_sample chain_ops false ⟨0, 1⟩ () (some ()) (none : Option Unit)
          [some 1] (some [some 5]) [2, -1] true 42))).head? = some [some 1] ∧
    (expander_batches (calls_of Returned.calls
        (uniform_nbr_sample chain_plain_ops false ⟨0, 1⟩ () (some ()) [some 1] [2, -1] true
          42))).head? = some [some 1] :=
  ⟨by decide,
   (C8_single_worker_frontier_is_previous_dst chain_ops chain_plain_ops ⟨0, 1⟩ () (some ())
      (none : Option Unit) [some 1] (some [some 5]) [2, -1] true 42 (by decide)).1.1,
   (C8_single_worker_frontier_is_previous_dst chain_ops chain_plain_ops ⟨0, 1⟩ () (some ())
      (none : Option Unit) [some 1] (some [some 5]) [2, -1] true 42 (by decide)).2.1⟩

/-! ## C9 -/

theorem advance_seed_eq (seed n k W : Nat) :
    advance_seed seed n k W = (seed + n * k * W) % 2 ^ 64 := by
  unfold advance_seed
  rw [Nat.add_mod seed (n * k * W), Nat.mul_mod (n * k) W, Nat.add_mod seed]
  simp only [Nat.mod_mod, Nat.mul_mod_mod, Nat.mod_mul_mod, Nat.add_mod_mod, Nat.mod_add_mod]

/-- C9 fails on the code as stated: a hop with fan-out `-1` over a frontier of
one vertex on a single worker leaves the seed at 42, whereas adding
`1 * (-1) * 1` in 64-bit unsigned arithmetic would change it. -/
theorem C9_counterexample :
    (sample_shuffle chain_ops false ⟨0, 1⟩ ()
      (sample_init false ⟨0, 1⟩ (none : Option Unit) (none : Option Unit) [some 1] none
        42)).d_in.length = 1 ∧
    (sample_hop chain_ops false ⟨0, 1⟩ () (none : Option Unit) (none : Option Unit) true
      (sample_init false ⟨0, 1⟩ (none : Option Unit) (none : Option Unit) [some 1] none 42)
      (-1)).toOption.map (fun s => s.seed) = some 42 ∧
    (nbr_hop chain_plain_ops false ⟨0, 1⟩ () (some ()) true
      (nbr_init false ⟨0, 1⟩ [some 1] 42) (-1)).toOption.map (fun s => s.seed) = some 42 ∧
    ((42 : Int) + 1 * (-1) * 1) % 2 ^ 64 ≠ 42 :=
  ⟨by rfl, by rfl, by rfl, by decide⟩

/-- C9, amended: in both drivers the seed starts at `(seed + rank) % 2 ^ 64`
with `comm_size` workers under `multi_gpu`, and at `seed` with one worker
otherwise; the worker count never changes; a hop with `k_level > 0` leaves the
seed at `(seed + n * k_level * comm_size) % 2 ^ 64`, `n` being the frontier
size after the shuffle, and a hop with `k_level <= 0` leaves the seed as it
was. -/
theorem C9_seed_advances_on_sampling_hops_only {G WV TV : Type} (ops : sample_ops G WV TV)
    (pops : plain_ops G WV) (multi_gpu : Bool) (handle : handle_t) (graph_view : G)
    (wv : Option WV) (tv : Option TV) (d_in : device_uvector vertex_t)
    (d_labels : Option (device_uvector Int)) (wr : Bool) (seed : Nat) :
    ((sample_init multi_gpu handle wv tv d_in d_labels seed).seed =
        (if multi_gpu then (seed + handle.comm_rank) % 2 ^ 64 else seed) ∧
      (sample_init multi_gpu handle wv tv d_in d_labels seed).comm_size =
        (if multi_gpu then handle.comm_size else 1) ∧
      (nbr_init multi_gpu handle d_in seed).seed =
        (if multi_gpu then (seed + handle.comm_rank) % 2 ^ 64 else seed) ∧
      (nbr_init multi_gpu handle d_in seed).comm_size =
        (if multi_gpu then handle.comm_size else 1)) ∧
    (∀ s k s1, sample_hop ops multi_gpu handle graph_view wv tv wr s k = .ok s1 →
      s1.comm_size = s.comm_size ∧
      s1.seed =
        if k > 0 then
          (s.seed + (sample_shuffle ops multi_gpu handle graph_view s).d_in.length * k.toNat
            * s.comm_size) % 2 ^ 64
        else s.seed) ∧
    (∀ s k s1, nbr_hop pops multi_gpu handle graph_view wv wr s k = .ok s1 →
      s1.comm_size = s.comm_size ∧
      s1.seed =
        if k > 0 then
          (s.seed + (nbr_shuffle pops multi_gpu handle graph_view s).d_in.length * k.toNat
            * s.comm_size) % 2 ^ 64
        else s.seed) := by
  refine ⟨⟨rfl, rfl, rfl, rfl⟩, ?_, ?_⟩
  · intro s k s1 h
    obtain ⟨d, l, sh, ev, out, -, -, -, -, -, hd, -, -, -, -, -, -, hok⟩ :=
      sample_hop_spec ops multi_gpu handle graph_view wv tv wr s k
    obtain ⟨-, -, e3, e4, -⟩ := hok s1 h
    rw [← hd, ← advance_seed_eq]
    exact ⟨e4, e3⟩
  · intro s k s1 h
    obtain ⟨d, sh, ev, out, -, -, -, -, hd, -, -, -, -, -, hok⟩ :=
      nbr_hop_spec pops multi_gpu handle graph_view wv wr s k
    obtain ⟨-, e3, e4, -⟩ := hok s1 h
    rw [← hd, ← advance_seed_eq]
    exact ⟨e4, e3⟩

/-- C9 (amended) at concrete hops of the concrete run: hop 0 (fan-out 2, one
vertex, one worker) takes the seed from 42 to 44. -/
theorem C9_seed_advances_on_sampling_hops_only_witness :
    sample_hop chain_ops false ⟨0, 1⟩ () (some ()) (none : Option Unit) true
        (sample_init false ⟨0, 1⟩ (some ()) (none : Option Unit) [some 1] (some [some 5]) 42) 2
      = .ok chain_state1 ∧
    chain_state1.comm_size = 1 ∧
    chain_state1.seed = if (2 : Int) > 0 then (42 + 1 * (2 : Int).toNat * 1) % 2 ^ 64 else 42 :=
  ⟨by rfl,
   ((C9_seed_advances_on_sampling_hops_only chain_ops chain_plain_ops false ⟨0, 1⟩ ()
      (some ()) (none : Option Unit) [some 1] (some [some 5]) true 42).2.1
      (sample_init false ⟨0, 1⟩ (some ()) (none : Option Unit) [some 1] (some [some 5]) 42)
      2 chain_state1 (by rfl))⟩

end cugraph

namespace cugraph
open detail

/-! ## C10 -/

/-- The seeds from which a run of `uniform_neighbor_sample_impl` builds its
`RngState`s are `rng_seeds` of the initial seed, the worker count and the
frontier sizes handed to the expander, whether the run returns or stops. -/
theorem sample_impl_rng_seeds {G WV TV : Type} (ops : sample_ops G WV TV) (multi_gpu : Bool)
    (handle : handle_t) (graph_view : G) (wv : Option WV) (tv : Option TV) (wr : Bool)
    (d_in : device_uvector vertex_t) (d_labels : Option (device_uvector Int))
    (ks : List Int) (seed : Nat) :
    rng_seeds_of (calls_of Returned.calls
        (uniform_neighbor_sample_impl ops multi_gpu handle graph_view wv tv d_in d_labels ks wr
          seed)) =
      rng_seeds (if multi_gpu then (seed + handle.comm_rank) % 2 ^ 64 else seed)
        (if multi_gpu then handle.comm_size else 1)
        (((expander_batches (calls_of Returned.calls
          (uniform_neighbor_sample_impl ops multi_gpu handle graph_view wv tv d_in d_labels ks
            wr seed))).map List.length).zip ks) := by
  cases ks with
  | nil => rfl
  | cons k ks =>
    rw [sample_impl_calls _ _ _ _ _ _ _ _ _ _ _ (List.cons_ne_nil k ks)]
    obtain ⟨t, c1, -, -, c4, -⟩ :=
      sample_loop_log ops multi_gpu handle graph_view wv tv wr (k :: ks)
        (sample_init multi_gpu handle wv tv d_in d_labels seed)
    rw [c1]
    simp only [sample_init, List.nil_append] at c4 ⊢
    exact c4

/-- The seeds from which a run of `uniform_nbr_sample_impl` builds its
`RngState`s are `rng_seeds` of the initial seed, the worker count and the
frontier sizes handed to the expander, whether the run returns or stops. -/
theorem nbr_impl_rng_seeds {G WV : Type} (ops : plain_ops G WV) (multi_gpu : Bool)
    (handle : handle_t) (graph_view : G) (wv : Option WV) (wr : Bool)
    (d_in : device_uvector vertex_t) (ks : List Int) (seed : Nat) :
    rng_seeds_of (calls_of Returned.calls
        (uniform_nbr_sample_impl ops multi_gpu handle graph_view wv d_in ks wr seed)) =
      rng_seeds (if multi_gpu then (seed + handle.comm_rank) % 2 ^ 64 else seed)
        (if multi_gpu then handle.comm_size else 1)
        (((expander_batches (calls_of Returned.calls
          (uniform_nbr_sample_impl ops multi_gpu handle graph_view wv d_in ks wr
            seed))).map List.length).zip ks) := by
  cases ks with
  | nil => rfl
  | cons k ks =>
    obtain ⟨tl, q1, -, q3, q4⟩ :=
      nbr_impl_calls ops multi_gpu handle graph_view wv wr d_in (k :: ks) seed
        (List.cons_ne_nil k ks)
    obtain ⟨t, c1, -, -, c4, -⟩ :=
      nbr_loop_log ops multi_gpu handle graph_view wv wr (k :: ks)
        (nbr_init multi_gpu handle d_in seed)
    rw [q1, c1, rng_seeds_of_append, expander_batches_append, q3, q4]
    simp only [nbr_init, List.nil_append, List.append_nil] at c4 ⊢
    exact c4

/-- C10 fails as stated: with three workers and base seed 0, rank 0 meets the
hops (frontier 2863311532, fan-out 2147483647), (1, 2), (1, 1); the additions
wrap around `2 ^ 64` and its third `RngState` is built from seed 2, the seed
from which rank 2 builds its first one. -/
theorem C10_counterexample :
    (0 : Nat) < 3 ∧ (2 : Nat) < 3 ∧ (0 : Nat) ≠ 2 ∧
    rng_seeds ((0 + 0) % 2 ^ 64) 3 [(2863311532, 2147483647), (1, 2), (1, 1)]
      = [0, 18446744073709551612, 2] ∧
    rng_seeds ((0 + 2) % 2 ^ 64) 3 [(1, 2147483647), (1, 2), (1, 1)]
      = [2, 6442450943, 6442450949] := by
  decide

theorem le_unreduced_seed (seed W : Nat) (hops : List (Nat × Int)) :
    seed ≤ unreduced_seed seed W hops := by
  induction hops generalizing seed with
  | nil => exact le_refl _
  | cons p rest ih =>
    obtain ⟨n, k⟩ := p
    simp only [unreduced_seed]
    split
    · exact le_trans (Nat.le_add_right _ _) (ih _)
    · exact ih _

theorem rng_seeds_mod (seed W : Nat) (hops : List (Nat × Int))
    (h : W ∣ 2 ^ 64 ∨ unreduced_seed seed W hops < 2 ^ 64) :
    ∀ x ∈ rng_seeds seed W hops, x % W = seed % W := by
  induction hops generalizing seed with
  | nil => intro x hx; simp [rng_seeds] at hx
  | cons p rest ih =>
    obtain ⟨n, k⟩ := p
    intro x hx
    simp only [rng_seeds] at hx
    simp only [unreduced_seed] at h
    by_cases hk : k > 0
    · simp only [hk, if_true] at hx h
      rcases List.mem_cons.mp hx with rfl | hx
      · rfl
      · have hadv : advance_seed seed n k.toNat W % W = seed % W ∧
            (W ∣ 2 ^ 64 ∨ unreduced_seed (advance_seed seed n k.toNat W) W rest < 2 ^ 64) := by
          rw [advance_seed_eq]
          rcases h with h | h
          · exact ⟨by rw [Nat.mod_mod_of_dvd _ h]; simp, Or.inl h⟩
          · have hlt : seed + n * k.toNat * W < 2 ^ 64 :=
              lt_of_le_of_lt (le_unreduced_seed _ _ _) h
            rw [Nat.mod_eq_of_lt hlt]
            exact ⟨by simp, Or.inr h⟩
        rw [ih _ hadv.2 x hx, hadv.1]
    · simp only [hk, if_false] at hx h
      exact ih _ h x hx

/-- C10, amended: two distinct ranks of a run with `W` workers never build an
`RngState` from the same seed, at whatever hops and for whatever fan-out
schedules and frontier sizes, provided `W` divides `2 ^ 64` (a power of two) or
no seed addition wraps around on either rank (the seed computed without
reduction stays below `2 ^ 64`).  The seed stream of a rank is `rng_seeds` of
its initial seed `(base + rank) % 2 ^ 64`, which is what both drivers log
(`sample_impl_rng_seeds`, `nbr_impl_rng_seeds`). -/
theorem C10_rank_seed_streams_are_disjoint (W base r1 r2 : Nat)
    (hops1 hops2 : List (Nat × Int)) (h1 : r1 < W) (h2 : r2 < W) (hne : r1 ≠ r2)
    (hW : W ∣ 2 ^ 64 ∨
      (unreduced_seed (base + r1) W hops1 < 2 ^ 64 ∧
        unreduced_seed (base + r2) W hops2 < 2 ^ 64)) :
    ∀ x ∈ rng_seeds ((base + r1) % 2 ^ 64) W hops1,
      ∀ y ∈ rng_seeds ((base + r2) % 2 ^ 64) W hops2, x ≠ y := by
  intro x hx y hy hxy
  have key : ∀ r hops, (W ∣ 2 ^ 64 ∨ unreduced_seed (base + r) W hops < 2 ^ 64) →
      ∀ z ∈ rng_seeds ((base + r) % 2 ^ 64) W hops, z % W = (base + r) % W := by
    intro r hops h z hz
    rcases h with h | h
    · rw [rng_seeds_mod _ _ _ (Or.inl h) z hz, Nat.mod_mod_of_dvd _ h]
    · have hlt : base + r < 2 ^ 64 := lt_of_le_of_lt (le_unreduced_seed _ _ _) h
      rw [Nat.mod_eq_of_lt hlt] at hz
      exact rng_seeds_mod _ _ _ (Or.inr h) z hz
  have k1 := key r1 hops1 (hW.imp id And.left) x hx
  have k2 := key r2 hops2 (hW.imp id And.right) y hy
  rw [hxy] at k1
  rw [k1] at k2
  have hmod : r1 % W = r2 % W := Nat.ModEq.add_left_cancel' base k2
  rw [Nat.mod_eq_of_lt h1, Nat.mod_eq_of_lt h2] at hmod
  exact hne hmod

/-- C10 (amended) at concrete inputs: four workers, base seed 7, ranks 0 and 3. -/
theorem C10_rank_seed_streams_are_disjoint_witness :
    (0 : Nat) < 4 ∧ (3 : Nat) < 4 ∧ (0 : Nat) ≠ 3 ∧
    ((4 : Nat) ∣ 2 ^ 64 ∨
      (unreduced_seed (7 + 0) 4 [(5, 2), (3, -1), (2, 1)] < 2 ^ 64 ∧
        unreduced_seed (7 + 3) 4 [(1, 2), (9, -1), (4, 1)] < 2 ^ 64)) ∧
    ∀ x ∈ rng_seeds ((7 + 0) % 2 ^ 64) 4 [(5, 2), (3, -1), (2, 1)],
      ∀ y ∈ rng_seeds ((7 + 3) % 2 ^ 64) 4 [(1, 2), (9, -1), (4, 1)], x ≠ y :=
  ⟨by decide, by decide, by decide, Or.inr (by decide),
   C10_rank_seed_streams_are_disjoint 4 7 0 3 [(5, 2), (3, -1), (2, 1)]
     [(1, 2), (9, -1), (4, 1)] (by decide) (by decide) (by decide) (Or.inr (by decide))⟩

end cugraph

namespace cugraph
open detail

/-! ## C12 -/

theorem isSome_map_append {α : Type} (o : Option (List α)) (x : List α) :
    (o.map (fun v => v ++ x)).isSome = o.isSome := by
  cases o <;> rfl

/-- C12: the optional columns of `uniform_neighbor_sample` are fixed at entry.
In every loop state reached after a hop and in every returned tuple the weight
column is present iff `edge_weight_view` was supplied, the edge type column iff
`edge_type_view` was supplied and the label column iff `starting_labels` was
supplied, for any fan-out, any number of hops and any expander. -/
theorem C12_optional_columns_follow_the_inputs {G WV TV : Type} (ops : sample_ops G WV TV)
    (multi_gpu : Bool) (handle : handle_t) (graph_view : G) (wv : Option WV) (tv : Option TV)
    (starting_vertices : device_uvector vertex_t)
    (starting_labels : Option (device_uvector Int)) (fan_out : List Int) (wr : Bool)
    (seed : Nat) :
    (∀ r, uniform_neighbor_sample ops multi_gpu handle graph_view wv tv starting_vertices
        starting_labels fan_out wr seed = .ok r →
      r.value.weight.isSome = wv.isSome ∧ r.value.edge_type.isSome = tv.isSome ∧
      r.value.label.isSome = starting_labels.isSome) ∧
    (∀ i s, sample_loop ops multi_gpu handle graph_view wv tv wr
        (sample_init multi_gpu handle wv tv starting_vertices starting_labels seed)
        (fan_out.take i) = .ok s →
      s.d_result_weight.isSome = wv.isSome ∧ s.d_result_edge_type.isSome = tv.isSome ∧
      s.d_result_label.isSome = starting_labels.isSome) := by
  have key : ∀ ks s, sample_loop ops multi_gpu handle graph_view wv tv wr
        (sample_init multi_gpu handle wv tv starting_vertices starting_labels seed) ks = .ok s →
      s.d_result_weight.isSome = wv.isSome ∧ s.d_result_edge_type.isSome = tv.isSome ∧
      s.d_result_label.isSome = starting_labels.isSome := by
    intro ks s hs
    obtain ⟨t, -, -, -, -, -, -, -, -, c9, c10, c11⟩ :=
      sample_loop_columns _ _ _ _ _ _ _ _ _ _ (sample_init_aligned _ _ _ _ _ _ _) hs
    rw [c9, c10, c11, isSome_map_append, isSome_map_append, isSome_map_append]
    refine ⟨?_, ?_, ?_⟩
    · cases wv <;> rfl
    · cases tv <;> rfl
    · cases starting_labels <;> rfl
  refine ⟨?_, fun i s hs => key _ s hs⟩
  intro r hr
  rw [uniform_neighbor_sample_eq] at hr
  obtain ⟨-, s, hs, -, hv⟩ := sample_impl_ok hr
  rw [hv]
  exact key _ s hs

/-- C12 at the concrete run: weights and labels supplied, no edge types. -/
theorem C12_optional_columns_follow_the_inputs_witness :
    uniform_neighbor_sample chain_ops false ⟨0, 1⟩ () (some ()) (none : Option Unit)
        [some 1] (some [some 5]) [2, -1] true 42 = .ok chain_returned ∧
    chain_returned.value.weight.isSome = (some ()).isSome ∧
    chain_returned.value.edge_type.isSome = (none : Option Unit).isSome ∧
    chain_returned.value.label.isSome = (some [some (5 : Int)]).isSome :=
  ⟨by rfl,
   (C12_optional_columns_follow_the_inputs chain_ops false ⟨0, 1⟩ () (some ())
      (none : Option Unit) [some 1] (some [some 5]) [2, -1] true 42).1 chain_returned (by rfl)⟩

end cugraph

namespace cugraph
open detail

/-! ## The calls of one hop, explicitly -/

theorem sample_expand_out {G WV TV : Type} (ops : sample_ops G WV TV)
    (handle : handle_t) (graph_view : G) (wv : Option WV) (tv : Option TV) (wr : Bool)
    (s : sample_state) (k : Int) :
    (sample_expand ops handle graph_view wv tv wr s k).2 =
      if k > 0 then
        ops.sample_edges handle graph_view wv tv s.seed s.d_in s.d_labels k.toNat wr
      else ops.gather_one_hop_edgelist handle graph_view wv tv s.d_in s.d_labels := by
  unfold sample_expand
  split <;> rfl

theorem sample_expand_calls {G WV TV : Type} (ops : sample_ops G WV TV)
    (handle : handle_t) (graph_view : G) (wv : Option WV) (tv : Option TV) (wr : Bool)
    (s : sample_state) (k : Int) :
    (sample_expand ops handle graph_view wv tv wr s k).1.calls = s.calls ++
      [if k > 0 then
        Call.sample_edges s.seed s.d_in s.d_labels k.toNat wr
          (sample_expand ops handle graph_view wv tv wr s k).2
       else Call.gather_one_hop_edgelist s.d_in s.d_labels
          (sample_expand ops handle graph_view wv tv wr s k).2] := by
  unfold sample_expand
  split <;> rfl

theorem sample_hop_calls {G WV TV : Type} (ops : sample_ops G WV TV) (multi_gpu : Bool)
    (handle : handle_t) (graph_view : G) (wv : Option WV) (tv : Option TV) (wr : Bool)
    (s : sample_state) (k : Int) :
    calls_of sample_state.calls (sample_hop ops multi_gpu handle graph_view wv tv wr s k) =
      (sample_expand ops handle graph_view wv tv wr
        (sample_shuffle ops multi_gpu handle graph_view s) k).1.calls := by
  unfold sample_hop
  simp only
  cases hap : sample_append _ _ with
  | error f => rfl
  | ok s3 =>
    obtain ⟨-, -, -, -, -, f6⟩ := sample_append_frame hap
    cases hin : incr_hop s3.hop with
    | error f => simp only [hin, calls_of]; exact f6
    | ok h => simp only [hin, calls_of]; exact f6

theorem sample_shuffle_calls {G WV TV : Type} (ops : sample_ops G WV TV) (multi_gpu : Bool)
    (handle : handle_t) (graph_view : G) (s : sample_state) :
    ∃ sh, (sample_shuffle ops multi_gpu handle graph_view s).calls = s.calls ++ sh ∧
      expander_outputs sh = [] ∧ expander_batches sh = [] ∧ expander_modes sh = [] ∧
      hop_rng_seeds sh = [] ∧ (multi_gpu = false → sh = []) := by
  unfold sample_shuffle
  cases multi_gpu with
  | false => exact ⟨[], by simp, rfl, rfl, rfl, rfl, fun _ => rfl⟩
  | true =>
    cases hl : s.d_labels with
    | none =>
      exact ⟨[Call.shuffle_int_vertices_by_gpu_id s.d_in
        (ops.shuffle_int_vertices_by_gpu_id handle s.d_in
          (ops.vertex_partition_range_lasts graph_view))], rfl, rfl, rfl, rfl, rfl,
        fun h => by cases h⟩
    | some l =>
      exact ⟨[Call.shuffle_int_vertices_and_values_by_gpu_id s.d_in l
        (ops.shuffle_int_vertices_and_values_by_gpu_id handle s.d_in l
          (ops.vertex_partition_range_lasts graph_view))], rfl, rfl, rfl, rfl, rfl,
        fun h => by cases h⟩

theorem nbr_expand_out {G WV : Type} (ops : plain_ops G WV)
    (handle : handle_t) (graph_view : G) (wv : Option WV) (wr : Bool)
    (s : nbr_state) (k : Int) :
    (nbr_expand ops handle graph_view wv wr s k).2 =
      if k > 0 then ops.sample_edges handle graph_view wv s.seed s.d_in k.toNat wr
      else ops.gather_one_hop_edgelist handle graph_view wv s.d_in := by
  unfold nbr_expand
  split <;> rfl

theorem nbr_expand_calls {G WV : Type} (ops : plain_ops G WV)
    (handle : handle_t) (graph_view : G) (wv : Option WV) (wr : Bool)
    (s : nbr_state) (k : Int) :
    (nbr_expand ops handle graph_view wv wr s k).1.calls = s.calls ++
      [if k > 0 then
        Call.sample_edges s.seed s.d_in none k.toNat wr
          (nbr_expand ops handle graph_view wv wr s k).2
       else Call.gather_one_hop_edgelist s.d_in none
          (nbr_expand ops handle graph_view wv wr s k).2] := by
  unfold nbr_expand
  split <;> rfl

theorem nbr_hop_calls {G WV : Type} (ops : plain_ops G WV) (multi_gpu : Bool)
    (handle : handle_t) (graph_view : G) (wv : Option WV) (wr : Bool)
    (s : nbr_state) (k : Int) :
    calls_of nbr_state.calls (nbr_hop ops multi_gpu handle graph_view wv wr s k) =
      (nbr_expand ops handle graph_view wv wr
        (nbr_shuffle ops multi_gpu handle graph_view s) k).1.calls := by
  unfold nbr_hop
  simp only
  cases hap : nbr_append _ _ with
  | error f => rfl
  | ok s3 =>
    obtain ⟨-, -, -, -, f6⟩ := nbr_append_frame hap
    cases hin : incr_hop s3.hop with
    | error f => simp only [hin, calls_of]; exact f6
    | ok h => simp only [hin, calls_of]; exact f6

theorem nbr_shuffle_calls {G WV : Type} (ops : plain_ops G WV) (multi_gpu : Bool)
    (handle : handle_t) (graph_view : G) (s : nbr_state) :
    ∃ sh, (nbr_shuffle ops multi_gpu handle graph_view s).calls = s.calls ++ sh ∧
      expander_outputs sh = [] ∧ expander_batches sh = [] ∧ expander_modes sh = [] ∧
      hop_rng_seeds sh = [] ∧ (multi_gpu = false → sh = []) := by
  unfold nbr_shuffle
  cases multi_gpu with
  | false => exact ⟨[], by simp, rfl, rfl, rfl, rfl, fun _ => rfl⟩
  | true =>
    exact ⟨[Call.shuffle_int_vertices_by_gpu_id s.d_in
      (ops.shuffle_int_vertices_by_gpu_id handle s.d_in
        (ops.vertex_partition_range_lasts graph_view))], rfl, rfl, rfl, rfl, rfl,
      fun h => by cases h⟩

theorem expander_modes_append {Out : Type} (a b : List (Call Out)) :
    expander_modes (a ++ b) = expander_modes a ++ expander_modes b := by
  simp [expander_modes, List.filterMap_append]

theorem hop_rng_seeds_append {Out : Type} (a b : List (Call Out)) :
    hop_rng_seeds (a ++ b) = hop_rng_seeds a ++ hop_rng_seeds b := by
  simp [hop_rng_seeds, List.filterMap_append]

theorem hop_rng_seeds_length {Out : Type} (t : List (Call Out)) :
    (hop_rng_seeds t).length = (expander_outputs t).length := by
  induction t with
  | nil => rfl
  | cons c t ih =>
    cases c <;>
      simp [hop_rng_seeds, expander_outputs, List.filterMap_cons, Call.hop_rng,
        Call.expander_output] at ih ⊢ <;> exact ih

end cugraph

namespace cugraph
open detail

/-! ## The schedule of a loop run: modes and per-hop seeds -/

theorem sample_shuffle_frame {G WV TV : Type} (ops : sample_ops G WV TV) (multi_gpu : Bool)
    (handle : handle_t) (graph_view : G) (s : sample_state) :
    (sample_shuffle ops multi_gpu handle graph_view s).seed = s.seed ∧
      (sample_shuffle ops multi_gpu handle graph_view s).comm_size = s.comm_size ∧
      (sample_shuffle ops multi_gpu handle graph_view s).hop = s.hop := by
  obtain ⟨d, l, sh, hsh, -⟩ := sample_shuffle_spec ops multi_gpu handle graph_view s
  rw [hsh]
  exact ⟨rfl, rfl, rfl⟩

theorem nbr_shuffle_frame {G WV : Type} (ops : plain_ops G WV) (multi_gpu : Bool)
    (handle : handle_t) (graph_view : G) (s : nbr_state) :
    (nbr_shuffle ops multi_gpu handle graph_view s).seed = s.seed ∧
      (nbr_shuffle ops multi_gpu handle graph_view s).comm_size = s.comm_size ∧
      (nbr_shuffle ops multi_gpu handle graph_view s).hop = s.hop := by
  obtain ⟨d, sh, hsh, -⟩ := nbr_shuffle_spec ops multi_gpu handle graph_view s
  rw [hsh]
  exact ⟨rfl, rfl, rfl⟩

theorem expander_call_facts {Out : Type} (seed : Nat) (d : device_uvector vertex_t)
    (l : Option (device_uvector Int)) (k : Int) (wr : Bool) (out : Out) :
    expander_modes [if k > 0 then Call.sample_edges seed d l k.toNat wr out
      else Call.gather_one_hop_edgelist d l out] = [fan_out_mode wr k] ∧
    hop_rng_seeds [if k > 0 then Call.sample_edges seed d l k.toNat wr out
      else Call.gather_one_hop_edgelist d l out] = [if k > 0 then some seed else none] ∧
    expander_batches [if k > 0 then Call.sample_edges seed d l k.toNat wr out
      else Call.gather_one_hop_edgelist d l out] = [d] ∧
    expander_outputs [if k > 0 then Call.sample_edges seed d l k.toNat wr out
      else Call.gather_one_hop_edgelist d l out] = [out] := by
  by_cases hk : k > 0
  · simp only [hk, if_true, fan_out_mode]
    exact ⟨rfl, rfl, rfl, rfl⟩
  · simp only [hk, if_false, fan_out_mode]
    exact ⟨rfl, rfl, rfl, rfl⟩

/-- The expander calls of a loop run of `uniform_neighbor_sample_impl`, whether
it returns or stops, follow the fan-out entry by entry: their modes are a
prefix of the modes of the fan-out, and the seeds of their `RngState`s are
`hop_seeds` of the post-shuffle frontier sizes. -/
theorem sample_loop_schedule {G WV TV : Type} (ops : sample_ops G WV TV) (multi_gpu : Bool)
    (handle : handle_t) (graph_view : G) (wv : Option WV) (tv : Option TV) (wr : Bool)
    (ks : List Int) (s : sample_state) :
    ∃ t, calls_of sample_state.calls
          (sample_loop ops multi_gpu handle graph_view wv tv wr s ks) = s.calls ++ t ∧
      expander_modes t <+: ks.map (fan_out_mode wr) ∧
      hop_rng_seeds t =
        hop_seeds s.seed s.comm_size (((expander_batches t).map List.length).zip ks) := by
  induction ks generalizing s with
  | nil =>
    exact ⟨[], by simp [sample_loop, calls_of], by simp [expander_modes], rfl⟩
  | cons k ks ih =>
    obtain ⟨sh, hsh, -, b2, b3, b4, -⟩ :=
      sample_shuffle_calls ops multi_gpu handle graph_view s
    obtain ⟨f1, f2, -⟩ := sample_shuffle_frame ops multi_gpu handle graph_view s
    have hc := sample_hop_calls ops multi_gpu handle graph_view wv tv wr s k
    rw [sample_expand_calls, hsh] at hc
    obtain ⟨m1, m2, m3, -⟩ := expander_call_facts
      (sample_shuffle ops multi_gpu handle graph_view s).seed
      (sample_shuffle ops multi_gpu handle graph_view s).d_in
      (sample_shuffle ops multi_gpu handle graph_view s).d_labels k wr
      (sample_expand ops handle graph_view wv tv wr
        (sample_shuffle ops multi_gpu handle graph_view s) k).2
    generalize (if k > 0 then
        Call.sample_edges (sample_shuffle ops multi_gpu handle graph_view s).seed
          (sample_shuffle ops multi_gpu handle graph_view s).d_in
          (sample_shuffle ops multi_gpu handle graph_view s).d_labels k.toNat wr
          (sample_expand ops handle graph_view wv tv wr
            (sample_shuffle ops multi_gpu handle graph_view s) k).2
      else
        Call.gather_one_hop_edgelist (sample_shuffle ops multi_gpu handle graph_view s).d_in
          (sample_shuffle ops multi_gpu handle graph_view s).d_labels
          (sample_expand ops handle graph_view wv tv wr
            (sample_shuffle ops multi_gpu handle graph_view s) k).2) = ev at hc m1 m2 m3
    have o1 : expander_modes (sh ++ [ev]) = [fan_out_mode wr k] := by
      rw [expander_modes_append, b3, m1]; rfl
    have o2 : hop_rng_seeds (sh ++ [ev]) = [if k > 0 then some s.seed else none] := by
      rw [hop_rng_seeds_append, b4, m2, f1]; rfl
    have o3 : expander_batches (sh ++ [ev])
        = [(sample_shuffle ops multi_gpu handle graph_view s).d_in] := by
      rw [expander_batches_append, b2, m3]; rfl
    cases hh : sample_hop ops multi_gpu handle graph_view wv tv wr s k with
    | error a =>
      rw [hh] at hc
      refine ⟨sh ++ [ev], ?_, ?_, ?_⟩
      · simp only [sample_loop, hh]
        rw [← List.append_assoc]; exact hc
      · rw [o1]; simp
      · rw [o2, o3]
        by_cases hk : k > 0 <;> simp [hop_seeds, hk]
    | ok s1 =>
      rw [hh] at hc
      simp only [calls_of] at hc
      obtain ⟨d, l, sh', ev', out, -, -, -, -, -, hd, -, -, -, -, -, -, hok⟩ :=
        sample_hop_spec ops multi_gpu handle graph_view wv tv wr s k
      obtain ⟨-, -, e3, e4, -⟩ := hok s1 hh
      rw [hd] at e3
      obtain ⟨t, c1, c2, c3⟩ := ih s1
      refine ⟨sh ++ [ev] ++ t, ?_, ?_, ?_⟩
      · simp only [sample_loop, hh]
        rw [c1, hc]
        simp only [List.append_assoc]
      · rw [expander_modes_append, o1]
        simp only [List.singleton_append, List.map_cons]
        rw [List.prefix_cons_inj]
        exact c2
      · rw [hop_rng_seeds_append, expander_batches_append, o2, o3, c3, e3, e4]
        by_cases hk : k > 0 <;> simp [hop_seeds, hk, List.zip]

/-- The expander calls of a loop run of `uniform_nbr_sample_impl`, whether it
returns or stops, follow the fan-out entry by entry. -/
theorem nbr_loop_schedule {G WV : Type} (ops : plain_ops G WV) (multi_gpu : Bool)
    (handle : handle_t) (graph_view : G) (wv : Option WV) (wr : Bool)
    (ks : List Int) (s : nbr_state) :
    ∃ t, calls_of nbr_state.calls
          (nbr_loop ops multi_gpu handle graph_view wv wr s ks) = s.calls ++ t ∧
      expander_modes t <+: ks.map (fan_out_mode wr) ∧
      hop_rng_seeds t =
        hop_seeds s.seed s.comm_size (((expander_batches t).map List.length).zip ks) := by
  induction ks generalizing s with
  | nil =>
    exact ⟨[], by simp [nbr_loop, calls_of], by simp [expander_modes], rfl⟩
  | cons k ks ih =>
    obtain ⟨sh, hsh, -, b2, b3, b4, -⟩ :=
      nbr_shuffle_calls ops multi_gpu handle graph_view s
    obtain ⟨f1, f2, -⟩ := nbr_shuffle_frame ops multi_gpu handle graph_view s
    have hc := nbr_hop_calls ops multi_gpu handle graph_view wv wr s k
    rw [nbr_expand_calls, hsh] at hc
    obtain ⟨m1, m2, m3, -⟩ := expander_call_facts
      (nbr_shuffle ops multi_gpu handle graph_view s).seed
      (nbr_shuffle ops multi_gpu handle graph_view s).d_in none k wr
      (nbr_expand ops handle graph_view wv wr
        (nbr_shuffle ops multi_gpu handle graph_view s) k).2
    generalize (if k > 0 then
        Call.sample_edges (nbr_shuffle ops multi_gpu handle graph_view s).seed
          (nbr_shuffle ops multi_gpu handle graph_view s).d_in none k.toNat wr
          (nbr_expand ops handle graph_view wv wr
            (nbr_shuffle ops multi_gpu handle graph_view s) k).2
      else
        Call.gather_one_hop_edgelist (nbr_shuffle ops multi_gpu handle graph_view s).d_in none
          (nbr_expand ops handle graph_view wv wr
            (nbr_shuffle ops multi_gpu handle graph_view s) k).2) = ev at hc m1 m2 m3
    have o1 : expander_modes (sh ++ [ev]) = [fan_out_mode wr k] := by
      rw [expander_modes_append, b3, m1]; rfl
    have o2 : hop_rng_seeds (sh ++ [ev]) = [if k > 0 then some s.seed else none] := by
      rw [hop_rng_seeds_append, b4, m2, f1]; rfl
    have o3 : expander_batches (sh ++ [ev])
        = [(nbr_shuffle ops multi_gpu handle graph_view s).d_in] := by
      rw [expander_batches_append, b2, m3]; rfl
    cases hh : nbr_hop ops multi_gpu handle graph_view wv wr s k with
    | error a =>
      rw [hh] at hc
      refine ⟨sh ++ [ev], ?_, ?_, ?_⟩
      · simp only [nbr_loop, hh]
        rw [← List.append_assoc]; exact hc
      · rw [o1]; simp
      · rw [o2, o3]
        by_cases hk : k > 0 <;> simp [hop_seeds, hk]
    | ok s1 =>
      rw [hh] at hc
      simp only [calls_of] at hc
      obtain ⟨d, sh', ev', out, -, -, -, -, hd, -, -, -, -, -, hok⟩ :=
        nbr_hop_spec ops multi_gpu handle graph_view wv wr s k
      obtain ⟨-, e3, e4, -⟩ := hok s1 hh
      rw [hd] at e3
      obtain ⟨t, c1, c2, c3⟩ := ih s1
      refine ⟨sh ++ [ev] ++ t, ?_, ?_, ?_⟩
      · simp only [nbr_loop, hh]
        rw [c1, hc]
        simp only [List.append_assoc]
      · rw [expander_modes_append, o1]
        simp only [List.singleton_append, List.map_cons]
        rw [List.prefix_cons_inj]
        exact c2
      · rw [hop_rng_seeds_append, expander_batches_append, o2, o3, c3, e3, e4]
        by_cases hk : k > 0 <;> simp [hop_seeds, hk, List.zip]

end cugraph

namespace cugraph
open detail

/-! ## Modes of the expander calls -/

end cugraph

namespace cugraph
open detail

/-! ## C18 -/

theorem hop_seeds_closed_form (seed W : Nat) (hops : List (Nat × Int)) (i n : Nat) (k : Int)
    (hs : seed < 2 ^ 64) (h : hops[i]? = some (n, k)) :
    (hop_seeds seed W hops)[i]? =
      some (if k > 0 then some ((seed + W * sampled_work (hops.take i)) % 2 ^ 64) else none) := by
  induction hops generalizing seed i with
  | nil => simp at h
  | cons p rest ih =>
    obtain ⟨n0, k0⟩ := p
    cases i with
    | zero =>
      simp only [List.getElem?_cons_zero, Option.some.injEq, Prod.mk.injEq] at h
      obtain ⟨rfl, rfl⟩ := h
      simp only [hop_seeds, List.take_zero, sampled_work, Nat.mul_zero, Nat.add_zero,
        Nat.mod_eq_of_lt hs]
      split <;> simp
    | succ j =>
      simp only [List.getElem?_cons_succ] at h
      simp only [hop_seeds, List.take_succ_cons, sampled_work]
      by_cases hk0 : k0 > 0
      · simp only [hk0, if_true, List.getElem?_cons_succ]
        rw [ih _ j (by rw [advance_seed_eq]; exact Nat.mod_lt _ (by norm_num)) h,
          advance_seed_eq]
        have e : ((seed + n0 * k0.toNat * W) % 2 ^ 64 + W * sampled_work (List.take j rest))
            % 2 ^ 64 = (seed + W * (n0 * k0.toNat + sampled_work (List.take j rest)))
              % 2 ^ 64 := by
          rw [Nat.mod_add_mod]
          congr 1
          ring
        rw [e]
      · simp only [hk0, if_false, List.getElem?_cons_succ, Nat.zero_add]
        exact ih _ j hs h

theorem sample_impl_hop_seeds {G WV TV : Type} (ops : sample_ops G WV TV) (multi_gpu : Bool)
    (handle : handle_t) (graph_view : G) (wv : Option WV) (tv : Option TV) (wr : Bool)
    (d_in : device_uvector vertex_t) (d_labels : Option (device_uvector Int))
    (ks : List Int) (seed : Nat) :
    hop_rng_seeds (calls_of Returned.calls
        (uniform_neighbor_sample_impl ops multi_gpu handle graph_view wv tv d_in d_labels ks wr
          seed)) =
      hop_seeds (if multi_gpu then (seed + handle.comm_rank) % 2 ^ 64 else seed)
        (if multi_gpu then handle.comm_size else 1)
        (((expander_batches (calls_of Returned.calls
          (uniform_neighbor_sample_impl ops multi_gpu handle graph_view wv tv d_in d_labels ks
            wr seed))).map List.length).zip ks) := by
  cases ks with
  | nil => rfl
  | cons k ks =>
    rw [sample_impl_calls _ _ _ _ _ _ _ _ _ _ _ (List.cons_ne_nil k ks)]
    obtain ⟨t, c1, -, c3⟩ :=
      sample_loop_schedule ops multi_gpu handle graph_view wv tv wr (k :: ks)
        (sample_init multi_gpu handle wv tv d_in d_labels seed)
    rw [c1]
    simp only [sample_init, List.nil_append] at c3 ⊢
    exact c3

theorem nbr_impl_hop_seeds {G WV : Type} (ops : plain_ops G WV) (multi_gpu : Bool)
    (handle : handle_t) (graph_view : G) (wv : Option WV) (wr : Bool)
    (d_in : device_uvector vertex_t) (ks : List Int) (seed : Nat) :
    hop_rng_seeds (calls_of Returned.calls
        (uniform_nbr_sample_impl ops multi_gpu handle graph_view wv d_in ks wr seed)) =
      hop_seeds (if multi_gpu then (seed + handle.comm_rank) % 2 ^ 64 else seed)
        (if multi_gpu then handle.comm_size else 1)
        (((expander_batches (calls_of Returned.calls
          (uniform_nbr_sample_impl ops multi_gpu handle graph_view wv d_in ks wr
            seed))).map List.length).zip ks) := by
  cases ks with
  | nil => rfl
  | cons k ks =>
    obtain ⟨tl, q1, q2, q3, -⟩ :=
      nbr_impl_calls ops multi_gpu handle graph_view wv wr d_in (k :: ks) seed
        (List.cons_ne_nil k ks)
    have qh : hop_rng_seeds tl = [] := by
      have := hop_rng_seeds_length tl
      rw [q2] at this
      exact List.length_eq_zero.mp this
    obtain ⟨t, c1, -, c3⟩ :=
      nbr_loop_schedule ops multi_gpu handle graph_view wv wr (k :: ks)
        (nbr_init multi_gpu handle d_in seed)
    rw [q1, c1, hop_rng_seeds_append, expander_batches_append, q3, qh]
    simp only [nbr_init, List.nil_append, List.append_nil] at c3 ⊢
    exact c3

/-- C18: closed form of the seed schedule of both drivers, for a `uint64_t`
base seed.  At hop `i`, with `n_j` the frontier size handed to the expander at
hop `j`, an `RngState` is built only when `fan_out[i] > 0`, and then from the
seed `(seed + rank + W * sum of n_j * fan_out[j] over the hops j < i with
fan_out[j] > 0) mod 2 ^ 64`, where `rank = 0` and `W = 1` without `multi_gpu`;
hops with `fan_out[j] <= 0` build no `RngState` and add nothing to the sum. -/
theorem C18_seed_schedule_closed_form {G WV TV : Type} (ops : sample_ops G WV TV)
    (pops : plain_ops G WV) (multi_gpu : Bool) (handle : handle_t) (graph_view : G)
    (wv : Option WV) (tv : Option TV) (d_in : device_uvector vertex_t)
    (d_labels : Option (device_uvector Int)) (fan_out : List Int) (wr : Bool) (seed : Nat)
    (hseed : seed < 2 ^ 64) :
    (∀ (i n : Nat) (k : Int),
      (((expander_batches (calls_of Returned.calls
        (uniform_neighbor_sample_impl ops multi_gpu handle graph_view wv tv d_in d_labels
          fan_out wr seed))).map List.length).zip fan_out)[i]? = some (n, k) →
      (hop_rng_seeds (calls_of Returned.calls
        (uniform_neighbor_sample_impl ops multi_gpu handle graph_view wv tv d_in d_labels
          fan_out wr seed)))[i]? =
        some (if k > 0 then
          some ((seed + (if multi_gpu then handle.comm_rank else 0) +
            (if multi_gpu then handle.comm_size else 1) *
              sampled_work ((((expander_batches (calls_of Returned.calls
                (uniform_neighbor_sample_impl ops multi_gpu handle graph_view wv tv d_in
                  d_labels fan_out wr seed))).map List.length).zip fan_out).take i))
            % 2 ^ 64)
        else none)) ∧
    (∀ (i n : Nat) (k : Int),
      (((expander_batches (calls_of Returned.calls
        (uniform_nbr_sample_impl pops multi_gpu handle graph_view wv d_in fan_out wr
          seed))).map List.length).zip fan_out)[i]? = some (n, k) →
      (hop_rng_seeds (calls_of Returned.calls
        (uniform_nbr_sample_impl pops multi_gpu handle graph_view wv d_in fan_out wr
          seed)))[i]? =
        some (if k > 0 then
          some ((seed + (if multi_gpu then handle.comm_rank else 0) +
            (if multi_gpu then handle.comm_size else 1) *
              sampled_work ((((expander_batches (calls_of Returned.calls
                (uniform_nbr_sample_impl pops multi_gpu handle graph_view wv d_in fan_out wr
                  seed))).map List.length).zip fan_out).take i))
            % 2 ^ 64)
        else none)) := by
  have hinit : (if multi_gpu then (seed + handle.comm_rank) % 2 ^ 64 else seed) < 2 ^ 64 := by
    split
    · exact Nat.mod_lt _ (by norm_num)
    · exact hseed
  have harith : ∀ x, ((if multi_gpu then (seed + handle.comm_rank) % 2 ^ 64 else seed) + x)
      % 2 ^ 64 = (seed + (if multi_gpu then handle.comm_rank else 0) + x) % 2 ^ 64 := by
    intro x
    cases multi_gpu
    · simp
    · simp only [if_true, Nat.mod_add_mod]
  constructor
  · intro i n k h
    rw [sample_impl_hop_seeds, hop_seeds_closed_form _ _ _ i n k hinit h, harith]
  · intro i n k h
    rw [nbr_impl_hop_seeds, hop_seeds_closed_form _ _ _ i n k hinit h, harith]

/-- C18 at the concrete run (seed 42, one worker, fan-out `[2, -1]`): hop 0
builds its `RngState` from 42, hop 1 builds none. -/
theorem C18_seed_schedule_closed_form_witness :
    (42 : Nat) < 2 ^ 64 ∧
    (((expander_batches (calls_of Returned.calls
        (uniform_neighbor_sample_impl chain_ops false ⟨0, 1⟩ () (some ()) (none : Option Unit)
          [some 1] (some [some 5]) [2, -1] true 42))).map List.length).zip
      ([2, -1] : List Int))[1]? = some (2, -1) ∧
    (hop_rng_seeds (calls_of Returned.calls
        (uniform_neighbor_sample_impl chain_ops false ⟨0, 1⟩ () (some ()) (none : Option Unit)
          [some 1] (some [some 5]) [2, -1] true 42)))[1]? = some none :=
  ⟨by decide, by rfl, by
    have h := (C18_seed_schedule_closed_form chain_ops chain_plain_ops false ⟨0, 1⟩ ()
      (some ()) (none : Option Unit) [some 1] (some [some 5]) [2, -1] true 42
      (by decide)).1 1 2 (-1) (by rfl)
    simpa using h⟩

end cugraph

namespace cugraph
open detail

/-! ## Runs with agreeing primitives -/

theorem sample_shuffle_congr {G WV TV : Type} (ops1 ops2 : sample_ops G WV TV)
    (multi_gpu : Bool) (handle : handle_t) (graph_view : G) (wv : Option WV) (tv : Option TV)
    (s : sample_state)
    (h : ∀ c ∈ (sample_shuffle ops1 multi_gpu handle graph_view s).calls,
      ops2.answers handle graph_view wv tv c) :
    sample_shuffle ops2 multi_gpu handle graph_view s =
      sample_shuffle ops1 multi_gpu handle graph_view s := by
  unfold sample_shuffle at h ⊢
  cases multi_gpu with
  | false => rfl
  | true =>
    simp only [if_true] at h ⊢
    cases hl : s.d_labels with
    | none =>
      rw [hl] at h
      simp only at h ⊢
      have := h _ (List.mem_append_right _ (List.mem_singleton_self _))
      simp only [sample_ops.answers] at this
      rw [this]
    | some l =>
      rw [hl] at h
      simp only at h ⊢
      have := h _ (List.mem_append_right _ (List.mem_singleton_self _))
      simp only [sample_ops.answers] at this
      rw [this]

theorem sample_expand_congr {G WV TV : Type} (ops1 ops2 : sample_ops G WV TV)
    (handle : handle_t) (graph_view : G) (wv : Option WV) (tv : Option TV) (wr : Bool)
    (s : sample_state) (k : Int)
    (h : ∀ c ∈ (sample_expand ops1 handle graph_view wv tv wr s k).1.calls,
      ops2.answers handle graph_view wv tv c) :
    sample_expand ops2 handle graph_view wv tv wr s k =
      sample_expand ops1 handle graph_view wv tv wr s k := by
  unfold sample_expand at h ⊢
  by_cases hk : k > 0
  · simp only [hk, if_true] at h ⊢
    have := h _ (List.mem_append_right _ (List.mem_singleton_self _))
    simp only [sample_ops.answers] at this
    rw [this]
  · simp only [hk, if_false] at h ⊢
    have := h _ (List.mem_append_right _ (List.mem_singleton_self _))
    simp only [sample_ops.answers] at this
    rw [this]

theorem sample_hop_congr {G WV TV : Type} (ops1 ops2 : sample_ops G WV TV)
    (multi_gpu : Bool) (handle : handle_t) (graph_view : G) (wv : Option WV) (tv : Option TV)
    (wr : Bool) (s : sample_state) (k : Int)
    (h : ∀ c ∈ calls_of sample_state.calls
        (sample_hop ops1 multi_gpu handle graph_view wv tv wr s k),
      ops2.answers handle graph_view wv tv c) :
    sample_hop ops2 multi_gpu handle graph_view wv tv wr s k =
      sample_hop ops1 multi_gpu handle graph_view wv tv wr s k := by
  rw [sample_hop_calls] at h
  have h1 : sample_shuffle ops2 multi_gpu handle graph_view s =
      sample_shuffle ops1 multi_gpu handle graph_view s := by
    apply sample_shuffle_congr _ _ _ _ _ wv tv
    intro c hc
    apply h
    rw [sample_expand_calls]
    exact List.mem_append_left _ hc
  have h2 := sample_expand_congr ops1 ops2 handle graph_view wv tv wr
    (sample_shuffle ops1 multi_gpu handle graph_view s) k h
  unfold sample_hop
  simp only [h1, h2]

theorem sample_loop_congr {G WV TV : Type} (ops1 ops2 : sample_ops G WV TV)
    (multi_gpu : Bool) (handle : handle_t) (graph_view : G) (wv : Option WV) (tv : Option TV)
    (wr : Bool) (ks : List Int) (s : sample_state)
    (h : ∀ c ∈ calls_of sample_state.calls
        (sample_loop ops1 multi_gpu handle graph_view wv tv wr s ks),
      ops2.answers handle graph_view wv tv c) :
    sample_loop ops2 multi_gpu handle graph_view wv tv wr s ks =
      sample_loop ops1 multi_gpu handle graph_view wv tv wr s ks := by
  induction ks generalizing s with
  | nil => rfl
  | cons k ks ih =>
    have hh : sample_hop ops2 multi_gpu handle graph_view wv tv wr s k =
        sample_hop ops1 multi_gpu handle graph_view wv tv wr s k := by
      apply sample_hop_congr
      intro c hc
      apply h
      simp only [sample_loop]
      cases hop : sample_hop ops1 multi_gpu handle graph_view wv tv wr s k with
      | error a => rw [hop] at hc; exact hc
      | ok s1 =>
        rw [hop] at hc
        simp only [calls_of] at hc
        obtain ⟨t, c1, -⟩ := sample_loop_log ops1 multi_gpu handle graph_view wv tv wr ks s1
        simp only
        rw [c1]
        exact List.mem_append_left _ hc
    simp only [sample_loop, hh]
    cases hop : sample_hop ops1 multi_gpu handle graph_view wv tv wr s k with
    | error a => rfl
    | ok s1 =>
      simp only
      apply ih
      intro c hc
      apply h
      simp only [sample_loop, hop]
      exact hc

theorem sample_impl_congr {G WV TV : Type} (ops1 ops2 : sample_ops G WV TV)
    (multi_gpu : Bool) (handle : handle_t) (graph_view : G) (wv : Option WV) (tv : Option TV)
    (d_in : device_uvector vertex_t) (d_labels : Option (device_uvector Int))
    (ks : List Int) (wr : Bool) (seed : Nat)
    (h : ∀ c ∈ calls_of Returned.calls
        (uniform_neighbor_sample_impl ops1 multi_gpu handle graph_view wv tv d_in d_labels ks
          wr seed), ops2.answers handle graph_view wv tv c) :
    uniform_neighbor_sample_impl ops2 multi_gpu handle graph_view wv tv d_in d_labels ks wr
        seed =
      uniform_neighbor_sample_impl ops1 multi_gpu handle graph_view wv tv d_in d_labels ks wr
        seed := by
  cases ks with
  | nil => rfl
  | cons k ks =>
    rw [sample_impl_calls _ _ _ _ _ _ _ _ _ _ _ (List.cons_ne_nil k ks)] at h
    unfold uniform_neighbor_sample_impl
    rw [sample_loop_congr ops1 ops2 _ _ _ _ _ _ _ _ h]

end cugraph

namespace cugraph
open detail

theorem nbr_shuffle_congr {G WV : Type} (ops1 ops2 : plain_ops G WV)
    (multi_gpu : Bool) (handle : handle_t) (graph_view : G) (wv : Option WV) (s : nbr_state)
    (h : ∀ c ∈ (nbr_shuffle ops1 multi_gpu handle graph_view s).calls,
      ops2.answers handle graph_view wv c) :
    nbr_shuffle ops2 multi_gpu handle graph_view s =
      nbr_shuffle ops1 multi_gpu handle graph_view s := by
  unfold nbr_shuffle at h ⊢
  cases multi_gpu with
  | false => rfl
  | true =>
    simp only [if_true] at h ⊢
    have := h _ (List.mem_append_right _ (List.mem_singleton_self _))
    simp only [plain_ops.answers] at this
    rw [this]

theorem nbr_expand_congr {G WV : Type} (ops1 ops2 : plain_ops G WV)
    (handle : handle_t) (graph_view : G) (wv : Option WV) (wr : Bool)
    (s : nbr_state) (k : Int)
    (h : ∀ c ∈ (nbr_expand ops1 handle graph_view wv wr s k).1.calls,
      ops2.answers handle graph_view wv c) :
    nbr_expand ops2 handle graph_view wv wr s k =
      nbr_expand ops1 handle graph_view wv wr s k := by
  unfold nbr_expand at h ⊢
  by_cases hk : k > 0
  · simp only [hk, if_true] at h ⊢
    have := h _ (List.mem_append_right _ (List.mem_singleton_self _))
    simp only [plain_ops.answers] at this
    rw [this]
  · simp only [hk, if_false] at h ⊢
    have := h _ (List.mem_append_right _ (List.mem_singleton_self _))
    simp only [plain_ops.answers] at this
    rw [this]

theorem nbr_hop_congr {G WV : Type} (ops1 ops2 : plain_ops G WV)
    (multi_gpu : Bool) (handle : handle_t) (graph_view : G) (wv : Option WV)
    (wr : Bool) (s : nbr_state) (k : Int)
    (h : ∀ c ∈ calls_of nbr_state.calls (nbr_hop ops1 multi_gpu handle graph_view wv wr s k),
      ops2.answers handle graph_view wv c) :
    nbr_hop ops2 multi_gpu handle graph_view wv wr s k =
      nbr_hop ops1 multi_gpu handle graph_view wv wr s k := by
  rw [nbr_hop_calls] at h
  have h1 : nbr_shuffle ops2 multi_gpu handle graph_view s =
      nbr_shuffle ops1 multi_gpu handle graph_view s := by
    apply nbr_shuffle_congr _ _ _ _ _ wv
    intro c hc
    apply h
    rw [nbr_expand_calls]
    exact List.mem_append_left _ hc
  have h2 := nbr_expand_congr ops1 ops2 handle graph_view wv wr
    (nbr_shuffle ops1 multi_gpu handle graph_view s) k h
  unfold nbr_hop
  simp only [h1, h2]

theorem nbr_loop_congr {G WV : Type} (ops1 ops2 : plain_ops G WV)
    (multi_gpu : Bool) (handle : handle_t) (graph_view : G) (wv : Option WV)
    (wr : Bool) (ks : List Int) (s : nbr_state)
    (h : ∀ c ∈ calls_of nbr_state.calls (nbr_loop ops1 multi_gpu handle graph_view wv wr s ks),
      ops2.answers handle graph_view wv c) :
    nbr_loop ops2 multi_gpu handle graph_view wv wr s ks =
      nbr_loop ops1 multi_gpu handle graph_view wv wr s ks := by
  induction ks generalizing s with
  | nil => rfl
  | cons k ks ih =>
    have hh : nbr_hop ops2 multi_gpu handle graph_view wv wr s k =
        nbr_hop ops1 multi_gpu handle graph_view wv wr s k := by
      apply nbr_hop_congr
      intro c hc
      apply h
      simp only [nbr_loop]
      cases hop : nbr_hop ops1 multi_gpu handle graph_view wv wr s k with
      | error a => rw [hop] at hc; exact hc
      | ok s1 =>
        rw [hop] at hc
        simp only [calls_of] at hc
        obtain ⟨t, c1, -⟩ := nbr_loop_log ops1 multi_gpu handle graph_view wv wr ks s1
        simp only
        rw [c1]
        exact List.mem_append_left _ hc
    simp only [nbr_loop, hh]
    cases hop : nbr_hop ops1 multi_gpu handle graph_view wv wr s k with
    | error a => rfl
    | ok s1 =>
      simp only
      apply ih
      intro c hc
      apply h
      simp only [nbr_loop, hop]
      exact hc

theorem nbr_impl_congr {G WV : Type} (ops1 ops2 : plain_ops G WV)
    (multi_gpu : Bool) (handle : handle_t) (graph_view : G) (wv : Option WV)
    (d_in : device_uvector vertex_t) (ks : List Int) (wr : Bool) (seed : Nat)
    (h : ∀ c ∈ calls_of Returned.calls
        (uniform_nbr_sample_impl ops1 multi_gpu handle graph_view wv d_in ks wr seed),
      ops2.answers handle graph_view wv c) :
    uniform_nbr_sample_impl ops2 multi_gpu handle graph_view wv d_in ks wr seed =
      uniform_nbr_sample_impl ops1 multi_gpu handle graph_view wv d_in ks wr seed := by
  cases ks with
  | nil => rfl
  | cons k ks =>
    have hloop : nbr_loop ops2 multi_gpu handle graph_view wv wr
        (nbr_init multi_gpu handle d_in seed) (k :: ks) =
        nbr_loop ops1 multi_gpu handle graph_view wv wr
          (nbr_init multi_gpu handle d_in seed) (k :: ks) := by
      apply nbr_loop_congr
      intro c hc
      apply h
      obtain ⟨tl, q1, -⟩ := nbr_impl_calls ops1 multi_gpu handle graph_view wv wr d_in
        (k :: ks) seed (List.cons_ne_nil k ks)
      rw [q1]
      exact List.mem_append_left _ hc
    unfold uniform_nbr_sample_impl at h ⊢
    rw [hloop]
    simp only [List.length_cons, gt_iff_lt, Nat.zero_lt_succ, if_true] at h ⊢
    cases hl : nbr_loop ops1 multi_gpu handle graph_view wv wr
        (nbr_init multi_gpu handle d_in seed) (k :: ks) with
    | error a => rfl
    | ok s =>
      rw [hl] at h
      simp only [calls_of] at h
      have := h _ (List.mem_append_right _ (List.mem_singleton_self _))
      simp only [plain_ops.answers] at this
      simp only [this]

/-- Every primitive call in the log of a loop run of
`uniform_neighbor_sample_impl` records what the primitives return on the logged
arguments. -/
theorem sample_loop_answers {G WV TV : Type} (ops : sample_ops G WV TV)
    (multi_gpu : Bool) (handle : handle_t) (graph_view : G) (wv : Option WV) (tv : Option TV)
    (wr : Bool) (ks : List Int) (s : sample_state) :
    ∀ c ∈ calls_of sample_state.calls
        (sample_loop ops multi_gpu handle graph_view wv tv wr s ks),
      c ∈ s.calls ∨ ops.answers handle graph_view wv tv c := by
  induction ks generalizing s with
  | nil => intro c hc; exact Or.inl hc
  | cons k ks ih =>
    have hhop : ∀ c ∈ calls_of sample_state.calls
        (sample_hop ops multi_gpu handle graph_view wv tv wr s k),
        c ∈ s.calls ∨ ops.answers handle graph_view wv tv c := by
      intro c hc
      rw [sample_hop_calls, sample_expand_calls, sample_expand_out] at hc
      rcases List.mem_append.mp hc with hc | hc
      · unfold sample_shuffle at hc
        cases multi_gpu with
        | false => exact Or.inl hc
        | true =>
          simp only [if_true] at hc
          cases hl : s.d_labels with
          | none =>
            rw [hl] at hc
            rcases List.mem_append.mp hc with hc | hc
            · exact Or.inl hc
            · rw [List.mem_singleton] at hc
              subst hc
              exact Or.inr rfl
          | some l =>
            rw [hl] at hc
            rcases List.mem_append.mp hc with hc | hc
            · exact Or.inl hc
            · rw [List.mem_singleton] at hc
              subst hc
              exact Or.inr rfl
      · rw [List.mem_singleton] at hc
        subst hc
        right
        by_cases hk : k > 0
        · simp only [hk, if_true, sample_ops.answers]
        · simp only [hk, if_false, sample_ops.answers]
    intro c hc
    simp only [sample_loop] at hc
    cases hop : sample_hop ops multi_gpu handle graph_view wv tv wr s k with
    | error a => rw [hop] at hc; exact hhop c (by rw [hop]; exact hc)
    | ok s1 =>
      rw [hop] at hc
      simp only at hc
      rcases ih s1 c hc with h1 | h1
      · exact hhop c (by rw [hop]; exact h1)
      · exact Or.inr h1

/-- Every primitive call in the log of a loop run of `uniform_nbr_sample_impl`
records what the primitives return on the logged arguments. -/
theorem nbr_loop_answers {G WV : Type} (ops : plain_ops G WV)
    (multi_gpu : Bool) (handle : handle_t) (graph_view : G) (wv : Option WV)
    (wr : Bool) (ks : List Int) (s : nbr_state) :
    ∀ c ∈ calls_of nbr_state.calls (nbr_loop ops multi_gpu handle graph_view wv wr s ks),
      c ∈ s.calls ∨ ops.answers handle graph_view wv c := by
  induction ks generalizing s with
  | nil => intro c hc; exact Or.inl hc
  | cons k ks ih =>
    have hhop : ∀ c ∈ calls_of nbr_state.calls
        (nbr_hop ops multi_gpu handle graph_view wv wr s k),
        c ∈ s.calls ∨ ops.answers handle graph_view wv c := by
      intro c hc
      rw [nbr_hop_calls, nbr_expand_calls, nbr_expand_out] at hc
      rcases List.mem_append.mp hc with hc | hc
      · unfold nbr_shuffle at hc
        cases multi_gpu with
        | false => exact Or.inl hc
        | true =>
          simp only [if_true] at hc
          rcases List.mem_append.mp hc with hc | hc
          · exact Or.inl hc
          · rw [List.mem_singleton] at hc
            subst hc
            exact Or.inr rfl
      · rw [List.mem_singleton] at hc
        subst hc
        right
        by_cases hk : k > 0
        · simp only [hk, if_true, plain_ops.answers]
        · simp only [hk, if_false, plain_ops.answers]
    intro c hc
    simp only [nbr_loop] at hc
    cases hop : nbr_hop ops multi_gpu handle graph_view wv wr s k with
    | error a => rw [hop] at hc; exact hhop c (by rw [hop]; exact hc)
    | ok s1 =>
      rw [hop] at hc
      simp only at hc
      rcases ih s1 c hc with h1 | h1
      · exact hhop c (by rw [hop]; exact h1)
      · exact Or.inr h1

end cugraph

namespace cugraph
open detail

theorem sample_impl_answers {G WV TV : Type} (ops : sample_ops G WV TV)
    (multi_gpu : Bool) (handle : handle_t) (graph_view : G) (wv : Option WV) (tv : Option TV)
    (d_in : device_uvector vertex_t) (d_labels : Option (device_uvector Int))
    (ks : List Int) (wr : Bool) (seed : Nat) :
    ∀ c ∈ calls_of Returned.calls
        (uniform_neighbor_sample_impl ops multi_gpu handle graph_view wv tv d_in d_labels ks wr
          seed), ops.answers handle graph_view wv tv c := by
  cases ks with
  | nil => intro c hc; simp [uniform_neighbor_sample_impl, calls_of] at hc
  | cons k ks =>
    rw [sample_impl_calls _ _ _ _ _ _ _ _ _ _ _ (List.cons_ne_nil k ks)]
    intro c hc
    rcases sample_loop_answers ops multi_gpu handle graph_view wv tv wr (k :: ks) _ c hc
      with h | h
    · simp [sample_init] at h
    · exact h

theorem nbr_impl_answers {G WV : Type} (ops : plain_ops G WV)
    (multi_gpu : Bool) (handle : handle_t) (graph_view : G) (wv : Option WV)
    (d_in : device_uvector vertex_t) (ks : List Int) (wr : Bool) (seed : Nat) :
    ∀ c ∈ calls_of Returned.calls
        (uniform_nbr_sample_impl ops multi_gpu handle graph_view wv d_in ks wr seed),
      ops.answers handle graph_view wv c := by
  cases ks with
  | nil => intro c hc; simp [uniform_nbr_sample_impl, calls_of] at hc
  | cons k ks =>
    have hl := nbr_loop_answers ops multi_gpu handle graph_view wv wr (k :: ks)
      (nbr_init multi_gpu handle d_in seed)
    intro c hc
    unfold uniform_nbr_sample_impl at hc
    simp only [List.length_cons, gt_iff_lt, Nat.zero_lt_succ, if_true] at hc
    cases hloop : nbr_loop ops multi_gpu handle graph_view wv wr
        (nbr_init multi_gpu handle d_in seed) (k :: ks) with
    | error a =>
      rw [hloop] at hc hl
      rcases hl c hc with h | h
      · simp [nbr_init] at h
      · exact h
    | ok s =>
      rw [hloop] at hc hl
      simp only [calls_of] at hc hl
      rcases List.mem_append.mp hc with hc | hc
      · rcases hl c hc with h | h
        · simp [nbr_init] at h
        · exact h
      · rw [List.mem_singleton] at hc
        subst hc
        rfl

theorem chain_ops_short_answers_chain_run :
    ∀ c ∈ calls_of Returned.calls
        (uniform_neighbor_sample chain_ops false ⟨0, 1⟩ () (some ()) (none : Option Unit)
          [some 1] (some [some 5]) [2, -1] true 42),
      chain_ops_short.answers ⟨0, 1⟩ () (some ()) (none : Option Unit) c := by
  intro c hc
  have e : calls_of Returned.calls
        (uniform_neighbor_sample chain_ops false ⟨0, 1⟩ () (some ()) (none : Option Unit)
          [some 1] (some [some 5]) [2, -1] true 42) = chain_returned.calls := by rfl
  rw [e] at hc
  simp only [chain_returned, List.mem_cons, List.mem_singleton, List.not_mem_nil,
    or_false] at hc
  rcases hc with rfl | rfl
  · rfl
  · rfl

end cugraph

namespace cugraph
open detail

/-! ## The three-column driver on tables -/

theorem nbr_append_progress {s : nbr_state} {out : plain_hop_output} (ha : s.aligned)
    (hw : out.well_formed) : ∃ s1, nbr_append s out = .ok s1 := by
  obtain ⟨h1, h2⟩ := ha
  obtain ⟨w1, w2⟩ := hw
  cases hwt : out.weights with
  | none => rw [hwt] at w2; simp at w2
  | some w =>
    rw [hwt] at w2
    simp only [Option.map_some', Option.some.injEq] at w2
    unfold nbr_append
    simp only [bind, Except.bind, pure, Except.pure, hwt, deref]
    rw [copy_into_resized _ _ _ _ _ h1, copy_into_resized _ _ _ _ _ rfl,
      copy_into_resized _ _ _ _ _ h2]
    simp only [w1, w2, le_refl, and_self, if_true]
    exact ⟨_, rfl⟩

theorem nbr_hop_progress {G WV : Type} (ops : plain_ops G WV) (multi_gpu : Bool)
    (handle : handle_t) (graph_view : G) (wv : Option WV) (wr : Bool)
    (s : nbr_state) (k : Int) (ha : s.aligned) (hh : s.hop + 1 < 2 ^ 31)
    (hw : (nbr_expand ops handle graph_view wv wr
        (nbr_shuffle ops multi_gpu handle graph_view s) k).2.well_formed) :
    ∃ s1, nbr_hop ops multi_gpu handle graph_view wv wr s k = .ok s1 := by
  obtain ⟨d, sh, hsh, -⟩ := nbr_shuffle_spec ops multi_gpu handle graph_view s
  obtain ⟨ev, hev, -⟩ := nbr_expand_spec ops handle graph_view wv wr
      (nbr_shuffle ops multi_gpu handle graph_view s) k
  have a1 : (nbr_expand ops handle graph_view wv wr
      (nbr_shuffle ops multi_gpu handle graph_view s) k).1.aligned := by
    rw [hev, hsh]; exact ha
  have a4 : (nbr_expand ops handle graph_view wv wr
      (nbr_shuffle ops multi_gpu handle graph_view s) k).1.hop = s.hop := by rw [hev, hsh]
  obtain ⟨s3, hs3⟩ := nbr_append_progress a1 hw
  obtain ⟨-, -, f4, -, -⟩ := nbr_append_frame hs3
  unfold nbr_hop
  simp only [hs3]
  have : incr_hop s3.hop = .ok (s3.hop + 1) := by
    unfold incr_hop
    rw [if_pos (by rw [f4, a4]; exact hh)]
  rw [this]
  exact ⟨_, rfl⟩

theorem nbr_loop_progress {G WV : Type} (ops : plain_ops G WV) (multi_gpu : Bool)
    (handle : handle_t) (graph_view : G) (wv : Option WV) (wr : Bool)
    (ks : List Int) (s : nbr_state) (ha : s.aligned) (hh : s.hop + ks.length < 2 ^ 31)
    (hw : ∀ o ∈ expander_outputs (calls_of nbr_state.calls
        (nbr_loop ops multi_gpu handle graph_view wv wr s ks)), o.well_formed) :
    ∃ s1, nbr_loop ops multi_gpu handle graph_view wv wr s ks = .ok s1 := by
  induction ks generalizing s with
  | nil => exact ⟨s, rfl⟩
  | cons k ks ih =>
    obtain ⟨d, sh, ev, out, -, -, -, -, -, ho, g1, -, -, hc, hok⟩ :=
      nbr_hop_spec ops multi_gpu handle graph_view wv wr s k
    simp only [List.length_cons, Nat.cast_add, Nat.cast_one] at hh
    have hmem : out ∈ expander_outputs (calls_of nbr_state.calls
        (nbr_loop ops multi_gpu handle graph_view wv wr s (k :: ks))) := by
      have o1 : out ∈ expander_outputs (s.calls ++ sh ++ [ev]) := by
        rw [expander_outputs_append, expander_outputs_single g1]
        simp
      simp only [nbr_loop]
      cases hhop : nbr_hop ops multi_gpu handle graph_view wv wr s k with
      | error a => rw [hhop] at hc; simp only; rw [hc]; exact o1
      | ok s2 =>
        rw [hhop] at hc
        simp only [calls_of] at hc
        obtain ⟨t, c1, -⟩ := nbr_loop_log ops multi_gpu handle graph_view wv wr ks s2
        simp only
        rw [c1, hc, expander_outputs_append]
        exact List.mem_append_left _ o1
    have hwf := hw out hmem
    rw [ho] at hwf
    obtain ⟨s2, hs2⟩ := nbr_hop_progress ops multi_gpu handle graph_view wv wr s k ha
      (by omega) hwf
    obtain ⟨-, -, -, e5, -, e7, -⟩ := hok s2 hs2
    have hw2 : ∀ o ∈ expander_outputs (calls_of nbr_state.calls
        (nbr_loop ops multi_gpu handle graph_view wv wr s2 ks)), o.well_formed := by
      intro o ho2
      apply hw
      simp only [nbr_loop, hs2]
      exact ho2
    obtain ⟨s3, hs3⟩ := ih s2 e7 (by rw [e5]; omega) hw2
    exact ⟨s3, by simp only [nbr_loop, hs2]; exact hs3⟩

theorem plain_rows_flatten (outs : List plain_hop_output)
    (h : ∀ o ∈ outs, o.well_formed) :
    plain_rows (outs.map (fun o => o.src)).flatten (outs.map (fun o => o.dst)).flatten
        (outs.map (fun o => o.weights.getD [])).flatten =
      (outs.map (fun o => o.rows)).flatten := by
  induction outs with
  | nil => rfl
  | cons o os ih =>
    have ho := h o (List.mem_cons_self _ _)
    have hw : (o.weights.getD []).length = o.dst.length := by
      have := ho.2
      cases hwt : o.weights with
      | none => rw [hwt] at this; simp at this
      | some w => rw [hwt] at this; simpa using this
    simp only [List.map_cons, List.flatten_cons, plain_rows] at ih ⊢
    rw [List.zip_append hw.symm, List.zip_append, ih (fun b hb => h b (List.mem_cons_of_mem _ hb))]
    · rfl
    · rw [ho.1, List.length_zip, hw, Nat.min_self]

end cugraph

namespace cugraph
open detail

theorem nbr_impl_columns {G WV : Type} (ops : plain_ops G WV) (multi_gpu : Bool)
    (handle : handle_t) (graph_view : G) (wv : Option WV) (wr : Bool)
    (d_in : device_uvector vertex_t) (ks : List Int) (seed : Nat)
    (r : Returned plain_result plain_hop_output)
    (h : uniform_nbr_sample_impl ops multi_gpu handle graph_view wv d_in ks wr seed = .ok r)
    (hwf : ∀ o ∈ expander_outputs r.calls, o.well_formed) :
    (expander_outputs r.calls).length = ks.length ∧
    r.value = ops.count_and_remove_duplicates handle
      ((expander_outputs r.calls).map (fun o => o.src)).flatten
      ((expander_outputs r.calls).map (fun o => o.dst)).flatten
      ((expander_outputs r.calls).map (fun o => o.weights.getD [])).flatten := by
  obtain ⟨-, s, hs, hv, hc⟩ := nbr_impl_ok h
  obtain ⟨t, c1, c2, -, -, -, c6, c7, c8⟩ := nbr_loop_columns ops multi_gpu handle graph_view
    wv wr ks _ s (nbr_init_aligned multi_gpu handle d_in seed) hs
  have hout : expander_outputs r.calls = expander_outputs t := by
    rw [hc, c1, expander_outputs_append, expander_outputs_append]
    simp [nbr_init, expander_outputs, Call.expander_output]
  rw [hout] at hwf ⊢
  have p1 : ∀ o ∈ expander_outputs t,
      o.src ++ List.replicate (o.dst.length - o.src.length) none = o.src := by
    intro o ho
    rw [(hwf o ho).1]; simp
  have p2 : ∀ o ∈ expander_outputs t,
      o.weights.getD [] ++ List.replicate (o.dst.length - (o.weights.getD []).length) none =
        o.weights.getD [] := by
    intro o ho
    have := (hwf o ho).2
    cases hwt : o.weights with
    | none => rw [hwt] at this; simp at this
    | some w =>
      rw [hwt] at this
      simp only [Option.map_some', Option.some.injEq] at this
      simp [this]
  refine ⟨c2, ?_⟩
  rw [hv, c6, c7, c8, List.map_congr_left p1, List.map_congr_left p2]
  rfl

/-- A concrete three-column run: chain graph, weights supplied,
start vertex 1, fan-out `[2, -1]`, seed 42. -/
theorem chain_plain_run :
    uniform_nbr_sample chain_plain_ops false ⟨0, 1⟩ () (some ()) [some 1] [2, -1] true 42 =
      .ok ⟨⟨[some 1, some 2], [some 2, some 3], [some 1, some 2], [some 2, some 2]⟩,
        [Call.sample_edges 42 [some 1] none 2 true
            ⟨[some 1, some 1], [some 2, some 2], some [some 1, some 1]⟩,
         Call.gather_one_hop_edgelist [some 2, some 2] none
            ⟨[some 2, some 2], [some 3, some 3], some [some 2, some 2]⟩,
         Call.count_and_remove_duplicates [some 1, some 1, some 2, some 2]
            [some 2, some 2, some 3, some 3] [some 1, some 1, some 2, some 2]
            ⟨[some 1, some 2], [some 2, some 3], [some 1, some 2], [some 2, some 2]⟩]⟩ := by
  rfl

end cugraph

namespace cugraph
open detail

theorem chain_plain_run_well_formed :
    ∀ o ∈ expander_outputs (calls_of Returned.calls
      (uniform_nbr_sample chain_plain_ops false ⟨0, 1⟩ () (some ()) [some 1] [2, -1] true 42)),
      o.well_formed := by
  rw [chain_plain_run]
  intro o ho
  simp only [calls_of, expander_outputs, List.filterMap, Call.expander_output,
    List.mem_cons, List.mem_singleton, List.not_mem_nil, or_false] at ho
  rcases ho with rfl | rfl <;> exact ⟨rfl, rfl⟩

end cugraph

namespace cugraph
open detail

/-! ## C20 -/

/-- The append step of `uniform_nbr_sample_impl` on an expander result without
a weight column stops at the dereference of that column. -/
theorem nbr_append_no_weights {s : nbr_state} {out : plain_hop_output} (ha : s.aligned)
    (h1 : out.src.length = out.dst.length) (h2 : out.weights = none) :
    nbr_append s out = .error Failure.bad_optional_access := by
  obtain ⟨a1, a2⟩ := ha
  unfold nbr_append
  simp only [bind, Except.bind, pure, Except.pure, h2, deref]
  rw [copy_into_resized _ _ _ _ _ a1, copy_into_resized _ _ _ _ _ rfl]
  simp only [h1, le_refl, and_self, if_true]

/-- The first hop of `uniform_nbr_sample_impl`, when its expander result has no
weight column: the run stops there, after the one expander call. -/
theorem nbr_impl_first_hop_no_weights {G WV : Type} (ops : plain_ops G WV) (multi_gpu : Bool)
    (handle : handle_t) (graph_view : G) (wv : Option WV)
    (d_in : device_uvector vertex_t) (k : Int) (ks : List Int) (wr : Bool) (seed : Nat)
    (h1 : (nbr_expand ops handle graph_view wv wr
      (nbr_shuffle ops multi_gpu handle graph_view (nbr_init multi_gpu handle d_in seed)) k).2.src.length
      = (nbr_expand ops handle graph_view wv wr
      (nbr_shuffle ops multi_gpu handle graph_view (nbr_init multi_gpu handle d_in seed)) k).2.dst.length)
    (h2 : (nbr_expand ops handle graph_view wv wr
      (nbr_shuffle ops multi_gpu handle graph_view (nbr_init multi_gpu handle d_in seed)) k).2.weights
      = none) :
    uniform_nbr_sample_impl ops multi_gpu handle graph_view wv d_in (k :: ks) wr seed =
      .error ⟨Failure.bad_optional_access, (nbr_expand ops handle graph_view wv wr
        (nbr_shuffle ops multi_gpu handle graph_view (nbr_init multi_gpu handle d_in seed)) k).1.calls⟩ := by
  obtain ⟨d, sh, hsh, -⟩ := nbr_shuffle_spec ops multi_gpu handle graph_view
    (nbr_init multi_gpu handle d_in seed)
  obtain ⟨ev, hev, -⟩ := nbr_expand_spec ops handle graph_view wv wr
      (nbr_shuffle ops multi_gpu handle graph_view (nbr_init multi_gpu handle d_in seed)) k
  have a1 : (nbr_expand ops handle graph_view wv wr
      (nbr_shuffle ops multi_gpu handle graph_view (nbr_init multi_gpu handle d_in seed)) k).1.aligned := by
    rw [hev, hsh]; exact nbr_init_aligned multi_gpu handle d_in seed
  have hap := nbr_append_no_weights a1 h1 h2
  unfold uniform_nbr_sample_impl
  rw [if_pos (by simp)]
  simp only [nbr_loop, nbr_hop, hap]

theorem nbr_loop_first_output {G WV : Type} (ops : plain_ops G WV) (multi_gpu : Bool)
    (handle : handle_t) (graph_view : G) (wv : Option WV) (wr : Bool)
    (k : Int) (ks : List Int) (s : nbr_state) :
    (nbr_expand ops handle graph_view wv wr
        (nbr_shuffle ops multi_gpu handle graph_view s) k).2 ∈
      expander_outputs (calls_of nbr_state.calls
        (nbr_loop ops multi_gpu handle graph_view wv wr s (k :: ks))) := by
  obtain ⟨d, sh, ev, out, -, -, -, -, -, ho, g1, -, -, hc, -⟩ :=
    nbr_hop_spec ops multi_gpu handle graph_view wv wr s k
  rw [← ho]
  have o1 : out ∈ expander_outputs (s.calls ++ sh ++ [ev]) := by
    rw [expander_outputs_append, expander_outputs_single g1]
    simp
  simp only [nbr_loop]
  cases hhop : nbr_hop ops multi_gpu handle graph_view wv wr s k with
  | error a => rw [hhop] at hc; simp only; rw [hc]; exact o1
  | ok s2 =>
    rw [hhop] at hc
    simp only [calls_of] at hc
    obtain ⟨t, c1, -⟩ := nbr_loop_log ops multi_gpu handle graph_view wv wr ks s2
    simp only
    rw [c1, hc, expander_outputs_append]
    exact List.mem_append_left _ o1

end cugraph

namespace cugraph
open detail

/-- C20 fails on the code for `uniform_nbr_sample` without an edge weight view.
Suppose the expander returns columns of one length and a weight column exactly
when the view was supplied.  Then for every non-empty fan-out the first append
step of `uniform_nbr_sample_impl` dereferences the absent weight column of the
expander result (lines 111-114): the run stops with `bad_optional_access` after
its one expander call, whose result has no weight column. -/
theorem C20_plain_append_reads_absent_weight_column {G WV : Type} (ops : plain_ops G WV)
    (multi_gpu : Bool) (handle : handle_t) (graph_view : G) (edge_weight_view : Option WV)
    (starting_vertices : device_uvector vertex_t) (k : Int) (ks : List Int)
    (with_replacement : Bool) (seed : Nat)
    (hview : edge_weight_view = none)
    (hassume : ∀ o ∈ expander_outputs (calls_of Returned.calls
        (uniform_nbr_sample ops multi_gpu handle graph_view edge_weight_view
          starting_vertices (k :: ks) with_replacement seed)),
      o.src.length = o.dst.length ∧
      (∀ w, o.weights = some w → w.length = o.dst.length) ∧
      o.weights.isSome = edge_weight_view.isSome) :
    ∃ a, uniform_nbr_sample ops multi_gpu handle graph_view edge_weight_view
        starting_vertices (k :: ks) with_replacement seed = .error a ∧
      a.reason = Failure.bad_optional_access ∧
      ∃ o, expander_outputs a.calls = [o] ∧ o.weights = none := by
  rw [uniform_nbr_sample_eq] at hassume ⊢
  obtain ⟨tl, c, -⟩ := nbr_impl_calls ops multi_gpu handle graph_view edge_weight_view
    with_replacement starting_vertices (k :: ks) seed (by simp)
  have hmem := nbr_loop_first_output ops multi_gpu handle graph_view edge_weight_view
    with_replacement k ks (nbr_init multi_gpu handle starting_vertices seed)
  obtain ⟨h1, -, h3⟩ := hassume _ (by
    rw [c, expander_outputs_append]
    exact List.mem_append_left _ hmem)
  have hv : edge_weight_view.isSome = false := by rw [hview]; rfl
  rw [hv] at h3
  have h2 : (nbr_expand ops handle graph_view edge_weight_view with_replacement
      (nbr_shuffle ops multi_gpu handle graph_view
        (nbr_init multi_gpu handle starting_vertices seed)) k).2.weights = none := by
    cases hw : (nbr_expand ops handle graph_view edge_weight_view with_replacement
      (nbr_shuffle ops multi_gpu handle graph_view
        (nbr_init multi_gpu handle starting_vertices seed)) k).2.weights with
    | none => rfl
    | some w => rw [hw] at h3; simp at h3
  refine ⟨_, nbr_impl_first_hop_no_weights ops multi_gpu handle graph_view edge_weight_view
    starting_vertices k ks with_replacement seed h1 h2, rfl, _, ?_, h2⟩
  obtain ⟨sh, c1, c2, -⟩ := nbr_shuffle_calls ops multi_gpu handle graph_view
    (nbr_init multi_gpu handle starting_vertices seed)
  simp only
  rw [nbr_expand_calls, c1, expander_outputs_append, expander_outputs_append, c2,
    (expander_call_facts _ _ _ _ _ _).2.2.2]
  rfl

theorem chain_plain_run_without_weights :
    uniform_nbr_sample chain_plain_ops false ⟨0, 1⟩ () none [some 1] [2, 1] true 42 =
      .error ⟨Failure.bad_optional_access,
        [Call.sample_edges 42 [some 1] none 2 true
          ⟨[some 1, some 1], [some 2, some 2], none⟩]⟩ := by
  rfl

theorem C20_plain_append_reads_absent_weight_column_witness :
    (∀ o ∈ expander_outputs (calls_of Returned.calls
        (uniform_nbr_sample chain_plain_ops false ⟨0, 1⟩ () none [some 1] [2, 1] true 42)),
      o.src.length = o.dst.length ∧
      (∀ w, o.weights = some w → w.length = o.dst.length) ∧
      o.weights.isSome = (none : Option Unit).isSome) ∧
    ∃ a, uniform_nbr_sample chain_plain_ops false ⟨0, 1⟩ () none [some 1] [2, 1] true 42 =
        .error a ∧
      a.reason = Failure.bad_optional_access ∧
      ∃ o, expander_outputs a.calls = [o] ∧ o.weights = none := by
  have h : ∀ o ∈ expander_outputs (calls_of Returned.calls
        (uniform_nbr_sample chain_plain_ops false ⟨0, 1⟩ () none [some 1] [2, 1] true 42)),
      o.src.length = o.dst.length ∧
      (∀ w, o.weights = some w → w.length = o.dst.length) ∧
      o.weights.isSome = (none : Option Unit).isSome := by
    rw [chain_plain_run_without_weights]
    intro o ho
    simp only [calls_of, expander_outputs, List.filterMap, Call.expander_output,
      List.mem_singleton] at ho
    subst ho
    exact ⟨rfl, (fun w hw => by cases hw), rfl⟩
  exact ⟨h, C20_plain_append_reads_absent_weight_column chain_plain_ops false ⟨0, 1⟩ () none
    [some 1] 2 [1] true 42 rfl h⟩

end cugraph

namespace cugraph
open detail

/-! ## An empty frontier -/

end cugraph

namespace cugraph
open detail

end cugraph

namespace cugraph
open detail

/-! ## C19 -/

theorem shuffle_d_in_agree {G WV TV : Type} (pops : plain_ops G WV) (ops : sample_ops G WV TV)
    (multi_gpu : Bool) (handle : handle_t) (graph_view : G)
    (hA : shuffles_agree pops ops handle graph_view)
    (sp : nbr_state) (se : sample_state) (hd : sp.d_in = se.d_in) :
    (nbr_shuffle pops multi_gpu handle graph_view sp).d_in =
      (sample_shuffle ops multi_gpu handle graph_view se).d_in := by
  obtain ⟨a1, a2, a3⟩ := hA
  unfold nbr_shuffle sample_shuffle
  cases multi_gpu with
  | false => exact hd
  | true =>
    simp only [if_true]
    cases hl : se.d_labels with
    | none => simp only; rw [a1, a2, hd]
    | some l => simp only; rw [a1, a2, a3, hd]

theorem well_formed_weight_some {o : hop_output} {t : Bool}
    (h : o.well_formed true t) :
    ∃ w, o.weight = some w ∧ w.length = o.dst.length := by
  have := h.2.2.1 rfl
  cases hw : o.weight with
  | none => rw [hw] at this; simp at this
  | some w => rw [hw] at this; exact ⟨w, rfl, by simpa using this⟩

/-- One hop of the two drivers from agreeing states: the same batch, seed and
mode go to the expander, and either both hops end in agreeing states or both
stop because the hop counter would leave its 32 bits. -/
theorem hop_agree {G WV TV : Type} (pops : plain_ops G WV) (ops : sample_ops G WV TV)
    (multi_gpu : Bool) (handle : handle_t) (graph_view : G) (wv : Option WV) (tv : Option TV)
    (wr : Bool) (hview : wv.isSome = true)
    (hA : shuffles_agree pops ops handle graph_view)
    (hE : expanders_agree pops ops handle graph_view wv tv)
    (hW : expander_well_formed ops handle graph_view wv tv)
    (sp : nbr_state) (se : sample_state) (k : Int)
    (hR : states_agree sp se) (hap : sp.aligned) (hae : se.aligned)
    (ht : se.d_result_edge_type.isSome = tv.isSome) :
    ∃ tp te,
      calls_of nbr_state.calls (nbr_hop pops multi_gpu handle graph_view wv wr sp k) =
        sp.calls ++ tp ∧
      calls_of sample_state.calls (sample_hop ops multi_gpu handle graph_view wv tv wr se k) =
        se.calls ++ te ∧
      expander_batches tp = expander_batches te ∧
      hop_rng_seeds tp = hop_rng_seeds te ∧
      expander_modes tp = expander_modes te ∧
      ((∃ sp1 se1, nbr_hop pops multi_gpu handle graph_view wv wr sp k = .ok sp1 ∧
          sample_hop ops multi_gpu handle graph_view wv tv wr se k = .ok se1 ∧
          states_agree sp1 se1 ∧ sp1.aligned ∧ se1.aligned ∧
          se1.d_result_edge_type.isSome = tv.isSome ∧ sp1.hop = sp.hop + 1) ∨
       (¬ sp.hop + 1 < 2 ^ 31 ∧
        (∃ ap, nbr_hop pops multi_gpu handle graph_view wv wr sp k = .error ap) ∧
         ∃ ae, sample_hop ops multi_gpu handle graph_view wv tv wr se k = .error ae)) := by
  obtain ⟨r1, r2, r3, r4, r5, r6, r7⟩ := hR
  obtain ⟨shp, p1, -, p3, p4, p5, -⟩ := nbr_shuffle_calls pops multi_gpu handle graph_view sp
  obtain ⟨she, q1, -, q3, q4, q5, -⟩ := sample_shuffle_calls ops multi_gpu handle graph_view se
  obtain ⟨fp1, fp2, fp3⟩ := nbr_shuffle_frame pops multi_gpu handle graph_view sp
  obtain ⟨fe1, fe2, fe3⟩ := sample_shuffle_frame ops multi_gpu handle graph_view se
  have hd := shuffle_d_in_agree pops ops multi_gpu handle graph_view hA sp se r1
  have hsd : (nbr_shuffle pops multi_gpu handle graph_view sp).seed =
      (sample_shuffle ops multi_gpu handle graph_view se).seed := by rw [fp1, fe1, r2]
  -- the two expander results
  have hwf : (sample_expand ops handle graph_view wv tv wr
      (sample_shuffle ops multi_gpu handle graph_view se) k).2.well_formed wv.isSome
        tv.isSome := by
    rw [sample_expand_out]
    split
    · exact hW.1 _ _ _ _ _
    · exact hW.2 _ _
  have hst : same_triple
      (nbr_expand pops handle graph_view wv wr
        (nbr_shuffle pops multi_gpu handle graph_view sp) k).2
      (sample_expand ops handle graph_view wv tv wr
        (sample_shuffle ops multi_gpu handle graph_view se) k).2 := by
    rw [sample_expand_out, nbr_expand_out, hd, hsd]
    split
    · exact hE.1 _ _ _ _ _
    · exact hE.2 _ _
  obtain ⟨t1, t2, t3⟩ := hst
  have hwf1 := hwf
  rw [hview] at hwf1
  obtain ⟨w, hw1, hw2⟩ := well_formed_weight_some hwf1
  have hpwf : (nbr_expand pops handle graph_view wv wr
      (nbr_shuffle pops multi_gpu handle graph_view sp) k).2.well_formed := by
    refine ⟨by rw [t1, t2]; exact hwf.1, ?_⟩
    rw [t3, hw1, t2]
    simp only [Option.map_some', hw2]
  -- the logs
  have cp := nbr_hop_calls pops multi_gpu handle graph_view wv wr sp k
  have ce := sample_hop_calls ops multi_gpu handle graph_view wv tv wr se k
  rw [nbr_expand_calls, p1, List.append_assoc] at cp
  rw [sample_expand_calls, q1, List.append_assoc] at ce
  obtain ⟨m1, m2, m3, -⟩ := expander_call_facts
    (nbr_shuffle pops multi_gpu handle graph_view sp).seed
    (nbr_shuffle pops multi_gpu handle graph_view sp).d_in none k wr
    (nbr_expand pops handle graph_view wv wr
      (nbr_shuffle pops multi_gpu handle graph_view sp) k).2
  obtain ⟨n1, n2, n3, -⟩ := expander_call_facts
    (sample_shuffle ops multi_gpu handle graph_view se).seed
    (sample_shuffle ops multi_gpu handle graph_view se).d_in
    (sample_shuffle ops multi_gpu handle graph_view se).d_labels k wr
    (sample_expand ops handle graph_view wv tv wr
      (sample_shuffle ops multi_gpu handle graph_view se) k).2
  refine ⟨_, _, cp, ce, ?_, ?_, ?_, ?_⟩
  · rw [expander_batches_append, expander_batches_append, p3, q3, m3, n3, hd]
  · rw [hop_rng_seeds_append, hop_rng_seeds_append, p5, q5, m2, n2, hsd]
  · rw [expander_modes_append, expander_modes_append, p4, q4, m1, n1]
  · by_cases hh : sp.hop + 1 < 2 ^ 31
    · left
      obtain ⟨sp1, hsp1⟩ := nbr_hop_progress pops multi_gpu handle graph_view wv wr sp k hap
        hh hpwf
      have hwe : se.d_result_weight.isSome = wv.isSome := by rw [r7, hview]; rfl
      obtain ⟨se1, hse1⟩ := sample_hop_progress ops multi_gpu handle graph_view wv tv wr se k
        hae (by rw [← r3]; exact hh) (by rw [hwe, ht]; exact hwf)
      obtain ⟨dp, shp1, evp, outp, -, -, -, -, hdp, hop, -, -, -, -, hokp⟩ :=
        nbr_hop_spec pops multi_gpu handle graph_view wv wr sp k
      obtain ⟨de, le, she1, eve, oute, -, -, -, -, -, hde, hoe, -, -, -, -, -, hoke⟩ :=
        sample_hop_spec ops multi_gpu handle graph_view wv tv wr se k
      obtain ⟨a1, a2, a3, a4, -, a6, a7⟩ := hokp sp1 hsp1
      obtain ⟨b1, -, b3, b4, b5, -, b7, b8⟩ := hoke se1 hse1
      obtain ⟨w1, x0, x1, x2, x3, x4, x5⟩ := a7 hap
      obtain ⟨y1, y2, -, -, y5, y6, -⟩ := b8 hae
      subst hop hoe
      have hdd : dp = de := by rw [hdp, hde, hd]
      have hw3 : w1 = w := by
        rw [t3, hw1] at x0
        exact (Option.some.inj x0).symm
      subst hw3
      have hsl := hwf.1
      rw [← t1, ← t2] at hsl
      have e1 : (sample_expand ops handle graph_view wv tv wr
          (sample_shuffle ops multi_gpu handle graph_view se) k).2.weight.getD [] = w1 := by
        rw [hw1]; rfl
      refine ⟨sp1, se1, hsp1, hse1, ⟨?_, ?_, ?_, ?_, ?_, ?_, ?_⟩, a6, b7, ?_, a4⟩
      · rw [a1, b1, t2]
      · rw [a2, b3, hdd, r2, r4]
      · rw [a4, b5, r3]
      · rw [a3, b4, r4]
      · rw [x3, y1, ← t1, ← t2, hsl, r5]
        simp [hsl]
      · rw [x4, y2, t2, r6]
      · rw [x5, y5, r7, e1, hw2, ← t2]
        simp [hw2, t2]
      · rw [y6, Option.isSome_map', ht]
    · right
      refine ⟨hh, ?_, ?_⟩
      · cases hp : nbr_hop pops multi_gpu handle graph_view wv wr sp k with
        | error a => exact ⟨a, rfl⟩
        | ok sp1 =>
          obtain ⟨dp, shp1, evp, outp, -, -, -, -, -, -, -, -, -, -, hokp⟩ :=
            nbr_hop_spec pops multi_gpu handle graph_view wv wr sp k
          exact absurd (hokp sp1 hp).2.2.2.2.1 hh
      · cases hp : sample_hop ops multi_gpu handle graph_view wv tv wr se k with
        | error a => exact ⟨a, rfl⟩
        | ok se1 =>
          obtain ⟨de, le, she1, eve, oute, -, -, -, -, -, -, -, -, -, -, -, -, hoke⟩ :=
            sample_hop_spec ops multi_gpu handle graph_view wv tv wr se k
          exact absurd (by rw [r3]; exact (hoke se1 hp).2.2.2.2.2.1) hh

end cugraph

namespace cugraph
open detail

/-- The loops of the two drivers from agreeing states: the same batches, seeds
and modes go to the expander hop by hop, and either both loops end in agreeing
states or both stop because the hop counter would leave its 32 bits. -/
theorem loop_agree {G WV TV : Type} (pops : plain_ops G WV) (ops : sample_ops G WV TV)
    (multi_gpu : Bool) (handle : handle_t) (graph_view : G) (wv : Option WV) (tv : Option TV)
    (wr : Bool) (hview : wv.isSome = true)
    (hA : shuffles_agree pops ops handle graph_view)
    (hE : expanders_agree pops ops handle graph_view wv tv)
    (hW : expander_well_formed ops handle graph_view wv tv)
    (ks : List Int) (sp : nbr_state) (se : sample_state)
    (hR : states_agree sp se) (hap : sp.aligned) (hae : se.aligned)
    (ht : se.d_result_edge_type.isSome = tv.isSome) :
    ∃ tp te,
      calls_of nbr_state.calls (nbr_loop pops multi_gpu handle graph_view wv wr sp ks) =
        sp.calls ++ tp ∧
      calls_of sample_state.calls (sample_loop ops multi_gpu handle graph_view wv tv wr se ks) =
        se.calls ++ te ∧
      expander_batches tp = expander_batches te ∧
      hop_rng_seeds tp = hop_rng_seeds te ∧
      expander_modes tp = expander_modes te ∧
      ((∃ sp1 se1, nbr_loop pops multi_gpu handle graph_view wv wr sp ks = .ok sp1 ∧
          sample_loop ops multi_gpu handle graph_view wv tv wr se ks = .ok se1 ∧
          states_agree sp1 se1) ∨
       (¬ sp.hop + ks.length < 2 ^ 31 ∧
        (∃ ap, nbr_loop pops multi_gpu handle graph_view wv wr sp ks = .error ap) ∧
         ∃ ae, sample_loop ops multi_gpu handle graph_view wv tv wr se ks = .error ae)) := by
  induction ks generalizing sp se with
  | nil =>
    exact ⟨[], [], by simp [nbr_loop, calls_of], by simp [sample_loop, calls_of], rfl, rfl, rfl,
      Or.inl ⟨sp, se, rfl, rfl, hR⟩⟩
  | cons k ks ih =>
    obtain ⟨tp, te, c1, c2, c3, c4, c5, hcase⟩ := hop_agree pops ops multi_gpu handle
      graph_view wv tv wr hview hA hE hW sp se k hR hap hae ht
    rcases hcase with ⟨sp1, se1, h1, h2, h3, h4, h5, h6, h7⟩ | ⟨hn, ⟨ap, h1⟩, ⟨ae, h2⟩⟩
    · rw [h1] at c1
      rw [h2] at c2
      simp only [calls_of] at c1 c2
      obtain ⟨tp1, te1, d1, d2, d3, d4, d5, hcase1⟩ := ih sp1 se1 h3 h4 h5 h6
      refine ⟨tp ++ tp1, te ++ te1, ?_, ?_, ?_, ?_, ?_, ?_⟩
      · simp only [nbr_loop, h1]
        rw [d1, c1, List.append_assoc]
      · simp only [sample_loop, h2]
        rw [d2, c2, List.append_assoc]
      · rw [expander_batches_append, expander_batches_append, c3, d3]
      · rw [hop_rng_seeds_append, hop_rng_seeds_append, c4, d4]
      · rw [expander_modes_append, expander_modes_append, c5, d5]
      · rcases hcase1 with ⟨sp2, se2, g1, g2, g3⟩ | ⟨gn, ⟨ap, g1⟩, ⟨ae, g2⟩⟩
        · left
          exact ⟨sp2, se2, by simp only [nbr_loop, h1]; exact g1,
            by simp only [sample_loop, h2]; exact g2, g3⟩
        · right
          refine ⟨?_, ⟨ap, by simp only [nbr_loop, h1]; exact g1⟩,
            ⟨ae, by simp only [sample_loop, h2]; exact g2⟩⟩
          rw [h7] at gn
          simp only [List.length_cons, Nat.cast_add, Nat.cast_one]
          intro hc
          exact gn (by omega)
    · rw [h1] at c1
      rw [h2] at c2
      simp only [calls_of] at c1 c2
      refine ⟨tp, te, ?_, ?_, c3, c4, c5, Or.inr ⟨?_, ⟨ap, ?_⟩, ⟨ae, ?_⟩⟩⟩
      · simp only [nbr_loop, h1, calls_of]
        exact c1
      · simp only [sample_loop, h2, calls_of]
        exact c2
      · simp only [List.length_cons, Nat.cast_add, Nat.cast_one]
        intro hc
        exact hn (by omega)
      · simp only [nbr_loop, h1]
      · simp only [sample_loop, h2]

end cugraph

namespace cugraph
open detail

theorem init_states_agree {WV TV : Type} (multi_gpu : Bool) (handle : handle_t)
    (wv : Option WV) (tv : Option TV) (d_in : device_uvector vertex_t)
    (d_labels : Option (device_uvector Int)) (seed : Nat) (hview : wv.isSome = true) :
    states_agree (nbr_init multi_gpu handle d_in seed)
      (sample_init multi_gpu handle wv tv d_in d_labels seed) := by
  refine ⟨rfl, rfl, rfl, rfl, rfl, rfl, ?_⟩
  simp only [sample_init, nbr_init, hview, if_true]

/-- The two implementation drivers on agreeing primitives, with a weight view
supplied: the same batches, seeds and modes go to the expander, and either both
return, the plain result being the deduplicator applied to the other's src, dst
and weight columns, or both stop, which needs 2^31 hops or more. -/
theorem impl_agree {G WV TV : Type} (pops : plain_ops G WV) (ops : sample_ops G WV TV)
    (multi_gpu : Bool) (handle : handle_t) (graph_view : G) (wv : Option WV) (tv : Option TV)
    (d_in : device_uvector vertex_t) (d_labels : Option (device_uvector Int))
    (ks : List Int) (wr : Bool) (seed : Nat) (hk : ks ≠ [])
    (hview : wv.isSome = true)
    (hA : shuffles_agree pops ops handle graph_view)
    (hE : expanders_agree pops ops handle graph_view wv tv)
    (hW : expander_well_formed ops handle graph_view wv tv) :
    expander_batches (calls_of Returned.calls
        (uniform_nbr_sample_impl pops multi_gpu handle graph_view wv d_in ks wr seed)) =
      expander_batches (calls_of Returned.calls
        (uniform_neighbor_sample_impl ops multi_gpu handle graph_view wv tv d_in d_labels ks
          wr seed)) ∧
    hop_rng_seeds (calls_of Returned.calls
        (uniform_nbr_sample_impl pops multi_gpu handle graph_view wv d_in ks wr seed)) =
      hop_rng_seeds (calls_of Returned.calls
        (uniform_neighbor_sample_impl ops multi_gpu handle graph_view wv tv d_in d_labels ks
          wr seed)) ∧
    expander_modes (calls_of Returned.calls
        (uniform_nbr_sample_impl pops multi_gpu handle graph_view wv d_in ks wr seed)) =
      expander_modes (calls_of Returned.calls
        (uniform_neighbor_sample_impl ops multi_gpu handle graph_view wv tv d_in d_labels ks
          wr seed)) ∧
    ((∃ rp re w,
        uniform_nbr_sample_impl pops multi_gpu handle graph_view wv d_in ks wr seed = .ok rp ∧
        uniform_neighbor_sample_impl ops multi_gpu handle graph_view wv tv d_in d_labels ks
          wr seed = .ok re ∧
        re.value.weight = some w ∧
        rp.value = pops.count_and_remove_duplicates handle re.value.src re.value.dst w) ∨
     (¬ ks.length < 2 ^ 31 ∧
      (∃ ap, uniform_nbr_sample_impl pops multi_gpu handle graph_view wv d_in ks wr seed
        = .error ap) ∧
      ∃ ae, uniform_neighbor_sample_impl ops multi_gpu handle graph_view wv tv d_in d_labels
        ks wr seed = .error ae)) := by
  obtain ⟨tp, te, c1, c2, c3, c4, c5, hcase⟩ := loop_agree pops ops multi_gpu handle
    graph_view wv tv wr hview hA hE hW ks (nbr_init multi_gpu handle d_in seed)
    (sample_init multi_gpu handle wv tv d_in d_labels seed)
    (init_states_agree multi_gpu handle wv tv d_in d_labels seed hview)
    (nbr_init_aligned multi_gpu handle d_in seed)
    (sample_init_aligned multi_gpu handle wv tv d_in d_labels seed)
    (by cases tv <;> rfl)
  have hpos := List.length_pos.mpr hk
  rcases hcase with ⟨sp1, se1, g1, g2, g3⟩ | ⟨gn, ⟨ap, g1⟩, ⟨ae, g2⟩⟩
  · rw [g1] at c1
    rw [g2] at c2
    simp only [calls_of] at c1 c2
    rw [show (nbr_init multi_gpu handle d_in seed).calls = [] from rfl, List.nil_append] at c1
    rw [show (sample_init multi_gpu handle wv tv d_in d_labels seed).calls = [] from rfl,
      List.nil_append] at c2
    have ep : uniform_nbr_sample_impl pops multi_gpu handle graph_view wv d_in ks wr seed =
        .ok ⟨pops.count_and_remove_duplicates handle sp1.d_result_src sp1.d_result_dst
            sp1.d_result_weights,
          sp1.calls ++ [Call.count_and_remove_duplicates sp1.d_result_src sp1.d_result_dst
            sp1.d_result_weights (pops.count_and_remove_duplicates handle sp1.d_result_src
              sp1.d_result_dst sp1.d_result_weights)]⟩ := by
      unfold uniform_nbr_sample_impl
      rw [if_pos hpos]
      simp only [g1]
    have ee : uniform_neighbor_sample_impl ops multi_gpu handle graph_view wv tv d_in d_labels
        ks wr seed =
        .ok ⟨{ src := se1.d_result_src, dst := se1.d_result_dst,
               edge_id := se1.d_result_edge_id, edge_type := se1.d_result_edge_type,
               weight := se1.d_result_weight, hop := se1.d_result_hop,
               label := se1.d_result_label }, se1.calls⟩ := by
      unfold uniform_neighbor_sample_impl
      rw [if_pos hpos, g2]
    obtain ⟨-, -, -, -, r5, r6, r7⟩ := g3
    rw [ep, ee]
    simp only [calls_of]
    rw [c1, c2]
    refine ⟨?_, ?_, ?_, Or.inl ⟨_, _, sp1.d_result_weights, rfl, rfl, r7, ?_⟩⟩
    · rw [expander_batches_append, c3]
      exact List.append_nil _
    · rw [hop_rng_seeds_append, c4]
      exact List.append_nil _
    · rw [expander_modes_append, c5]
      exact List.append_nil _
    · simp only
      rw [r5, r6]
  · rw [g1] at c1
    rw [g2] at c2
    simp only [calls_of] at c1 c2
    rw [show (nbr_init multi_gpu handle d_in seed).calls = [] from rfl, List.nil_append] at c1
    rw [show (sample_init multi_gpu handle wv tv d_in d_labels seed).calls = [] from rfl,
      List.nil_append] at c2
    have ep : uniform_nbr_sample_impl pops multi_gpu handle graph_view wv d_in ks wr seed =
        .error ap := by
      unfold uniform_nbr_sample_impl
      rw [if_pos hpos]
      simp only [g1]
    have ee : uniform_neighbor_sample_impl ops multi_gpu handle graph_view wv tv d_in d_labels
        ks wr seed = .error ae := by
      unfold uniform_neighbor_sample_impl
      rw [if_pos hpos, g2]
    rw [ep, ee]
    simp only [calls_of]
    rw [c1, c2]
    refine ⟨?_, ?_, ?_, Or.inr ⟨?_, ⟨ap, rfl⟩, ⟨ae, rfl⟩⟩⟩
    · exact c3
    · exact c4
    · exact c5
    · intro hc
      apply gn
      simp only [nbr_init]
      omega

end cugraph

namespace cugraph
open detail

/-- C19 fails as stated when no edge weight view is supplied.  On the chain
graph, start vertex 1, fan-out `[2, -1]`, seed 42, single worker, with
expanders that return the same (src, dst, weight) for the same seed, batch, `k`
and flag: `uniform_neighbor_sample` returns no weight column, so
`uniform_nbr_sample`, which returns the weights `[1, 2]`, is not the
deduplicator applied to (src, dst, weight) columns of the other result; and
with expanders that leave the weight column out when there is no view,
`uniform_neighbor_sample` returns while `uniform_nbr_sample` stops at its first
append. -/
theorem C19_counterexample :
    (expanders_agree chain_weighted_plain_ops chain_weighted_ops ⟨0, 1⟩ () none
        (none : Option Unit) ∧
      shuffles_agree chain_weighted_plain_ops chain_weighted_ops ⟨0, 1⟩ () ∧
      ∃ rp re,
        uniform_nbr_sample chain_weighted_plain_ops false ⟨0, 1⟩ () none [some 1] [2, -1] true 42
          = .ok rp ∧
        uniform_neighbor_sample chain_weighted_ops false ⟨0, 1⟩ () none (none : Option Unit)
          [some 1] none [2, -1] true 42 = .ok re ∧
        rp.value.weight = [some 1, some 2] ∧
        re.value.weight = none ∧
        ¬ ∃ w, re.value.weight = some w ∧
          rp.value = chain_weighted_plain_ops.count_and_remove_duplicates ⟨0, 1⟩
            re.value.src re.value.dst w) ∧
    (expanders_agree chain_plain_ops chain_ops ⟨0, 1⟩ () none (none : Option Unit) ∧
      (∃ re, uniform_neighbor_sample chain_ops false ⟨0, 1⟩ () none (none : Option Unit)
          [some 1] none [2, -1] true 42 = .ok re) ∧
      ∃ ap, uniform_nbr_sample chain_plain_ops false ⟨0, 1⟩ () none [some 1] [2, -1] true 42
          = .error ap ∧ ap.reason = Failure.bad_optional_access) := by
  refine ⟨⟨⟨fun _ _ _ _ _ => ⟨rfl, rfl, rfl⟩, fun _ _ => ⟨rfl, rfl, rfl⟩⟩,
    ⟨rfl, fun _ _ => rfl, fun _ _ _ => rfl⟩, _, _, rfl, rfl, rfl, rfl, ?_⟩,
    ⟨fun _ _ _ _ _ => ⟨rfl, rfl, rfl⟩, fun _ _ => ⟨rfl, rfl, rfl⟩⟩, ⟨_, rfl⟩, _, rfl, rfl⟩
  rintro ⟨w, hw, -⟩
  cases hw

/-- C19, as the code has it: with an edge weight view supplied, frontier
shuffles that place the vertices alike, and expanders that return columns of
one length and the same (src, dst, weight) for the same seed, batch, `k` and
flag, `uniform_nbr_sample` and `uniform_neighbor_sample` hand the expander the
same batch, the same seed and the same mode at every hop; for a non-empty
fan-out of fewer than 2^31 entries both return; and whenever both return, the
result of `uniform_nbr_sample` is `count_and_remove_duplicates` applied to the
src, dst and weight columns `uniform_neighbor_sample` returns. -/
theorem C19_drivers_agree_when_weights_are_supplied {G WV TV : Type}
    (pops : plain_ops G WV) (ops : sample_ops G WV TV) (multi_gpu : Bool) (handle : handle_t)
    (graph_view : G) (edge_weight_view : Option WV) (edge_type_view : Option TV)
    (starting_vertices : device_uvector vertex_t)
    (starting_labels : Option (device_uvector Int)) (fan_out : List Int)
    (with_replacement : Bool) (seed : Nat)
    (hview : edge_weight_view.isSome = true)
    (hA : shuffles_agree pops ops handle graph_view)
    (hE : expanders_agree pops ops handle graph_view edge_weight_view edge_type_view)
    (hW : expander_well_formed ops handle graph_view edge_weight_view edge_type_view) :
    expander_batches (calls_of Returned.calls
        (uniform_nbr_sample pops multi_gpu handle graph_view edge_weight_view
          starting_vertices fan_out with_replacement seed)) =
      expander_batches (calls_of Returned.calls
        (uniform_neighbor_sample ops multi_gpu handle graph_view edge_weight_view
          edge_type_view starting_vertices starting_labels fan_out with_replacement seed)) ∧
    hop_rng_seeds (calls_of Returned.calls
        (uniform_nbr_sample pops multi_gpu handle graph_view edge_weight_view
          starting_vertices fan_out with_replacement seed)) =
      hop_rng_seeds (calls_of Returned.calls
        (uniform_neighbor_sample ops multi_gpu handle graph_view edge_weight_view
          edge_type_view starting_vertices starting_labels fan_out with_replacement seed)) ∧
    expander_modes (calls_of Returned.calls
        (uniform_nbr_sample pops multi_gpu handle graph_view edge_weight_view
          starting_vertices fan_out with_replacement seed)) =
      expander_modes (calls_of Returned.calls
        (uniform_neighbor_sample ops multi_gpu handle graph_view edge_weight_view
          edge_type_view starting_vertices starting_labels fan_out with_replacement seed)) ∧
    (fan_out ≠ [] → fan_out.length < 2 ^ 31 →
      ∃ rp re w,
        uniform_nbr_sample pops multi_gpu handle graph_view edge_weight_view
          starting_vertices fan_out with_replacement seed = .ok rp ∧
        uniform_neighbor_sample ops multi_gpu handle graph_view edge_weight_view
          edge_type_view starting_vertices starting_labels fan_out with_replacement seed
          = .ok re ∧
        re.value.weight = some w ∧
        rp.value = pops.count_and_remove_duplicates handle re.value.src re.value.dst w) ∧
    (∀ rp re,
      uniform_nbr_sample pops multi_gpu handle graph_view edge_weight_view
        starting_vertices fan_out with_replacement seed = .ok rp →
      uniform_neighbor_sample ops multi_gpu handle graph_view edge_weight_view
        edge_type_view starting_vertices starting_labels fan_out with_replacement seed
        = .ok re →
      ∃ w, re.value.weight = some w ∧
        rp.value = pops.count_and_remove_duplicates handle re.value.src re.value.dst w) := by
  rw [uniform_nbr_sample_eq, uniform_neighbor_sample_eq]
  by_cases hk : fan_out = []
  · subst hk
    refine ⟨rfl, rfl, rfl, fun h => absurd rfl h, ?_⟩
    intro rp re hp
    exact absurd rfl (nbr_impl_ok hp).1
  · obtain ⟨c1, c2, c3, hcase⟩ := impl_agree pops ops multi_gpu handle graph_view
      edge_weight_view edge_type_view starting_vertices starting_labels fan_out
      with_replacement seed hk hview hA hE hW
    refine ⟨c1, c2, c3, ?_, ?_⟩
    · intro _ hlen
      rcases hcase with h | ⟨hn, -⟩
      · exact h
      · exact absurd hlen hn
    · intro rp re hp he
      rcases hcase with ⟨rp1, re1, w, h1, h2, h3, h4⟩ | ⟨-, ⟨ap, h1⟩, -⟩
      · rw [hp] at h1
        rw [he] at h2
        cases h1
        cases h2
        exact ⟨w, h3, h4⟩
      · rw [hp] at h1
        cases h1

theorem chain_expander_well_formed :
    expander_well_formed chain_ops ⟨0, 1⟩ () (some ()) (none : Option Unit) := by
  constructor
  · intro sd d l k w
    refine ⟨?_, ?_, fun _ => ?_, fun h => by cases h⟩
    · simp [chain_ops, chain_output]
    · simp [chain_ops, chain_output]
    · simp [chain_ops, chain_output]
  · intro d l
    refine ⟨?_, ?_, fun _ => ?_, fun h => by cases h⟩
    · simp [chain_ops, chain_output]
    · simp [chain_ops, chain_output]
    · simp [chain_ops, chain_output]

theorem C19_drivers_agree_when_weights_are_supplied_witness :
    ∃ rp re w,
      uniform_nbr_sample chain_plain_ops false ⟨0, 1⟩ () (some ()) [some 1] [2, -1] true 42
        = .ok rp ∧
      uniform_neighbor_sample chain_ops false ⟨0, 1⟩ () (some ()) (none : Option Unit)
        [some 1] (some [some 5]) [2, -1] true 42 = .ok re ∧
      re.value.weight = some w ∧
      rp.value = chain_plain_ops.count_and_remove_duplicates ⟨0, 1⟩ re.value.src re.value.dst w ∧
      w = [some 1, some 1, some 2, some 2] ∧
      rp.value.weight = [some 1, some 2] := by
  have h := (C19_drivers_agree_when_weights_are_supplied chain_plain_ops chain_ops false
    ⟨0, 1⟩ () (some ()) (none : Option Unit) [some 1] (some [some 5]) [2, -1] true 42 rfl
    ⟨rfl, fun _ _ => rfl, fun _ _ _ => rfl⟩
    ⟨fun _ _ _ _ _ => ⟨rfl, rfl, rfl⟩, fun _ _ => ⟨rfl, rfl, rfl⟩⟩
    chain_expander_well_formed).2.2.2.1 (by simp) (by simp)
  obtain ⟨rp, re, w, h1, h2, h3, h4⟩ := h
  have hrun : uniform_neighbor_sample chain_ops false ⟨0, 1⟩ () (some ()) (none : Option Unit)
      [some 1] (some [some 5]) [2, -1] true 42 = .ok chain_returned := by rfl
  have e2 : re = chain_returned := Except.ok.inj (h2.symm.trans hrun)
  refine ⟨rp, re, w, h1, h2, h3, h4, ?_, ?_⟩
  · rw [e2] at h3
    exact (Option.some.inj h3).symm
  · have e1 : rp = _ := Except.ok.inj (h1.symm.trans chain_plain_run)
    rw [e1]

end cugraph

namespace cugraph
open detail

/-! ## One hop of a single-worker loop, explicitly -/

theorem sample_shuffle_single {G WV TV : Type} (ops : sample_ops G WV TV)
    (handle : handle_t) (graph_view : G) (s : sample_state) :
    sample_shuffle ops false handle graph_view s = s := rfl

/-- Whatever a single-worker loop of `uniform_neighbor_sample_impl` does, its
log starts with the log up to and including the first expander call. -/
theorem sample_loop_cons_calls {G WV TV : Type} (ops : sample_ops G WV TV)
    (handle : handle_t) (graph_view : G) (wv : Option WV) (tv : Option TV) (wr : Bool)
    (k : Int) (ks : List Int) (s : sample_state) :
    ∃ t, calls_of sample_state.calls
        (sample_loop ops false handle graph_view wv tv wr s (k :: ks)) =
      (sample_expand ops handle graph_view wv tv wr s k).1.calls ++ t := by
  have hc := sample_hop_calls ops false handle graph_view wv tv wr s k
  rw [sample_shuffle_single] at hc
  simp only [sample_loop]
  cases hh : sample_hop ops false handle graph_view wv tv wr s k with
  | error a =>
    rw [hh] at hc
    exact ⟨[], by simp only [List.append_nil]; exact hc⟩
  | ok s1 =>
    rw [hh] at hc
    simp only [calls_of] at hc
    obtain ⟨t, c1, -⟩ := sample_loop_log ops false handle graph_view wv tv wr ks s1
    exact ⟨t, by simp only; rw [c1, hc]⟩

/-- A single-worker hop of `uniform_neighbor_sample_impl` whose expander
result has columns of one length: the state it leaves. -/
theorem sample_loop_cons_single {G WV TV : Type} (ops : sample_ops G WV TV)
    (handle : handle_t) (graph_view : G) (wv : Option WV) (tv : Option TV) (wr : Bool)
    (k : Int) (ks : List Int) (s : sample_state) (ha : s.aligned) (hh : s.hop + 1 < 2 ^ 31)
    (hw : (sample_expand ops handle graph_view wv tv wr s k).2.well_formed
      s.d_result_weight.isSome s.d_result_edge_type.isSome) :
    ∃ s1, sample_loop ops false handle graph_view wv tv wr s (k :: ks) =
        sample_loop ops false handle graph_view wv tv wr s1 ks ∧
      s1.d_in = (sample_expand ops handle graph_view wv tv wr s k).2.dst ∧
      s1.d_labels = s.d_labels ∧
      s1.hop = s.hop + 1 ∧ s1.aligned ∧
      s1.calls = (sample_expand ops handle graph_view wv tv wr s k).1.calls ∧
      s1.d_result_src = s.d_result_src ++
        (sample_expand ops handle graph_view wv tv wr s k).2.src ∧
      s1.d_result_dst = s.d_result_dst ++
        (sample_expand ops handle graph_view wv tv wr s k).2.dst ∧
      s1.d_result_hop = s.d_result_hop ++ List.replicate
        (sample_expand ops handle graph_view wv tv wr s k).2.dst.length (some s.hop) ∧
      s1.d_result_weight.isSome = s.d_result_weight.isSome ∧
      s1.d_result_edge_type.isSome = s.d_result_edge_type.isSome := by
  obtain ⟨s1, hs1⟩ := sample_hop_progress ops false handle graph_view wv tv wr s k ha hh hw
  have hc := sample_hop_calls ops false handle graph_view wv tv wr s k
  rw [sample_shuffle_single, hs1] at hc
  simp only [calls_of] at hc
  obtain ⟨d, l, sh, ev, out, -, -, -, -, h5, -, ho, -, -, -, -, -, hok⟩ :=
    sample_hop_spec ops false handle graph_view wv tv wr s k
  rw [sample_shuffle_single] at ho
  subst ho
  obtain ⟨-, hl, -⟩ := h5 rfl
  obtain ⟨e1, e2, e3, -, e5, -, e7, e8⟩ := hok s1 hs1
  obtain ⟨c1, c2, -, c4, c5, c6, -⟩ := e8 ha
  refine ⟨s1, by simp only [sample_loop, hs1], e1, by rw [e2, hl], e5, e7, hc, ?_, c2, c4,
    by rw [c5, Option.isSome_map'], by rw [c6, Option.isSome_map']⟩
  rw [c1, (well_formed_take_src hw).1]

end cugraph

namespace cugraph
open detail

end cugraph

namespace cugraph
open detail

/-! ## The contracts on the batches of the worked examples -/

theorem zip_columns {α β : Type} (src : List α) (dst : List β) (h : src.length = dst.length) :
    src = (src.zip dst).map Prod.fst ∧ dst = (src.zip dst).map Prod.snd := by
  constructor
  · rw [List.map_fst_zip]; omega
  · rw [List.map_snd_zip]; omega

theorem occurrences_eq_count {α : Type} [DecidableEq α] (a : α) (l : List α) :
    occurrences a l = l.count a := rfl

theorem occurrences_eq_length {α : Type} [DecidableEq α] {a : α} {l : List α}
    (h : ∀ x ∈ l, x = a) : occurrences a l = l.length := by
  unfold occurrences
  rw [List.countP_eq_length]
  intro x hx
  simp [h x hx]

theorem occurrences_singleton_self {α : Type} [DecidableEq α] (a : α) :
    occurrences a [a] = 1 := by
  simp [occurrences]

/-- Rows of a sampled result on a one-vertex batch: their number. -/
theorem sampled_single_length {edges : List (Option vertex_t × Option vertex_t)}
    {v : Option vertex_t} {k : Nat} {src dst : device_uvector vertex_t}
    (h : sampled_contract edges [v] k src dst) :
    (src.zip dst).length = min (out_degree edges v) k := by
  obtain ⟨h1, h2, h3, -⟩ := h
  have hs := (zip_columns src dst h1).1
  have hall : ∀ x ∈ src, x = v := by
    intro x hx
    rw [hs] at hx
    obtain ⟨r, hr, rfl⟩ := List.mem_map.mp hx
    simpa using (h2 r hr).2
  have hc : occurrences v src = src.length := occurrences_eq_length hall
  have h3v := h3 v (List.mem_singleton_self v)
  rw [hc, occurrences_singleton_self, Nat.one_mul] at h3v
  rw [List.length_zip, ← h1, Nat.min_self, h3v]

end cugraph

namespace cugraph
open detail

theorem example_edge_from_one {r : Option vertex_t × Option vertex_t}
    (h : r ∈ example_edges ∧ r.1 ∈ [some (1 : vertex_t)]) :
    r = (some 1, some 2) ∨ r = (some 1, some 3) := by
  obtain ⟨h1, h2⟩ := h
  simp only [example_edges, List.mem_cons, List.mem_singleton, List.not_mem_nil, or_false] at h1 h2
  rcases h1 with rfl | rfl | rfl
  · exact Or.inl rfl
  · exact Or.inr rfl
  · exact absurd h2 (by decide)

theorem example_edge_from_two {r : Option vertex_t × Option vertex_t}
    (h : r ∈ example_edges ∧ r.1 ∈ [some (2 : vertex_t)]) :
    r = (some 2, some 4) := by
  obtain ⟨h1, h2⟩ := h
  simp only [example_edges, List.mem_cons, List.mem_singleton, List.not_mem_nil, or_false] at h1 h2
  rcases h1 with rfl | rfl | rfl
  · exact absurd h2 (by decide)
  · exact absurd h2 (by decide)
  · rfl

/-- Sampled mode, batch `[1]`, `k = 1`: one row, `(1, 2)` or `(1, 3)`. -/
theorem sampled_one_of_one {src dst : device_uvector vertex_t}
    (h : sampled_contract example_edges [some 1] 1 src dst) :
    src = [some 1] ∧ (dst = [some 2] ∨ dst = [some 3]) := by
  have hlen := sampled_single_length h
  obtain ⟨h1, h2, -, -⟩ := h
  obtain ⟨hs, hd⟩ := zip_columns src dst h1
  have hdeg : min (out_degree example_edges (some 1)) 1 = 1 := by decide
  rw [hdeg] at hlen
  match hz : src.zip dst, hlen with
  | [r], _ =>
    rw [hz] at hs hd h2
    rcases example_edge_from_one (h2 r (List.mem_singleton_self r)) with rfl | rfl
    · exact ⟨hs, Or.inl hd⟩
    · exact ⟨hs, Or.inr hd⟩

/-- Sampled mode, batch `[2]`, `k = 1`: the row `(2, 4)`. -/
theorem sampled_one_of_two {src dst : device_uvector vertex_t}
    (h : sampled_contract example_edges [some 2] 1 src dst) :
    src = [some 2] ∧ dst = [some 4] := by
  have hlen := sampled_single_length h
  obtain ⟨h1, h2, -, -⟩ := h
  obtain ⟨hs, hd⟩ := zip_columns src dst h1
  have hdeg : min (out_degree example_edges (some 2)) 1 = 1 := by decide
  rw [hdeg] at hlen
  match hz : src.zip dst, hlen with
  | [r], _ =>
    rw [hz] at hs hd h2
    have := example_edge_from_two (h2 r (List.mem_singleton_self r))
    subst this
    exact ⟨hs, hd⟩

/-- Sampled mode, batch `[3]`: no row, since 3 has no outgoing edge. -/
theorem sampled_of_three {src dst : device_uvector vertex_t} {k : Nat}
    (h : sampled_contract example_edges [some 3] k src dst) :
    src = [] ∧ dst = [] := by
  have hlen := sampled_single_length h
  obtain ⟨h1, -, -, -⟩ := h
  have hdeg : out_degree example_edges (some 3) = 0 := by decide
  rw [hdeg, Nat.zero_min, List.length_zip, ← h1, Nat.min_self] at hlen
  have hs : src = [] := List.length_eq_zero.mp hlen
  have hd : dst = [] := List.length_eq_zero.mp (by rw [← h1, hlen])
  exact ⟨hs, hd⟩

end cugraph

namespace cugraph
open detail

/-! ## C15 -/

theorem sample_init_optional {WV TV : Type} (multi_gpu : Bool) (handle : handle_t)
    (wv : Option WV) (tv : Option TV) (d_in : device_uvector vertex_t)
    (d_labels : Option (device_uvector Int)) (seed : Nat) :
    (sample_init multi_gpu handle wv tv d_in d_labels seed).d_result_weight.isSome = wv.isSome ∧
    (sample_init multi_gpu handle wv tv d_in d_labels seed).d_result_edge_type.isSome
      = tv.isSome := by
  constructor
  · cases wv <;> rfl
  · cases tv <;> rfl

/-- What the log entry of a Sampled-mode hop without replacement says when it
meets the contract. -/
theorem sampled_call_contract {G WV TV : Type} (ops : sample_ops G WV TV)
    (handle : handle_t) (graph_view : G) (wv : Option WV) (tv : Option TV)
    (s : sample_state) (k : Int) (hk : k > 0) (calls : List (Call hop_output))
    (t : List (Call hop_output))
    (hcalls : calls = (sample_expand ops handle graph_view wv tv false s k).1.calls ++ t)
    (hc : ∀ c ∈ calls, c.meets_contract example_edges wv.isSome tv.isSome) :
    (sample_expand ops handle graph_view wv tv false s k).2.well_formed wv.isSome tv.isSome ∧
    sampled_contract example_edges s.d_in k.toNat
      (sample_expand ops handle graph_view wv tv false s k).2.src
      (sample_expand ops handle graph_view wv tv false s k).2.dst := by
  have hev := sample_expand_calls ops handle graph_view wv tv false s k
  rw [if_pos hk] at hev
  have hm := hc (Call.sample_edges s.seed s.d_in s.d_labels k.toNat false
      (sample_expand ops handle graph_view wv tv false s k).2) (by
    rw [hcalls, hev]
    simp)
  exact ⟨hm.1, hm.2 rfl⟩

/-- C15: the two-hop worked example.  Single worker, start vertex 1, fan-out
`[1, 1]`, without replacement, any seed, on the graph with edges 1 → 2, 1 → 3,
2 → 4.  When every expander call of the run meets the Sampled-mode contract
(rows are edges leaving batch vertices, `min d k` of them per batch vertex, no
edge twice), `uniform_neighbor_sample` returns, and what it returns is either
the rows (1, 2) with hop 0 and (2, 4) with hop 1, in this order, or the single
row (1, 3) with hop 0. -/
theorem C15_two_hop_example {G WV TV : Type} (ops : sample_ops G WV TV) (handle : handle_t)
    (graph_view : G) (edge_weight_view : Option WV) (edge_type_view : Option TV)
    (starting_labels : Option (device_uvector Int)) (seed : Nat)
    (hc : ∀ c ∈ calls_of Returned.calls
        (uniform_neighbor_sample ops false handle graph_view edge_weight_view edge_type_view
          [some 1] starting_labels [1, 1] false seed),
      c.meets_contract example_edges edge_weight_view.isSome edge_type_view.isSome) :
    ∃ r, uniform_neighbor_sample ops false handle graph_view edge_weight_view edge_type_view
        [some 1] starting_labels [1, 1] false seed = .ok r ∧
      ((r.value.src = [some 1, some 2] ∧ r.value.dst = [some 2, some 4] ∧
          r.value.hop = [some 0, some 1]) ∨
       (r.value.src = [some 1] ∧ r.value.dst = [some 3] ∧ r.value.hop = [some 0])) := by
  rw [uniform_neighbor_sample_eq] at hc ⊢
  rw [sample_impl_calls _ _ _ _ _ _ _ _ _ _ _ (by simp)] at hc
  obtain ⟨hw0, ht0⟩ := sample_init_optional false handle edge_weight_view edge_type_view
    [some 1] starting_labels seed
  -- hop 0
  obtain ⟨t0, c0⟩ := sample_loop_cons_calls ops handle graph_view edge_weight_view
    edge_type_view false 1 [1]
    (sample_init false handle edge_weight_view edge_type_view [some 1] starting_labels seed)
  obtain ⟨wf0, k0⟩ := sampled_call_contract ops handle graph_view edge_weight_view
    edge_type_view _ 1 (by decide) _ t0 c0 hc
  have hA := sampled_one_of_one k0
  obtain ⟨s1, l1, d1, -, h1, a1, -, src1, dst1, hop1, w1, ty1⟩ :=
    sample_loop_cons_single ops handle graph_view edge_weight_view edge_type_view false 1 [1]
      (sample_init false handle edge_weight_view edge_type_view [some 1] starting_labels seed)
      (sample_init_aligned false handle edge_weight_view edge_type_view [some 1]
        starting_labels seed)
      (by show (0 : Int) + 1 < 2 ^ 31; norm_num) (by rw [hw0, ht0]; exact wf0)
  rw [l1] at hc
  -- hop 1
  obtain ⟨t1, c1⟩ := sample_loop_cons_calls ops handle graph_view edge_weight_view
    edge_type_view false 1 [] s1
  obtain ⟨wf1, k1⟩ := sampled_call_contract ops handle graph_view edge_weight_view
    edge_type_view s1 1 (by decide) _ t1 c1 hc
  obtain ⟨s2, l2, -, -, -, -, -, src2, dst2, hop2, -, -⟩ :=
    sample_loop_cons_single ops handle graph_view edge_weight_view edge_type_view false 1 []
      s1 a1 (by rw [h1]; show (0 : Int) + 1 + 1 < 2 ^ 31; norm_num)
      (by rw [w1, ty1, hw0, ht0]; exact wf1)
  have hrun : uniform_neighbor_sample_impl ops false handle graph_view edge_weight_view
      edge_type_view [some 1] starting_labels [1, 1] false seed =
      .ok ⟨{ src := s2.d_result_src, dst := s2.d_result_dst, edge_id := s2.d_result_edge_id,
             edge_type := s2.d_result_edge_type, weight := s2.d_result_weight,
             hop := s2.d_result_hop, label := s2.d_result_label }, s2.calls⟩ := by
    unfold uniform_neighbor_sample_impl
    rw [if_pos (by simp), l1, l2]
    rfl
  refine ⟨_, hrun, ?_⟩
  simp only
  rw [src2, dst2, hop2, src1, dst1, hop1, h1]
  rw [d1] at k1
  obtain ⟨hs, hd | hd⟩ := hA
  · rw [hd] at k1
    obtain ⟨q1, q2⟩ := sampled_one_of_two k1
    left
    rw [hs, hd, q1, q2]
    exact ⟨rfl, rfl, rfl⟩
  · rw [hd] at k1
    obtain ⟨q1, q2⟩ := sampled_of_three k1
    right
    rw [hs, hd, q1, q2]
    exact ⟨rfl, rfl, rfl⟩

end cugraph

namespace cugraph
open detail

theorem example_run_seed_42 :
    uniform_neighbor_sample example_ops false ⟨0, 1⟩ () (none : Option Unit)
        (none : Option Unit) [some 1] none [1, 1] false 42 =
      .ok ⟨{ src := [some 1, some 2], dst := [some 2, some 4], edge_id := [some 2, some 4],
             edge_type := none, weight := none, hop := [some 0, some 1], label := none },
        [Call.sample_edges 42 [some 1] none 1 false
            ⟨[some 1], [some 2], [some 2], none, none, none⟩,
         Call.sample_edges 43 [some 2] none 1 false
            ⟨[some 2], [some 4], [some 4], none, none, none⟩]⟩ := by
  rfl

theorem example_run_seed_43 :
    uniform_neighbor_sample example_ops false ⟨0, 1⟩ () (none : Option Unit)
        (none : Option Unit) [some 1] none [1, 1] false 43 =
      .ok ⟨{ src := [some 1], dst := [some 3], edge_id := [some 3],
             edge_type := none, weight := none, hop := [some 0], label := none },
        [Call.sample_edges 43 [some 1] none 1 false
            ⟨[some 1], [some 3], [some 3], none, none, none⟩,
         Call.sample_edges 44 [some 3] none 1 false ⟨[], [], [], none, none, none⟩]⟩ := by
  rfl

theorem C15_two_hop_example_witness :
    (∃ r, uniform_neighbor_sample example_ops false ⟨0, 1⟩ () (none : Option Unit)
        (none : Option Unit) [some 1] none [1, 1] false 42 = .ok r ∧
      r.value.src = [some 1, some 2] ∧ r.value.dst = [some 2, some 4] ∧
      r.value.hop = [some 0, some 1]) ∧
    (∃ r, uniform_neighbor_sample example_ops false ⟨0, 1⟩ () (none : Option Unit)
        (none : Option Unit) [some 1] none [1, 1] false 43 = .ok r ∧
      r.value.src = [some 1] ∧ r.value.dst = [some 3] ∧ r.value.hop = [some 0]) := by
  have h42 := C15_two_hop_example example_ops ⟨0, 1⟩ () (none : Option Unit)
    (none : Option Unit) none 42 (by
      rw [example_run_seed_42]
      intro c hc
      simp only [calls_of, List.mem_cons, List.mem_singleton, List.not_mem_nil, or_false] at hc
      rcases hc with rfl | rfl <;>
        simp only [Call.meets_contract, hop_output.well_formed, sampled_contract] <;> decide)
  have h43 := C15_two_hop_example example_ops ⟨0, 1⟩ () (none : Option Unit)
    (none : Option Unit) none 43 (by
      rw [example_run_seed_43]
      intro c hc
      simp only [calls_of, List.mem_cons, List.mem_singleton, List.not_mem_nil, or_false] at hc
      rcases hc with rfl | rfl <;>
        simp only [Call.meets_contract, hop_output.well_formed, sampled_contract] <;> decide)
  obtain ⟨r1, hr1, -⟩ := h42
  obtain ⟨r2, hr2, -⟩ := h43
  have e1 : r1 = _ := Except.ok.inj (hr1.symm.trans example_run_seed_42)
  have e2 : r2 = _ := Except.ok.inj (hr2.symm.trans example_run_seed_43)
  exact ⟨⟨r1, hr1, by rw [e1]; exact ⟨rfl, rfl, rfl⟩⟩, ⟨r2, hr2, by rw [e2]; exact ⟨rfl, rfl, rfl⟩⟩⟩

end cugraph

namespace cugraph
open detail

/-! ## One hop from vertex 1 of the example graph -/

end cugraph

namespace cugraph
open detail

end cugraph

namespace cugraph
open detail

end cugraph

namespace cugraph
open detail

/-! ## The three-column driver without a weight column -/

theorem follows_view_false {out : plain_hop_output} (h : out.follows_view false) :
    out.src.length = out.dst.length ∧ out.weights = none := by
  obtain ⟨h1, h2⟩ := h
  refine ⟨h1, ?_⟩
  cases hw : out.weights with
  | none => rfl
  | some w => rw [hw] at h2; simp at h2

theorem follows_view_of_isSome {out : plain_hop_output} {b : Bool}
    (h : out.follows_view b) : out.weights.isSome = b := by
  obtain ⟨-, h2⟩ := h
  cases b <;> cases hw : out.weights <;> rw [hw] at h2 <;> simp at h2 ⊢

/-- The log up to the first expander call holds no deduplicator call. -/
theorem nbr_first_hop_calls_no_dedup {G WV : Type} (ops : plain_ops G WV) (multi_gpu : Bool)
    (handle : handle_t) (graph_view : G) (wv : Option WV) (wr : Bool)
    (d_in : device_uvector vertex_t) (k : Int) (seed : Nat) :
    ∀ c ∈ (nbr_expand ops handle graph_view wv wr
        (nbr_shuffle ops multi_gpu handle graph_view (nbr_init multi_gpu handle d_in seed))
        k).1.calls,
      ∀ src dst w ret, c ≠ Call.count_and_remove_duplicates src dst w ret := by
  intro c hc src dst w ret hcd
  subst hcd
  rw [nbr_expand_calls] at hc
  rcases List.mem_append.mp hc with hc | hc
  · cases multi_gpu <;> simp [nbr_shuffle, nbr_init] at hc
  · split at hc <;> simp at hc

/-- A run of `uniform_nbr_sample_impl` whose first expander result has src and
dst of one length and no weight column stops at the first append step, after
that one expander call and before any deduplicator call. -/
theorem nbr_impl_unweighted_stops {G WV : Type} (ops : plain_ops G WV) (multi_gpu : Bool)
    (handle : handle_t) (graph_view : G) (wv : Option WV)
    (d_in : device_uvector vertex_t) (k : Int) (ks : List Int) (wr : Bool) (seed : Nat)
    (hfv : (nbr_expand ops handle graph_view wv wr
      (nbr_shuffle ops multi_gpu handle graph_view (nbr_init multi_gpu handle d_in seed))
      k).2.follows_view false) :
    ∃ a, uniform_nbr_sample_impl ops multi_gpu handle graph_view wv d_in (k :: ks) wr seed =
        .error a ∧
      a.reason = Failure.bad_optional_access ∧
      expander_modes a.calls = [fan_out_mode wr k] ∧
      (∃ o, expander_outputs a.calls = [o] ∧ o.weights = none) ∧
      ∀ c ∈ a.calls, ∀ src dst w ret, c ≠ Call.count_and_remove_duplicates src dst w ret := by
  obtain ⟨h1, h2⟩ := follows_view_false hfv
  refine ⟨_, nbr_impl_first_hop_no_weights ops multi_gpu handle graph_view wv d_in k ks wr
    seed h1 h2, rfl, ?_, ⟨_, ?_, h2⟩, ?_⟩
  · obtain ⟨sh, c1, -, -, c4, -⟩ := nbr_shuffle_calls ops multi_gpu handle graph_view
      (nbr_init multi_gpu handle d_in seed)
    simp only
    rw [nbr_expand_calls, c1, expander_modes_append, expander_modes_append, c4,
      (expander_call_facts _ _ _ _ _ _).1]
    rfl
  · obtain ⟨sh, c1, c2, -⟩ := nbr_shuffle_calls ops multi_gpu handle graph_view
      (nbr_init multi_gpu handle d_in seed)
    simp only
    rw [nbr_expand_calls, c1, expander_outputs_append, expander_outputs_append, c2,
      (expander_call_facts _ _ _ _ _ _).2.2.2]
    rfl
  · exact nbr_first_hop_calls_no_dedup ops multi_gpu handle graph_view wv wr d_in k seed

/-- The same, with the condition stated of the results the run logs: src and
dst of one length, and a weight column exactly when a weight view was supplied,
which it was not. -/
theorem nbr_impl_unweighted_stops_of_log {G WV : Type} (ops : plain_ops G WV)
    (multi_gpu : Bool) (handle : handle_t) (graph_view : G) (wv : Option WV)
    (d_in : device_uvector vertex_t) (k : Int) (ks : List Int) (wr : Bool) (seed : Nat)
    (hview : wv.isSome = false)
    (hfv : ∀ o ∈ expander_outputs (calls_of Returned.calls
        (uniform_nbr_sample_impl ops multi_gpu handle graph_view wv d_in (k :: ks) wr seed)),
      o.follows_view wv.isSome) :
    ∃ a, uniform_nbr_sample_impl ops multi_gpu handle graph_view wv d_in (k :: ks) wr seed =
        .error a ∧
      a.reason = Failure.bad_optional_access ∧
      expander_modes a.calls = [fan_out_mode wr k] ∧
      (∃ o, expander_outputs a.calls = [o] ∧ o.weights = none) ∧
      ∀ c ∈ a.calls, ∀ src dst w ret, c ≠ Call.count_and_remove_duplicates src dst w ret := by
  apply nbr_impl_unweighted_stops
  obtain ⟨tl, c, -⟩ := nbr_impl_calls ops multi_gpu handle graph_view wv wr d_in (k :: ks)
    seed (by simp)
  have hmem := nbr_loop_first_output ops multi_gpu handle graph_view wv wr k ks
    (nbr_init multi_gpu handle d_in seed)
  have := hfv _ (by
    rw [c, expander_outputs_append]
    exact List.mem_append_left _ hmem)
  rw [hview] at this
  exact this

end cugraph

namespace cugraph
open detail

/-! ## C11 -/

/-- C11 on the code of `uniform_nbr_sample`.  When every expander result of the
run is a three-column table (src, dst and weights present and of one length),
the run returns for a non-empty fan-out of fewer than 2^31 entries, and what it
returns is `count_and_remove_duplicates` applied to the concatenation, in hop
order, of the expander results, one per fan-out entry; when the deduplicator
keeps the set of rows of that input and repeats none, the returned table has no
repeated (src, dst, weight) row and its rows are exactly the rows some hop
produced.  Without an edge weight view, when the expander returns a weight
column exactly when a view was supplied, there is no returned table: the first
append step dereferences the absent weight column (lines 111-114) and the run
stops there, after one expander call and before any call of the
deduplicator. -/
theorem C11_plain_dedup_needs_weight_column {G WV : Type} (ops : plain_ops G WV)
    (multi_gpu : Bool) (handle : handle_t) (graph_view : G) (edge_weight_view : Option WV)
    (starting_vertices : device_uvector vertex_t) (fan_out : List Int)
    (with_replacement : Bool) (seed : Nat) :
    ((∀ o ∈ expander_outputs (calls_of Returned.calls
        (uniform_nbr_sample ops multi_gpu handle graph_view edge_weight_view
          starting_vertices fan_out with_replacement seed)), o.well_formed) →
    (fan_out ≠ [] → fan_out.length < 2 ^ 31 →
      ∃ r, uniform_nbr_sample ops multi_gpu handle graph_view edge_weight_view
        starting_vertices fan_out with_replacement seed = .ok r) ∧
    ∀ r, uniform_nbr_sample ops multi_gpu handle graph_view edge_weight_view
        starting_vertices fan_out with_replacement seed = .ok r →
      (expander_outputs r.calls).length = fan_out.length ∧
      r.value = ops.count_and_remove_duplicates handle
        ((expander_outputs r.calls).map (fun o => o.src)).flatten
        ((expander_outputs r.calls).map (fun o => o.dst)).flatten
        ((expander_outputs r.calls).map (fun o => o.weights.getD [])).flatten ∧
      plain_rows ((expander_outputs r.calls).map (fun o => o.src)).flatten
          ((expander_outputs r.calls).map (fun o => o.dst)).flatten
          ((expander_outputs r.calls).map (fun o => o.weights.getD [])).flatten =
        ((expander_outputs r.calls).map (fun o => o.rows)).flatten ∧
      ((plain_rows r.value.src r.value.dst r.value.weight).Nodup ∧
        (∀ x, x ∈ plain_rows r.value.src r.value.dst r.value.weight ↔
          x ∈ plain_rows ((expander_outputs r.calls).map (fun o => o.src)).flatten
            ((expander_outputs r.calls).map (fun o => o.dst)).flatten
            ((expander_outputs r.calls).map (fun o => o.weights.getD [])).flatten) →
        (plain_rows r.value.src r.value.dst r.value.weight).Nodup ∧
        ∀ x, x ∈ plain_rows r.value.src r.value.dst r.value.weight ↔
          ∃ o ∈ expander_outputs r.calls, x ∈ o.rows)) ∧
    (edge_weight_view.isSome = false → fan_out ≠ [] →
      (∀ o ∈ expander_outputs (calls_of Returned.calls
        (uniform_nbr_sample ops multi_gpu handle graph_view edge_weight_view
          starting_vertices fan_out with_replacement seed)),
        o.follows_view edge_weight_view.isSome) →
      ∃ a, uniform_nbr_sample ops multi_gpu handle graph_view edge_weight_view
          starting_vertices fan_out with_replacement seed = .error a ∧
        a.reason = Failure.bad_optional_access ∧
        (∃ o, expander_outputs a.calls = [o] ∧ o.weights = none) ∧
        ∀ c ∈ a.calls, ∀ src dst w ret,
          c ≠ Call.count_and_remove_duplicates src dst w ret) := by
  rw [uniform_nbr_sample_eq]
  constructor
  · intro hwf
    constructor
    · intro hk hlen
      obtain ⟨tl, c, -⟩ := nbr_impl_calls ops multi_gpu handle graph_view edge_weight_view
        with_replacement starting_vertices fan_out seed hk
      have hw2 : ∀ o ∈ expander_outputs (calls_of nbr_state.calls
          (nbr_loop ops multi_gpu handle graph_view edge_weight_view with_replacement
            (nbr_init multi_gpu handle starting_vertices seed) fan_out)), o.well_formed := by
        intro o ho
        apply hwf
        rw [c, expander_outputs_append]
        exact List.mem_append_left _ ho
      obtain ⟨s, hs⟩ := nbr_loop_progress ops multi_gpu handle graph_view edge_weight_view
        with_replacement fan_out _ (nbr_init_aligned multi_gpu handle starting_vertices seed)
        (by simp only [nbr_init]; omega) hw2
      unfold uniform_nbr_sample_impl
      rw [if_pos (List.length_pos.mpr hk)]
      simp only [hs]
      exact ⟨_, rfl⟩
    · intro r hr
      rw [hr] at hwf
      simp only [calls_of] at hwf
      obtain ⟨c1, c2⟩ := nbr_impl_columns ops multi_gpu handle graph_view edge_weight_view
        with_replacement starting_vertices fan_out seed r hr hwf
      have c3 := plain_rows_flatten (expander_outputs r.calls) hwf
      refine ⟨c1, c2, c3, ?_⟩
      rintro ⟨n1, n2⟩
      refine ⟨n1, fun x => ?_⟩
      rw [n2 x, c3]
      simp only [List.mem_flatten, List.mem_map]
      constructor
      · rintro ⟨l, ⟨o, ho, rfl⟩, hx⟩
        exact ⟨o, ho, hx⟩
      · rintro ⟨o, ho, hx⟩
        exact ⟨_, ⟨o, ho, rfl⟩, hx⟩
  · intro hview hk hfv
    obtain ⟨k, ks, rfl⟩ := List.exists_cons_of_ne_nil hk
    obtain ⟨a, h1, h2, -, h4, h5⟩ := nbr_impl_unweighted_stops_of_log ops multi_gpu handle
      graph_view edge_weight_view starting_vertices k ks with_replacement seed hview hfv
    exact ⟨a, h1, h2, h4, h5⟩

/-- The unweighted chain run logs one expander result, without weights. -/
theorem chain_plain_run_without_weights_follows_view :
    ∀ o ∈ expander_outputs (calls_of Returned.calls
        (uniform_nbr_sample chain_plain_ops false ⟨0, 1⟩ () none [some 1] [2, 1] true 42)),
      o.follows_view (none : Option Unit).isSome := by
  rw [chain_plain_run_without_weights]
  intro o ho
  simp only [calls_of, expander_outputs, List.filterMap, Call.expander_output,
    List.mem_singleton] at ho
  subst ho
  exact ⟨rfl, rfl⟩

theorem C11_plain_dedup_needs_weight_column_witness :
    (∃ r, uniform_nbr_sample chain_plain_ops false ⟨0, 1⟩ () (some ()) [some 1] [2, -1] true 42 =
        .ok r ∧
      plain_rows r.value.src r.value.dst r.value.weight =
        [(some 1, some 2, some 1), (some 2, some 3, some 2)] ∧
      ((expander_outputs r.calls).map (fun o => o.rows)).flatten =
        [(some 1, some 2, some 1), (some 1, some 2, some 1),
         (some 2, some 3, some 2), (some 2, some 3, some 2)] ∧
      (plain_rows r.value.src r.value.dst r.value.weight).Nodup ∧
      ∀ x, x ∈ plain_rows r.value.src r.value.dst r.value.weight ↔
        ∃ o ∈ expander_outputs r.calls, x ∈ o.rows) ∧
    (∃ a, uniform_nbr_sample chain_plain_ops false ⟨0, 1⟩ () none [some 1] [2, 1] true 42 =
        .error a ∧
      a.reason = Failure.bad_optional_access ∧
      (∃ o, expander_outputs a.calls = [o] ∧ o.weights = none) ∧
      ∀ c ∈ a.calls, ∀ src dst w ret,
        c ≠ Call.count_and_remove_duplicates src dst w ret) := by
  constructor
  · have h := (C11_plain_dedup_needs_weight_column chain_plain_ops false ⟨0, 1⟩ ()
      (some ()) [some 1] [2, -1] true 42).1 chain_plain_run_well_formed
    obtain ⟨r, hr⟩ := h.1 (by simp) (by simp)
    obtain ⟨-, -, -, h4⟩ := h.2 r hr
    have hv : r = _ := Except.ok.inj (hr.symm.trans chain_plain_run)
    refine ⟨r, hr, by rw [hv]; rfl, by rw [hv]; rfl, ?_⟩
    apply h4
    rw [hv]
    refine ⟨by decide, fun x => ?_⟩
    simp [plain_rows, expander_outputs, List.filterMap, Call.expander_output]
  · exact (C11_plain_dedup_needs_weight_column chain_plain_ops false ⟨0, 1⟩ () none
      [some 1] [2, 1] true 42).2 rfl (by simp) chain_plain_run_without_weights_follows_view

end cugraph

namespace cugraph
open detail

/-! ## C13 -/

end cugraph

namespace cugraph
open detail

/-- Where the cells of the columns `uniform_neighbor_sample_impl` returns come
from: src, dst, edge id, weight and edge type hold cells of the expander
results, hop holds the loop index, and every cell of the label column is
unwritten. -/
theorem sample_impl_cells {G WV TV : Type} (ops : sample_ops G WV TV)
    (multi_gpu : Bool) (handle : handle_t) (graph_view : G) (wv : Option WV) (tv : Option TV)
    (d_in : device_uvector vertex_t) (d_labels : Option (device_uvector Int))
    (fan_out : List Int) (wr : Bool) (seed : Nat)
    (r : Returned sample_result hop_output)
    (h : uniform_neighbor_sample_impl ops multi_gpu handle graph_view wv tv d_in d_labels
      fan_out wr seed = .ok r) :
    r.value.dst = ((expander_outputs r.calls).map (fun o => o.dst)).flatten ∧
    r.value.src =
      ((expander_outputs r.calls).map (fun o => o.src.take o.dst.length)).flatten ∧
    r.value.edge_id =
      ((expander_outputs r.calls).map (fun o => o.edge_id.take o.dst.length)).flatten ∧
    r.value.hop = hop_column 0 (expander_outputs r.calls) ∧
    r.value.weight = wv.map (fun _ =>
      ((expander_outputs r.calls).map
        (fun o => (o.weight.getD []).take o.dst.length)).flatten) ∧
    r.value.edge_type = tv.map (fun _ =>
      ((expander_outputs r.calls).map
        (fun o => (o.edge_type.getD []).take o.dst.length)).flatten) ∧
    r.value.label = d_labels.map (fun _ => List.replicate r.value.dst.length none) := by
  obtain ⟨-, s, hs, hc, hv⟩ := sample_impl_ok h
  obtain ⟨t, c1, -, -, -, c5, c6, c7, c8, c9, c10, c11⟩ :=
    sample_loop_columns _ _ _ _ _ _ _ _ _ _ (sample_init_aligned _ _ _ _ _ _ _) hs
  have ht : r.calls = t := by rw [hc, c1]; simp [sample_init]
  rw [hv, ht]
  simp only
  rw [c5, c6, c7, c8, c9, c10, c11, flatten_replicate_none]
  refine ⟨by simp [sample_init], by simp [sample_init], by simp [sample_init],
    by simp [sample_init], ?_, ?_, ?_⟩
  · cases wv <;> simp [sample_init]
  · cases tv <;> simp [sample_init]
  · cases d_labels <;> simp [sample_init]

theorem expander_readers_congr {Out : Type} {a b : List (Call Out)} (h : a = b) :
    hop_rng_seeds a = hop_rng_seeds b ∧ expander_batches a = expander_batches b ∧
    expander_modes a = expander_modes b ∧ expander_outputs a = expander_outputs b := by
  subst h
  exact ⟨rfl, rfl, rfl, rfl⟩

/-! ## C14 -/

/-- C14 on the code of both entry points: what two runs on the same inputs
share when the second set of primitives returns, on the arguments of every
call logged by the first run, the value logged there (as it does when the
primitives are the same functions of their arguments).

`uniform_neighbor_sample`: the second run makes the same calls with the same
arguments, so the same `RngState` seeds hop by hop, and stops with the same
failure or returns the same src, dst, edge id, hop, weight and edge type
columns, whose cells are cells of the expander results and loop indices.  The
label columns agree in presence and length only: every cell of a returned
label column is unwritten (lines 234, 254-260), so what the program returns
there is the content of uninitialised memory and is not determined by the
inputs.

`uniform_nbr_sample`: the second run hands the expander the same seeds, batches
and modes and gets the same results, and stops for the same reason; when the
expander results are three-column tables of one length, so that no cell of the
accumulated columns is unwritten, the two runs return the same table. -/
theorem C14_runs_agree_on_written_cells {G WV TV : Type}
    (ops1 ops2 : sample_ops G WV TV) (pops1 pops2 : plain_ops G WV) (multi_gpu : Bool)
    (handle : handle_t) (graph_view : G) (wv : Option WV) (tv : Option TV)
    (starting_vertices : device_uvector vertex_t)
    (starting_labels : Option (device_uvector Int)) (fan_out : List Int) (wr : Bool)
    (seed : Nat) :
    ((∀ c ∈ calls_of Returned.calls
        (uniform_neighbor_sample ops1 multi_gpu handle graph_view wv tv starting_vertices
          starting_labels fan_out wr seed), ops2.answers handle graph_view wv tv c) →
      calls_of Returned.calls
          (uniform_neighbor_sample ops2 multi_gpu handle graph_view wv tv starting_vertices
            starting_labels fan_out wr seed) =
        calls_of Returned.calls
          (uniform_neighbor_sample ops1 multi_gpu handle graph_view wv tv starting_vertices
            starting_labels fan_out wr seed) ∧
      hop_rng_seeds (calls_of Returned.calls
          (uniform_neighbor_sample ops2 multi_gpu handle graph_view wv tv starting_vertices
            starting_labels fan_out wr seed)) =
        hop_rng_seeds (calls_of Returned.calls
          (uniform_neighbor_sample ops1 multi_gpu handle graph_view wv tv starting_vertices
            starting_labels fan_out wr seed)) ∧
      (∀ a, uniform_neighbor_sample ops1 multi_gpu handle graph_view wv tv starting_vertices
          starting_labels fan_out wr seed = .error a →
        uniform_neighbor_sample ops2 multi_gpu handle graph_view wv tv starting_vertices
          starting_labels fan_out wr seed = .error a) ∧
      (∀ r1, uniform_neighbor_sample ops1 multi_gpu handle graph_view wv tv starting_vertices
          starting_labels fan_out wr seed = .ok r1 →
        ∃ r2, uniform_neighbor_sample ops2 multi_gpu handle graph_view wv tv
            starting_vertices starting_labels fan_out wr seed = .ok r2 ∧
          r2.value.src = r1.value.src ∧ r2.value.dst = r1.value.dst ∧
          r2.value.edge_id = r1.value.edge_id ∧ r2.value.hop = r1.value.hop ∧
          r2.value.weight = r1.value.weight ∧ r2.value.edge_type = r1.value.edge_type ∧
          r2.value.label.map List.length = r1.value.label.map List.length)) ∧
    (∀ r, uniform_neighbor_sample ops1 multi_gpu handle graph_view wv tv starting_vertices
        starting_labels fan_out wr seed = .ok r →
      r.value.dst = ((expander_outputs r.calls).map (fun o => o.dst)).flatten ∧
      r.value.src =
        ((expander_outputs r.calls).map (fun o => o.src.take o.dst.length)).flatten ∧
      r.value.edge_id =
        ((expander_outputs r.calls).map (fun o => o.edge_id.take o.dst.length)).flatten ∧
      r.value.hop = hop_column 0 (expander_outputs r.calls) ∧
      r.value.weight = wv.map (fun _ =>
        ((expander_outputs r.calls).map
          (fun o => (o.weight.getD []).take o.dst.length)).flatten) ∧
      r.value.edge_type = tv.map (fun _ =>
        ((expander_outputs r.calls).map
          (fun o => (o.edge_type.getD []).take o.dst.length)).flatten) ∧
      r.value.label =
        starting_labels.map (fun _ => List.replicate r.value.dst.length none)) ∧
    ((∀ c ∈ calls_of Returned.calls
        (uniform_nbr_sample pops1 multi_gpu handle graph_view wv starting_vertices fan_out wr
          seed), pops2.answers handle graph_view wv c) →
      hop_rng_seeds (calls_of Returned.calls
          (uniform_nbr_sample pops2 multi_gpu handle graph_view wv starting_vertices fan_out wr
            seed)) =
        hop_rng_seeds (calls_of Returned.calls
          (uniform_nbr_sample pops1 multi_gpu handle graph_view wv starting_vertices fan_out wr
            seed)) ∧
      expander_batches (calls_of Returned.calls
          (uniform_nbr_sample pops2 multi_gpu handle graph_view wv starting_vertices fan_out wr
            seed)) =
        expander_batches (calls_of Returned.calls
          (uniform_nbr_sample pops1 multi_gpu handle graph_view wv starting_vertices fan_out wr
            seed)) ∧
      expander_modes (calls_of Returned.calls
          (uniform_nbr_sample pops2 multi_gpu handle graph_view wv starting_vertices fan_out wr
            seed)) =
        expander_modes (calls_of Returned.calls
          (uniform_nbr_sample pops1 multi_gpu handle graph_view wv starting_vertices fan_out wr
            seed)) ∧
      expander_outputs (calls_of Returned.calls
          (uniform_nbr_sample pops2 multi_gpu handle graph_view wv starting_vertices fan_out wr
            seed)) =
        expander_outputs (calls_of Returned.calls
          (uniform_nbr_sample pops1 multi_gpu handle graph_view wv starting_vertices fan_out wr
            seed)) ∧
      (∀ a, uniform_nbr_sample pops1 multi_gpu handle graph_view wv starting_vertices fan_out
          wr seed = .error a →
        ∃ a2, uniform_nbr_sample pops2 multi_gpu handle graph_view wv starting_vertices
            fan_out wr seed = .error a2 ∧ a2.reason = a.reason) ∧
      ((∀ o ∈ expander_outputs (calls_of Returned.calls
          (uniform_nbr_sample pops1 multi_gpu handle graph_view wv starting_vertices fan_out
            wr seed)), o.well_formed) →
        ∀ r1, uniform_nbr_sample pops1 multi_gpu handle graph_view wv starting_vertices
            fan_out wr seed = .ok r1 →
          ∃ r2, uniform_nbr_sample pops2 multi_gpu handle graph_view wv starting_vertices
              fan_out wr seed = .ok r2 ∧
            r2.value = r1.value ∧
            r1.value = pops1.count_and_remove_duplicates handle
              ((expander_outputs r1.calls).map (fun o => o.src)).flatten
              ((expander_outputs r1.calls).map (fun o => o.dst)).flatten
              ((expander_outputs r1.calls).map (fun o => o.weights.getD [])).flatten)) := by
  simp only [uniform_neighbor_sample_eq, uniform_nbr_sample_eq]
  refine ⟨fun h => ?_, fun r hr => ?_, fun h => ?_⟩
  · have e := sample_impl_congr ops1 ops2 _ _ _ _ _ _ _ _ _ _ h
    refine ⟨by rw [e], by rw [e], fun a ha => by rw [e, ha], fun r1 hr1 => ?_⟩
    exact ⟨r1, by rw [e, hr1], rfl, rfl, rfl, rfl, rfl, rfl, rfl⟩
  · exact sample_impl_cells ops1 multi_gpu handle graph_view wv tv starting_vertices
      starting_labels fan_out wr seed r hr
  · have e := nbr_impl_congr pops1 pops2 _ _ _ _ _ _ _ _ h
    obtain ⟨q1, q2, q3, q4⟩ := expander_readers_congr (congrArg (calls_of Returned.calls) e)
    refine ⟨q1, q2, q3, q4, fun a ha => ⟨a, by rw [e, ha], rfl⟩, fun hwf r1 hr1 => ?_⟩
    rw [hr1] at hwf
    simp only [calls_of] at hwf
    exact ⟨r1, by rw [e, hr1], rfl,
      (nbr_impl_columns pops1 multi_gpu handle graph_view wv wr starting_vertices fan_out
        seed r1 hr1 hwf).2⟩

/-- C14 at the concrete run: `chain_ops_short` differs from `chain_ops` on
long batches, answers the two logged calls alike, and gives the same written
columns; the four cells of the returned label column are unwritten. -/
theorem C14_runs_agree_on_written_cells_witness :
    chain_ops_short.sample_edges ⟨0, 1⟩ () (some ()) (none : Option Unit) 42
        [some 1, some 1, some 1] none 1 true ≠
      chain_ops.sample_edges ⟨0, 1⟩ () (some ()) (none : Option Unit) 42
        [some 1, some 1, some 1] none 1 true ∧
    uniform_neighbor_sample chain_ops false ⟨0, 1⟩ () (some ()) (none : Option Unit)
        [some 1] (some [some 5]) [2, -1] true 42 = .ok chain_returned ∧
    (∃ r2, uniform_neighbor_sample chain_ops_short false ⟨0, 1⟩ () (some ())
        (none : Option Unit) [some 1] (some [some 5]) [2, -1] true 42 = .ok r2 ∧
      r2.value.src = [some 1, some 1, some 2, some 2] ∧
      r2.value.dst = [some 2, some 2, some 3, some 3] ∧
      r2.value.hop = [some 0, some 0, some 1, some 1] ∧
      r2.value.label.map List.length = some 4) ∧
    chain_returned.value.label = some [none, none, none, none] := by
  have h := C14_runs_agree_on_written_cells chain_ops chain_ops_short chain_plain_ops
      chain_plain_ops false ⟨0, 1⟩ () (some ()) (none : Option Unit) [some 1]
      (some [some 5]) [2, -1] true 42
  have hrun : uniform_neighbor_sample chain_ops false ⟨0, 1⟩ () (some ()) (none : Option Unit)
      [some 1] (some [some 5]) [2, -1] true 42 = .ok chain_returned := by rfl
  obtain ⟨r2, hr2, e1, e2, -, e4, -, -, e7⟩ :=
    (h.1 chain_ops_short_answers_chain_run).2.2.2 chain_returned hrun
  have hl := (h.2.1 chain_returned hrun).2.2.2.2.2.2
  refine ⟨by decide, hrun, ⟨r2, hr2, by rw [e1]; rfl, by rw [e2]; rfl, by rw [e4]; rfl,
    by rw [e7]; rfl⟩, ?_⟩
  rw [hl]
  rfl

end cugraph

namespace cugraph
open detail

/-! ## C16 -/

end cugraph

namespace cugraph
open detail

/-! ## C17 -/

end cugraph
